import Mathlib

/-!
# nplm: model serialization, premultiplication and the caching scorer

A shallow embedding of `src/model.cpp`, `src/neuralNetwork.h` and the minibatch loop of
`src/testNeuralNetwork.cpp`, followed by theorems about the embedded code.

Conventions of the embedding.

* C++ `int` values are `Int`.  Signed arithmetic whose overflow is undefined in C++ is exact,
  except for the two cache counters, which are incremented once per lookup and are wrapped to
  32 bits explicitly.
* `std::string` is `List Char`; an input stream is the list of the lines that successive
  `getline` calls return.
* Eigen matrices are a pair of dimensions and a coefficient function.
* `double` is an arbitrary type `R` carrying the arithmetic that the code uses.
-/

namespace nplm

/-! ## Dense matrices -/

/-- Dense matrix in the style of `Eigen::Matrix<R,Dynamic,Dynamic>`: its two dimensions and its
coefficient function.  Only coefficients inside the dimensions are meaningful. -/
structure Mat (R : Type) where
  rows : Nat
  cols : Nat
  coeff : Nat → Nat → R

namespace Mat

variable {R : Type}

/-- Eigen `resize(rows, cols)`: the dimensions change; Eigen leaves the coefficients
unspecified after a change of size, the embedding keeps the old coefficient function. -/
def resize (M : Mat R) (rows cols : Nat) : Mat R :=
  { M with rows := rows, cols := cols }

/-- Eigen `fill(v)`: every coefficient becomes `v`. -/
def fill (M : Mat R) (v : R) : Mat R :=
  { M with coeff := fun _ _ => v }

/-- Eigen `middleCols(start, n)` read as a value: the block of `n` columns from `start`. -/
def middleCols (M : Mat R) (start n : Nat) : Mat R :=
  { rows := M.rows, cols := n, coeff := fun r c => M.coeff r (start + c) }

/-- Eigen `leftCols(n)` read as a value: the block of the first `n` columns. -/
def leftCols (M : Mat R) (n : Nat) : Mat R :=
  M.middleCols 0 n

/-- Eigen `transpose()`. -/
def transpose (M : Mat R) : Mat R :=
  { rows := M.cols, cols := M.rows, coeff := fun r c => M.coeff c r }

/-- Eigen matrix product `A * B`; the inner dimension is the number of columns of `A`. -/
def mul [Semiring R] (A B : Mat R) : Mat R :=
  { rows := A.rows, cols := B.cols,
    coeff := fun r c => ∑ k ∈ Finset.range A.cols, A.coeff r k * B.coeff k c }

/-- Assignment `M.middleCols(start, n) = B`: the `n` columns from `start` are overwritten by
the columns of `B`, every other coefficient is kept. -/
def setMiddleCols (M : Mat R) (start n : Nat) (B : Mat R) : Mat R :=
  { M with coeff := fun r c =>
      if start ≤ c ∧ c < start + n then B.coeff r (c - start) else M.coeff r c }

/-- Two matrices have the same dimensions. -/
def SameDims (A B : Mat R) : Prop :=
  A.rows = B.rows ∧ A.cols = B.cols

end Mat

/-! ## The model (`model.h` / `model.cpp`) -/

/-- The enumeration `activation_function_type`, represented by its integer value. -/
abbrev activation_function_type := Nat

/-- The class `Input_word_embeddings`: the embedding table `W` (one row per word) and the
sizes given to its `resize`. -/
structure Input_word_embeddings (R : Type) where
  W : Mat R
  vocab_size : Int
  context_size : Int

/-- The class `Linear_layer`: weights `U` and biases `b`. -/
structure Linear_layer (R : Type) where
  U : Mat R
  b : Mat R

/-- The class `Activation_function`: its size and the selected function. -/
structure Activation_function where
  size : Int
  f : activation_function_type

/-- The class `Output_word_embeddings`: weights `W` and biases `b`. -/
structure Output_word_embeddings (R : Type) where
  W : Mat R
  b : Mat R

/-- The class `model`: the six topology integers, the activation selector, the
`premultiplied` flag and the sub-objects. -/
structure model (R : Type) where
  input_layer : Input_word_embeddings R
  first_hidden_linear : Linear_layer R
  first_hidden_activation : Activation_function
  second_hidden_linear : Linear_layer R
  second_hidden_activation : Activation_function
  output_layer : Output_word_embeddings R
  ngram_size : Int
  input_vocab_size : Int
  output_vocab_size : Int
  input_embedding_dimension : Int
  num_hidden : Int
  output_embedding_dimension : Int
  activation_function : activation_function_type
  premultiplied : Bool

section Model

variable {R : Type}

/-- Modelled from the spec: `Input_word_embeddings::resize(rows, cols, context)` is declared
outside the given sources; the embedding table becomes `rows x cols` (vocabulary by
embedding dimension) and the context size is recorded. -/
def Input_word_embeddings.resize (l : Input_word_embeddings R) (rows cols context : Int) :
    Input_word_embeddings R :=
  { W := l.W.resize rows.toNat cols.toNat, vocab_size := rows, context_size := context }

/-- Modelled from the spec: `Linear_layer::resize(rows, cols)` is declared outside the given
sources; the weight matrix becomes `rows x cols` and the bias a column of `rows` entries. -/
def Linear_layer.resize (l : Linear_layer R) (rows cols : Int) : Linear_layer R :=
  { U := l.U.resize rows.toNat cols.toNat, b := l.b.resize rows.toNat 1 }

/-- Modelled from the spec: `Activation_function::resize(size)` is declared outside the given
sources; it records the size. -/
def Activation_function.resize (a : Activation_function) (size : Int) : Activation_function :=
  { a with size := size }

/-- Modelled from the spec: `Output_word_embeddings::resize(rows, cols)` is declared outside
the given sources; the weight matrix becomes `rows x cols` and the bias a column of `rows`
entries. -/
def Output_word_embeddings.resize (l : Output_word_embeddings R) (rows cols : Int) :
    Output_word_embeddings R :=
  { W := l.W.resize rows.toNat cols.toNat, b := l.b.resize rows.toNat 1 }

/-- The function `model::resize` (model.cpp, lines 51-81). -/
def model.resize (m : model R) (ngram_size input_vocab_size output_vocab_size
    input_embedding_dimension num_hidden output_embedding_dimension : Int) : model R :=
  let input_layer :=
    m.input_layer.resize input_vocab_size input_embedding_dimension (ngram_size - 1)
  let m1 : model R :=
    if num_hidden = 0 then
      { m with
        input_layer := input_layer
        first_hidden_linear := m.first_hidden_linear.resize output_embedding_dimension
          (input_embedding_dimension * (ngram_size - 1))
        first_hidden_activation := m.first_hidden_activation.resize output_embedding_dimension
        second_hidden_linear := m.second_hidden_linear.resize 1 1
        second_hidden_activation := m.second_hidden_activation.resize 1 }
    else
      { m with
        input_layer := input_layer
        first_hidden_linear := m.first_hidden_linear.resize num_hidden
          (input_embedding_dimension * (ngram_size - 1))
        first_hidden_activation := m.first_hidden_activation.resize num_hidden
        second_hidden_linear := m.second_hidden_linear.resize output_embedding_dimension
          num_hidden
        second_hidden_activation :=
          m.second_hidden_activation.resize output_embedding_dimension }
  { m1 with
    output_layer := m1.output_layer.resize output_vocab_size output_embedding_dimension
    ngram_size := ngram_size
    input_vocab_size := input_vocab_size
    output_vocab_size := output_vocab_size
    input_embedding_dimension := input_embedding_dimension
    num_hidden := num_hidden
    output_embedding_dimension := output_embedding_dimension
    premultiplied := false }

/-- Two embedding tables have the same dimensions. -/
def Input_word_embeddings.SameDims (a b : Input_word_embeddings R) : Prop :=
  a.W.SameDims b.W

/-- The weights and the biases of two linear layers have the same dimensions. -/
def Linear_layer.SameDims (a b : Linear_layer R) : Prop :=
  a.U.SameDims b.U ∧ a.b.SameDims b.b

/-- The weights and the biases of two output layers have the same dimensions. -/
def Output_word_embeddings.SameDims (a b : Output_word_embeddings R) : Prop :=
  a.W.SameDims b.W ∧ a.b.SameDims b.b

/-- The sub-objects that `model::read` fills have the same dimensions in two models. -/
def model.SameDims (a b : model R) : Prop :=
  a.input_layer.SameDims b.input_layer
    ∧ a.first_hidden_linear.SameDims b.first_hidden_linear
    ∧ a.second_hidden_linear.SameDims b.second_hidden_linear
    ∧ a.output_layer.SameDims b.output_layer

/-- The model after `resize` with its own six topology integers.  Its sub-objects have the
dimensions that `readConfig` gives to the sub-objects of any model when it reads the config
section that `model::write` emits for `m`. -/
def model.resizeToTopology (m : model R) : model R :=
  m.resize m.ngram_size m.input_vocab_size m.output_vocab_size m.input_embedding_dimension
    m.num_hidden m.output_embedding_dimension

/-- One iteration of the loop of `model::premultiply` (model.cpp, line 128): the block of
`input_vocab_size` columns at `i*input_vocab_size` of the new matrix receives the product of
the block of `input_embedding_dimension` columns at `i*input_embedding_dimension` of the old
matrix `U` with the transposed embedding table. -/
def premultiplyStep [Semiring R] (m : model R) (U : Mat R) (acc : Mat R) (i : Nat) : Mat R :=
  acc.setMiddleCols ((i : Int) * m.input_vocab_size).toNat m.input_vocab_size.toNat
    ((U.middleCols ((i : Int) * m.input_embedding_dimension).toNat
        m.input_embedding_dimension.toNat).mul m.input_layer.W.transpose)

/-- The function `model::premultiply` (model.cpp, lines 113-131). -/
def model.premultiply [Semiring R] (m : model R) : model R :=
  let context_size : Int := m.ngram_size - 1
  let U : Mat R := m.first_hidden_linear.U
  let U0 : Mat R :=
    if m.num_hidden = 0 then
      m.first_hidden_linear.U.resize m.output_embedding_dimension.toNat
        (m.input_vocab_size * context_size).toNat
    else
      m.first_hidden_linear.U.resize m.num_hidden.toNat
        (m.input_vocab_size * context_size).toNat
  let U1 : Mat R := (List.range context_size.toNat).foldl (premultiplyStep m U) U0
  { m with
    first_hidden_linear := { m.first_hidden_linear with U := U1 }
    input_layer := { m.input_layer with W := m.input_layer.W.resize 1 1 }
    premultiplied := true }

/-- The model is resized: every sub-object has the dimensions that `model::resize` gives it
for the six topology integers of the model (`resize_resized`). -/
def model.Resized (m : model R) : Prop :=
  m.input_layer.W.rows = m.input_vocab_size.toNat
    ∧ m.input_layer.W.cols = m.input_embedding_dimension.toNat
    ∧ m.first_hidden_linear.U.rows
        = (if m.num_hidden = 0 then m.output_embedding_dimension else m.num_hidden).toNat
    ∧ m.first_hidden_linear.U.cols = (m.input_embedding_dimension * (m.ngram_size - 1)).toNat
    ∧ m.second_hidden_linear.U.rows
        = (if m.num_hidden = 0 then 1 else m.output_embedding_dimension.toNat)
    ∧ m.second_hidden_linear.U.cols = (if m.num_hidden = 0 then 1 else m.num_hidden.toNat)
    ∧ m.output_layer.W.rows = m.output_vocab_size.toNat
    ∧ m.output_layer.W.cols = m.output_embedding_dimension.toNat

/-! ### The two first-stage computations that premultiplication relates -/

/-- The concatenation of the embedding rows `W[w_0], ..., W[w_{n-2}]` of a context. -/
def concatEmbeddingRows (W : Mat R) (context : List Int) : List R :=
  context.flatMap (fun w => (List.range W.cols).map (W.coeff w.toNat))

/-- Row `r` of the matrix `U` applied to the vector `x`. -/
def applyRow [Semiring R] (U : Mat R) (x : List R) (r : Nat) : R :=
  ∑ j ∈ Finset.range U.cols, U.coeff r j * x.getD j 0

/-- Row `r` of the sum, over the positions `i` of a context, of column `i*V + w_i` of the
matrix `U`. -/
def sumOfColumns [Semiring R] (U : Mat R) (V : Int) (context : List Int) (r : Nat) : R :=
  ∑ i ∈ Finset.range context.length, U.coeff r (((i : Int) * V + context.getD i 0).toNat)

/-- A small model used to instantiate the theorems: trigrams, two input words, embedding
dimension two, one hidden unit; `U = [1 2 3 4]`, `W = [[0 1] [10 11]]`. -/
def exampleModel (R : Type) [Semiring R] : model R :=
  { input_layer :=
      { W := { rows := 2, cols := 2, coeff := fun w k => 10 * w + k }
        vocab_size := 2, context_size := 2 }
    first_hidden_linear :=
      { U := { rows := 1, cols := 4, coeff := fun _ j => j + 1 }
        b := { rows := 1, cols := 1, coeff := fun _ _ => 0 } }
    first_hidden_activation := { size := 1, f := 0 }
    second_hidden_linear :=
      { U := { rows := 2, cols := 1, coeff := fun _ _ => 1 }
        b := { rows := 2, cols := 1, coeff := fun _ _ => 0 } }
    second_hidden_activation := { size := 2, f := 0 }
    output_layer :=
      { W := { rows := 3, cols := 2, coeff := fun _ _ => 1 }
        b := { rows := 3, cols := 1, coeff := fun _ _ => 0 } }
    ngram_size := 3
    input_vocab_size := 2
    output_vocab_size := 3
    input_embedding_dimension := 2
    num_hidden := 1
    output_embedding_dimension := 2
    activation_function := 0
    premultiplied := false }

/-- A model in which every matrix is `1 x 1`: bigrams, one input word, embedding dimension
one, one hidden unit; `U = [3]`, `W = [2]`.  On it every matrix operation of `premultiply`
has matching dimensions, whether the model is already premultiplied or not. -/
def tinyModel (R : Type) [Semiring R] : model R :=
  { input_layer :=
      { W := { rows := 1, cols := 1, coeff := fun _ _ => 2 }
        vocab_size := 1, context_size := 1 }
    first_hidden_linear :=
      { U := { rows := 1, cols := 1, coeff := fun _ _ => 3 }
        b := { rows := 1, cols := 1, coeff := fun _ _ => 0 } }
    first_hidden_activation := { size := 1, f := 0 }
    second_hidden_linear :=
      { U := { rows := 1, cols := 1, coeff := fun _ _ => 1 }
        b := { rows := 1, cols := 1, coeff := fun _ _ => 0 } }
    second_hidden_activation := { size := 1, f := 0 }
    output_layer :=
      { W := { rows := 1, cols := 1, coeff := fun _ _ => 1 }
        b := { rows := 1, cols := 1, coeff := fun _ _ => 0 } }
    ngram_size := 2
    input_vocab_size := 1
    output_vocab_size := 1
    input_embedding_dimension := 1
    num_hidden := 1
    output_embedding_dimension := 1
    activation_function := 0
    premultiplied := false }

end Model

/-! ## Lines and right-trimming (model.cpp, lines 16-49) -/

/-- A `std::string`, as the list of its characters. -/
abbrev Line := List Char

/-- An input stream, as the list of the lines that the next `getline` calls return; `getline`
fails on the empty list. -/
abbrev Stream := List Line

/-- The function `std::isspace` in the "C" locale: space, `\t`, `\n`, `\v`, `\f`, `\r`. -/
def isspace (c : Char) : Bool :=
  c = ' ' || c = '\t' || c = '\n' || c = Char.ofNat 11 || c = Char.ofNat 12 || c = '\r'

/-- The functor `NotSpace` (model.cpp, lines 30-39), outside Windows. -/
def NotSpace (c : Char) : Bool :=
  !isspace c

/-- The loop of `findLast` (model.cpp, lines 22-27) with the iterator at position `i`: while
`i > begin`, step back and return the position if the predicate holds there; return `last`
when the loop runs out. -/
def findLastLoop (s : Line) (pred : Char → Bool) (begin last : Nat) : Nat → Nat
  | 0 => last
  | i + 1 =>
    if i + 1 > begin then
      if pred (s.getD i ' ') then i else findLastLoop s pred begin last i
    else last

/-- The function `findLast` (model.cpp, lines 20-28) on the positions `[begin, last)` of `s`;
`last` plays the part of the iterator `end`. -/
def findLast (s : Line) (begin last : Nat) (pred : Char → Bool) : Nat :=
  findLastLoop s pred begin last last

/-- The function `rightTrim` (model.cpp, lines 41-49). -/
def rightTrim (s : Line) : Line :=
  let last := s.length
  let i := findLast s 0 s.length NotSpace
  if i = last then [] else s.take (i + 1)

/-! ## Reading and writing a model (model.cpp, lines 133-366) -/

/-- How a call can end without returning: the process is ended by `exit(code)`, a C++
exception leaves the call (`thrown`), or the call reads outside a vector (`undefined`). -/
inductive Failure where
  | exit (code : Int)
  | thrown
  | undefined
  deriving DecidableEq

/-- The result of a call: the returned value, or the way the call failed. -/
abbrev Outcome (α : Type) := Except Failure α

/-- The way a call failed, if it did. -/
def failureOf {α : Type} (r : Outcome α) : Option Failure :=
  match r with
  | .error f => some f
  | .ok _ => none

/-- The functions that model.cpp calls and that are declared outside the given sources,
taken as parameters.  A reader receives the lines that are still in the stream and the
object it fills, and returns the filled object with the number of lines it consumed; a
writer returns the lines it emits.

* `splitBySpace line` is the content of `fields` after `splitBySpace(line, fields)`.
* `lexical_cast_int` is `boost::lexical_cast<int>`; `none` stands for `bad_lexical_cast`.
* `readWordsFile` / `writeWordsFile` are the functions of util.h.
* `input_layer_read` / `input_layer_write` are `Input_word_embeddings::read` / `write`.
* `linear_read_weights`, ..., `linear_write_biases` are the four functions of `Linear_layer`.
* `output_read_weights`, ..., `output_write_biases` are those of `Output_word_embeddings`. -/
structure FileCollaborators (R : Type) where
  splitBySpace : Line → List Line
  lexical_cast_int : Line → Option Int
  string_to_activation_function : Line → activation_function_type
  activation_function_to_string : activation_function_type → Line
  readWordsFile : Stream → List Line → Outcome (List Line × Nat)
  writeWordsFile : List Line → List Line
  input_layer_read : Stream → Input_word_embeddings R → Outcome (Input_word_embeddings R × Nat)
  input_layer_write : Input_word_embeddings R → List Line
  linear_read_weights : Stream → Linear_layer R → Outcome (Linear_layer R × Nat)
  linear_write_weights : Linear_layer R → List Line
  linear_read_biases : Stream → Linear_layer R → Outcome (Linear_layer R × Nat)
  linear_write_biases : Linear_layer R → List Line
  output_read_weights :
    Stream → Output_word_embeddings R → Outcome (Output_word_embeddings R × Nat)
  output_write_weights : Output_word_embeddings R → List Line
  output_read_biases :
    Stream → Output_word_embeddings R → Outcome (Output_word_embeddings R × Nat)
  output_write_biases : Output_word_embeddings R → List Line

/-- The local variables of `readConfig` that are declared without a value (model.cpp, line
137) and are later passed to `resize`; their initial values are indeterminate. -/
structure ConfigLocals where
  ngram_size : Int
  input_embedding_dimension : Int
  num_hidden : Int
  output_embedding_dimension : Int

/-- The state of the loop of `readConfig`: the model (whose members `input_vocab_size` and
`output_vocab_size` the loop assigns directly), the locals, the local `activation_function`
and the lines written to `cerr`. -/
structure ConfigState (R : Type) where
  m : model R
  locals : ConfigLocals
  activation_function : activation_function_type
  cerr : List Line

/-- What `model::read` works on: the model, the two word lists (`output_words` is `none` for
a null pointer), the lines written to `cerr`, and the lines written to `log` (`none` for a
null pointer). -/
structure ReadState (R : Type) where
  m : model R
  input_words : List Line
  output_words : Option (List Line)
  cerr : List Line
  log : Option (List Line)

/-- One pass through the body of the loop of `model::read`: the loop ends (`done`), goes on
with the rest of the stream (`next`), or the call ends abnormally (`fail`). -/
inductive StepResult (R : Type) where
  | done (st : ReadState R)
  | next (st : ReadState R) (rest : Stream)
  | fail (f : Failure)

section ReadWrite

variable {R : Type}

/-- Modelled from the spec: `model::set_activation_function` is declared in model.h, outside
the given sources; it sets the selector of the model and of both activation stages. -/
def model.set_activation_function (m : model R) (f : activation_function_type) : model R :=
  { m with
    activation_function := f
    first_hidden_activation := { m.first_hidden_activation with f := f }
    second_hidden_activation := { m.second_hidden_activation with f := f } }

/-- The decimal text that `operator<<` writes for an `int`. -/
def showInt (v : Int) : Line :=
  (toString v).toList

/-! The keys that `readConfig` compares the first field of a config line with. -/

/-- The config key `ngram_size`. -/
def keyNgramSize : Line := "ngram_size".toList

/-- The config key `vocab_size`. -/
def keyVocabSize : Line := "vocab_size".toList

/-- The config key `input_vocab_size`. -/
def keyInputVocabSize : Line := "input_vocab_size".toList

/-- The config key `output_vocab_size`. -/
def keyOutputVocabSize : Line := "output_vocab_size".toList

/-- The config key `input_embedding_dimension`. -/
def keyInputEmbeddingDimension : Line := "input_embedding_dimension".toList

/-- The config key `num_hidden`. -/
def keyNumHidden : Line := "num_hidden".toList

/-- The config key `output_embedding_dimension`. -/
def keyOutputEmbeddingDimension : Line := "output_embedding_dimension".toList

/-- The config key `activation_function`. -/
def keyActivationFunction : Line := "activation_function".toList

/-- The config key `version`. -/
def keyVersion : Line := "version".toList

/-- The body of the loop of `readConfig` for one non-empty line (model.cpp, lines 141-168). -/
def readConfigLine (env : FileCollaborators R) (cs : ConfigState R) (line : Line) :
    Outcome (ConfigState R) :=
  match env.splitBySpace line with
  | [] => .error .undefined
  | [key] =>
    if key = keyNgramSize ∨ key = keyVocabSize ∨ key = keyInputVocabSize
        ∨ key = keyOutputVocabSize ∨ key = keyInputEmbeddingDimension
        ∨ key = keyNumHidden ∨ key = keyOutputEmbeddingDimension
        ∨ key = keyActivationFunction ∨ key = keyVersion then
      .error .undefined
    else .ok { cs with cerr := cs.cerr ++ ["warning: unrecognized field in config: ".toList ++ key] }
  | key :: value :: _ =>
    if key = keyNgramSize then
      match env.lexical_cast_int value with
      | none => .error .thrown
      | some v => .ok { cs with locals := { cs.locals with ngram_size := v } }
    else if key = keyVocabSize then
      match env.lexical_cast_int value with
      | none => .error .thrown
      | some v => .ok { cs with m := { cs.m with input_vocab_size := v, output_vocab_size := v } }
    else if key = keyInputVocabSize then
      match env.lexical_cast_int value with
      | none => .error .thrown
      | some v => .ok { cs with m := { cs.m with input_vocab_size := v } }
    else if key = keyOutputVocabSize then
      match env.lexical_cast_int value with
      | none => .error .thrown
      | some v => .ok { cs with m := { cs.m with output_vocab_size := v } }
    else if key = keyInputEmbeddingDimension then
      match env.lexical_cast_int value with
      | none => .error .thrown
      | some v => .ok { cs with locals := { cs.locals with input_embedding_dimension := v } }
    else if key = keyNumHidden then
      match env.lexical_cast_int value with
      | none => .error .thrown
      | some v => .ok { cs with locals := { cs.locals with num_hidden := v } }
    else if key = keyOutputEmbeddingDimension then
      match env.lexical_cast_int value with
      | none => .error .thrown
      | some v => .ok { cs with locals := { cs.locals with output_embedding_dimension := v } }
    else if key = keyActivationFunction then
      .ok { cs with activation_function := env.string_to_activation_function value }
    else if key = keyVersion then
      match env.lexical_cast_int value with
      | none => .error .thrown
      | some version => if version ≠ 1 then .error (.exit 1) else .ok cs
    else
      .ok { cs with cerr := cs.cerr ++ ["warning: unrecognized field in config: ".toList ++ key] }

/-- The loop of `readConfig` (model.cpp, line 139): lines are taken until `getline` fails or
returns the empty line, which is consumed.  Returns the state and the rest of the stream. -/
def readConfigLoop (env : FileCollaborators R) :
    ConfigState R → Stream → Outcome (ConfigState R × Stream)
  | cs, [] => .ok (cs, [])
  | cs, line :: rest =>
    if line = [] then .ok (cs, rest)
    else
      match readConfigLine env cs line with
      | .ok cs1 => readConfigLoop env cs1 rest
      | .error f => .error f

/-- The function `model::readConfig(istream&)` (model.cpp, lines 133-177).  `uninit` holds
the indeterminate initial values of the locals.  Returns the model, the lines written to
`cerr` and the rest of the stream. -/
def model.readConfig (env : FileCollaborators R) (uninit : ConfigLocals) (m : model R)
    (config_file : Stream) : Outcome (model R × List Line × Stream) :=
  match readConfigLoop env
      { m := m, locals := uninit, activation_function := m.activation_function, cerr := [] }
      config_file with
  | .ok (cs, rest) =>
    .ok ((cs.m.resize cs.locals.ngram_size cs.m.input_vocab_size cs.m.output_vocab_size
            cs.locals.input_embedding_dimension cs.locals.num_hidden
            cs.locals.output_embedding_dimension).set_activation_function
              cs.activation_function,
         cs.cerr, rest)
  | .error f => .error f

/-- The loop at the label `skip_section` (model.cpp, lines 283-286): lines are taken until
`getline` fails or a line is empty after right-trimming, which is consumed. -/
def skip_section : Stream → Stream
  | [] => []
  | line :: rest => if rightTrim line = [] then rest else skip_section rest

/-- The statement `if (log) *log << text << "\n"`. -/
def ReadState.logLine (st : ReadState R) (text : Line) : ReadState R :=
  { st with log := st.log.map (fun l => l ++ [text]) }

/-- The text that `operator<<` writes for a `size_t`. -/
def showSize (n : Nat) : Line :=
  (toString n).toList

/-- The result of a sub-object reader, turned into a step of the loop of `model::read`. -/
def stepOfReader {α : Type} (res : Outcome (α × Nat)) (rest : Stream)
    (update : α → ReadState R) : StepResult R :=
  match res with
  | .ok (a, consumed) => .next (update a) (rest.drop consumed)
  | .error f => .fail f

/-! The section names that `model::read` compares a marker line with and that `model::write`
emits. -/

/-- The section name `\end`. -/
def sectionEnd : Line := "\\end".toList

/-- The section name `\config`. -/
def sectionConfig : Line := "\\config".toList

/-- The section name `\vocab`. -/
def sectionVocab : Line := "\\vocab".toList

/-- The section name `\input_vocab`. -/
def sectionInputVocab : Line := "\\input_vocab".toList

/-- The section name `\output_vocab`. -/
def sectionOutputVocab : Line := "\\output_vocab".toList

/-- The section name `\input_embeddings`. -/
def sectionInputEmbeddings : Line := "\\input_embeddings".toList

/-- The section name `\hidden_weights 1`. -/
def sectionHiddenWeights1 : Line := "\\hidden_weights 1".toList

/-- The section name `\hidden_biases 1`. -/
def sectionHiddenBiases1 : Line := "\\hidden_biases 1".toList

/-- The section name `\hidden_weights 2`. -/
def sectionHiddenWeights2 : Line := "\\hidden_weights 2".toList

/-- The section name `\hidden_biases 2`. -/
def sectionHiddenBiases2 : Line := "\\hidden_biases 2".toList

/-- The section name `\output_weights`. -/
def sectionOutputWeights : Line := "\\output_weights".toList

/-- The section name `\output_biases`. -/
def sectionOutputBiases : Line := "\\output_biases".toList

/-- The branch `\config` of `model::read` (model.cpp, lines 244-245). -/
def configStep (env : FileCollaborators R) (uninit : ConfigLocals) (st : ReadState R)
    (rest : Stream) : StepResult R :=
  match st.m.readConfig env uninit rest with
  | .ok (m1, warnings, rest1) => .next { st with m := m1, cerr := st.cerr ++ warnings } rest1
  | .error f => .fail f

/-- The branch `\vocab` of `model::read` (model.cpp, lines 246-250). -/
def vocabStep (env : FileCollaborators R) (st : ReadState R) (rest : Stream) : StepResult R :=
  stepOfReader (env.readWordsFile rest []) rest (fun words =>
    let st1 := ({ st with input_words := words } : ReadState R).logLine
      ("vocab: ".toList ++ showSize words.length ++ " words".toList)
    { st1 with output_words := st1.output_words.map (fun _ => words) })

/-- The branch `\input_vocab` of `model::read` (model.cpp, lines 251-254). -/
def inputVocabStep (env : FileCollaborators R) (st : ReadState R) (rest : Stream) :
    StepResult R :=
  stepOfReader (env.readWordsFile rest []) rest (fun words =>
    ({ st with input_words := words } : ReadState R).logLine
      ("input_vocab: ".toList ++ showSize words.length ++ " words".toList))

/-- The branch `\output_vocab` of `model::read` (model.cpp, lines 255-263); without an
output word list it jumps to `skip_section`. -/
def outputVocabStep (env : FileCollaborators R) (st : ReadState R) (rest : Stream) :
    StepResult R :=
  match st.output_words with
  | some _ =>
    stepOfReader (env.readWordsFile rest []) rest (fun words =>
      ({ st with output_words := some words } : ReadState R).logLine
        ("output_vocab: ".toList ++ showSize words.length ++ " words".toList))
  | none =>
    .next
      (st.logLine "skipping unexpected output_vocab section (not expected for neuralLM)".toList)
      (skip_section rest)

/-- The chain of comparisons of `model::read` for a line that starts with a backslash
(model.cpp, lines 242-277).  The chain has no final `else`: a line that matches none of the
names does nothing and the loop goes on with the next line. -/
def markerStep (env : FileCollaborators R) (uninit : ConfigLocals) (st : ReadState R)
    (line : Line) (rest : Stream) : StepResult R :=
  if line = sectionEnd then .done st
  else if line = sectionConfig then configStep env uninit st rest
  else if line = sectionVocab then vocabStep env st rest
  else if line = sectionInputVocab then inputVocabStep env st rest
  else if line = sectionOutputVocab then outputVocabStep env st rest
  else if line = sectionInputEmbeddings then
    stepOfReader (env.input_layer_read rest st.m.input_layer) rest
      (fun l => { st with m := { st.m with input_layer := l } })
  else if line = sectionHiddenWeights1 then
    stepOfReader (env.linear_read_weights rest st.m.first_hidden_linear) rest
      (fun l => { st with m := { st.m with first_hidden_linear := l } })
  else if line = sectionHiddenBiases1 then
    stepOfReader (env.linear_read_biases rest st.m.first_hidden_linear) rest
      (fun l => { st with m := { st.m with first_hidden_linear := l } })
  else if line = sectionHiddenWeights2 then
    stepOfReader (env.linear_read_weights rest st.m.second_hidden_linear) rest
      (fun l => { st with m := { st.m with second_hidden_linear := l } })
  else if line = sectionHiddenBiases2 then
    stepOfReader (env.linear_read_biases rest st.m.second_hidden_linear) rest
      (fun l => { st with m := { st.m with second_hidden_linear := l } })
  else if line = sectionOutputWeights then
    stepOfReader (env.output_read_weights rest st.m.output_layer) rest
      (fun l => { st with m := { st.m with output_layer := l } })
  else if line = sectionOutputBiases then
    stepOfReader (env.output_read_biases rest st.m.output_layer) rest
      (fun l => { st with m := { st.m with output_layer := l } })
  else .next st rest

/-- The `else` branch of the test `line[0] == '\\'` (model.cpp, lines 278-287): the warning
`unrecognized section` goes to `cerr` and to the log, and the section is skipped. -/
def unrecognizedStep (st : ReadState R) (line : Line) (rest : Stream) : StepResult R :=
  let warning : Line := "warning: unrecognized section: ".toList ++ line
  let st1 : ReadState R := { st with cerr := st.cerr ++ [warning] }
  .next (st1.logLine warning) (skip_section rest)

/-- One pass through the body of the loop of `model::read` (model.cpp, lines 235-288),
starting with its `getline`. -/
def sectionStep (env : FileCollaborators R) (uninit : ConfigLocals) (st : ReadState R) :
    Stream → StepResult R
  | [] => .done st
  | raw :: rest =>
    if rightTrim raw = [] then .next st rest
    else if (rightTrim raw).head? = some '\\' then
      markerStep env uninit (st.logLine ("reading section ".toList ++ rightTrim raw))
        (rightTrim raw) rest
    else unrecognizedStep st (rightTrim raw) rest

/-- The loop of `model::read` (model.cpp, line 235), with fuel for the number of passes;
`none` when the fuel runs out. -/
def readLoop (env : FileCollaborators R) (uninit : ConfigLocals) :
    Nat → ReadState R → Stream → Option (Outcome (ReadState R))
  | 0, _, _ => none
  | fuel + 1, st, file =>
    match sectionStep env uninit st file with
    | .done st1 => some (.ok st1)
    | .next st1 rest => readLoop env uninit fuel st1 rest
    | .fail f => some (.error f)

/-- The function `model::read(istream&, vector<string>&, vector<string>*, ostream*)`
(model.cpp, lines 230-289).  Every pass that goes on has consumed a line, so one pass per
line and one more are enough and the loop never runs out of fuel (`readLoop_fuel`,
`read_eq`). -/
def model.read (env : FileCollaborators R) (uninit : ConfigLocals) (st : ReadState R)
    (file : Stream) : Outcome (ReadState R) :=
  (readLoop env uninit (file.length + 1) st file).getD (.error .undefined)

/-- The block `if (pwords) { file << name; writeWordsFile(*pwords, file); file << '\n'; }`
of `model::write` (model.cpp, lines 323-335): nothing for a null pointer. -/
def vocabSection (env : FileCollaborators R) (name : Line) (pwords : Option (List Line)) :
    Stream :=
  match pwords with
  | some words => [name] ++ env.writeWordsFile words ++ [[]]
  | none => []

/-- The lines that `model::write` puts in the file (model.cpp, lines 307-366).  Every writer
of a sub-object emits whole lines. -/
def model.write (env : FileCollaborators R) (m : model R)
    (input_pwords output_pwords : Option (List Line)) : Stream :=
  [ sectionConfig,
    "version 1".toList,
    "ngram_size ".toList ++ showInt m.ngram_size,
    "input_vocab_size ".toList ++ showInt m.input_vocab_size,
    "output_vocab_size ".toList ++ showInt m.output_vocab_size,
    "input_embedding_dimension ".toList ++ showInt m.input_embedding_dimension,
    "num_hidden ".toList ++ showInt m.num_hidden,
    "output_embedding_dimension ".toList ++ showInt m.output_embedding_dimension,
    "activation_function ".toList ++ env.activation_function_to_string m.activation_function,
    [] ]
  ++ vocabSection env sectionInputVocab input_pwords
  ++ vocabSection env sectionOutputVocab output_pwords
  ++ [sectionInputEmbeddings] ++ env.input_layer_write m.input_layer ++ [[]]
  ++ [sectionHiddenWeights1] ++ env.linear_write_weights m.first_hidden_linear ++ [[]]
  ++ [sectionHiddenBiases1] ++ env.linear_write_biases m.first_hidden_linear ++ [[]]
  ++ [sectionHiddenWeights2] ++ env.linear_write_weights m.second_hidden_linear ++ [[]]
  ++ [sectionHiddenBiases2] ++ env.linear_write_biases m.second_hidden_linear ++ [[]]
  ++ [sectionOutputWeights] ++ env.output_write_weights m.output_layer ++ [[]]
  ++ [sectionOutputBiases] ++ env.output_write_biases m.output_layer ++ [[]]
  ++ [sectionEnd]

/-- Two models have the same six topology integers. -/
def SameTopology (a b : model R) : Prop :=
  a.ngram_size = b.ngram_size ∧ a.input_vocab_size = b.input_vocab_size
    ∧ a.output_vocab_size = b.output_vocab_size
    ∧ a.input_embedding_dimension = b.input_embedding_dimension
    ∧ a.num_hidden = b.num_hidden
    ∧ a.output_embedding_dimension = b.output_embedding_dimension

/-- A reader of a sub-object consumes exactly what a writer emitted.  `model::read` calls the
reader on a sub-object of the model that `readConfig` has resized, so the object to fill has
a known shape (`shape`, its dimensions).  Started, with any object of that shape to fill, on
a stream that begins with the emitted lines followed by the empty line that `model::write`
puts after them, the reader returns after consuming the emitted lines, with or without that
empty line, and the object it returns still has that shape. -/
def ReadsBack {α : Type} (shape : α → Prop) (rd : Stream → α → Outcome (α × Nat))
    (emitted : List Line) : Prop :=
  ∀ cur : α, shape cur → ∀ rest : Stream,
    ∃ a k, rd (emitted ++ [] :: rest) cur = .ok (a, k)
      ∧ (k = emitted.length ∨ k = emitted.length + 1) ∧ shape a

/-- The reader of word lists consumes exactly what the writer emitted.  `model::read` clears
the word list before it calls `readWordsFile`: started with the empty list on a stream that
begins with the emitted lines followed by the empty line that `model::write` puts after
them, the reader returns after consuming the emitted lines, with or without that empty
line. -/
def WordsReadBack (rd : Stream → List Line → Outcome (List Line × Nat))
    (emitted : List Line) : Prop :=
  ∀ rest : Stream, ∃ a k, rd (emitted ++ [] :: rest) [] = .ok (a, k)
    ∧ (k = emitted.length ∨ k = emitted.length + 1)

/-- The config line `key value` written for the integer `v` is read back: it splits into the
key and the text of `v`, and that text casts to `v`. -/
def ConfigLineParses (env : FileCollaborators R) (key : Line) (v : Int) : Prop :=
  env.splitBySpace (key ++ ' ' :: showInt v) = [key, showInt v]
    ∧ env.lexical_cast_int (showInt v) = some v

/-- The config section that `model::write` emits for `m` is read back field by field. -/
def ConfigTextParses (env : FileCollaborators R) (m : model R) : Prop :=
  ConfigLineParses env keyVersion 1
    ∧ ConfigLineParses env keyNgramSize m.ngram_size
    ∧ ConfigLineParses env keyInputVocabSize m.input_vocab_size
    ∧ ConfigLineParses env keyOutputVocabSize m.output_vocab_size
    ∧ ConfigLineParses env keyInputEmbeddingDimension m.input_embedding_dimension
    ∧ ConfigLineParses env keyNumHidden m.num_hidden
    ∧ ConfigLineParses env keyOutputEmbeddingDimension m.output_embedding_dimension
    ∧ env.splitBySpace
        (keyActivationFunction ++ ' ' :: env.activation_function_to_string m.activation_function)
      = [keyActivationFunction, env.activation_function_to_string m.activation_function]

/-- Each reader of a sub-object consumes exactly what its writer emitted for the sub-object
of `m`, when the object it fills has the dimensions that `resize` gives for the six topology
integers of `m`, and it leaves those dimensions as they are. -/
def SubObjectsReadBack (env : FileCollaborators R) (m : model R) : Prop :=
  ReadsBack (fun cur => cur.SameDims m.resizeToTopology.input_layer)
      env.input_layer_read (env.input_layer_write m.input_layer)
    ∧ ReadsBack (fun cur => cur.SameDims m.resizeToTopology.first_hidden_linear)
        env.linear_read_weights (env.linear_write_weights m.first_hidden_linear)
    ∧ ReadsBack (fun cur => cur.SameDims m.resizeToTopology.first_hidden_linear)
        env.linear_read_biases (env.linear_write_biases m.first_hidden_linear)
    ∧ ReadsBack (fun cur => cur.SameDims m.resizeToTopology.second_hidden_linear)
        env.linear_read_weights (env.linear_write_weights m.second_hidden_linear)
    ∧ ReadsBack (fun cur => cur.SameDims m.resizeToTopology.second_hidden_linear)
        env.linear_read_biases (env.linear_write_biases m.second_hidden_linear)
    ∧ ReadsBack (fun cur => cur.SameDims m.resizeToTopology.output_layer)
        env.output_read_weights (env.output_write_weights m.output_layer)
    ∧ ReadsBack (fun cur => cur.SameDims m.resizeToTopology.output_layer)
        env.output_read_biases (env.output_write_biases m.output_layer)

/-- The word lists that `model::write` emitted are consumed exactly: the input words by
`readWordsFile`; the output words by `readWordsFile` when the reader asked for an output
word list, and otherwise by the loop at `skip_section`, which stops at the first line that
is empty after right-trimming. -/
def WordListsReadBack (env : FileCollaborators R) (outputWanted : Bool)
    (input_pwords output_pwords : Option (List Line)) : Prop :=
  (∀ words, input_pwords = some words →
      WordsReadBack env.readWordsFile (env.writeWordsFile words))
    ∧ (∀ words, output_pwords = some words →
        if outputWanted then WordsReadBack env.readWordsFile (env.writeWordsFile words)
        else ∀ line ∈ env.writeWordsFile words, rightTrim line ≠ [])

/-- What the sections after `\config` keep: the topology of `m`, whether an output word
list is wanted, and the dimensions that `resize` gave to the sub-objects. -/
def ReadInv (m : model R) (outputWanted : Bool) (st : ReadState R) : Prop :=
  SameTopology st.m m ∧ st.output_words.isSome = outputWanted
    ∧ st.m.SameDims m.resizeToTopology

/-- Reading `tail` from any state that has the topology of `m` and sub-objects of the
dimensions that `resize` gives for it returns a state that has the topology of `m`. -/
def ReadsTo (env : FileCollaborators R) (uninit : ConfigLocals) (m : model R)
    (outputWanted : Bool) (tail : Stream) : Prop :=
  ∀ st, ReadInv m outputWanted st →
    ∃ st1, model.read env uninit st tail = .ok st1 ∧ SameTopology st1.m m
      ∧ st1.m.SameDims m.resizeToTopology

/-- A reader is local: when it returns after consuming `k` lines without reaching the end of
the stream, its result depends on those `k` lines only. -/
def ReaderLocal {α : Type} (rd : Stream → α → Outcome (α × Nat)) : Prop :=
  ∀ (file : Stream) (cur a : α) (k : Nat), rd file cur = .ok (a, k) → k < file.length →
    ∀ later : Stream, later ≠ [] → rd (file.take k ++ later) cur = .ok (a, k)

/-- Every reader of a sub-object and of a word list is local. -/
def ReadersLocal (env : FileCollaborators R) : Prop :=
  ReaderLocal env.readWordsFile ∧ ReaderLocal env.input_layer_read
    ∧ ReaderLocal env.linear_read_weights ∧ ReaderLocal env.linear_read_biases
    ∧ ReaderLocal env.output_read_weights ∧ ReaderLocal env.output_read_biases

/-- The loop of `model::read`, started in the state `st` on the stream `file`, is at the head
of a pass (at section level) in the state `st2` with the stream `file2` still to read. -/
inductive ReachesSectionLevel (env : FileCollaborators R) (uninit : ConfigLocals) :
    ReadState R → Stream → ReadState R → Stream → Prop where
  | here (st : ReadState R) (file : Stream) : ReachesSectionLevel env uninit st file st file
  | pass (st st1 st2 : ReadState R) (file rest file2 : Stream) :
      sectionStep env uninit st file = .next st1 rest →
      ReachesSectionLevel env uninit st1 rest st2 file2 →
      ReachesSectionLevel env uninit st file st2 file2

/-- The keys whose value `readConfig` casts to `int`: every recognised key but
`activation_function`. -/
def integerKeys : List Line :=
  [keyNgramSize, keyVocabSize, keyInputVocabSize, keyOutputVocabSize,
    keyInputEmbeddingDimension, keyNumHidden, keyOutputEmbeddingDimension, keyVersion]

/-- A config line is well formed: it splits into exactly two fields, a key and a value, and
the value is the text of an `int` wherever `readConfig` casts it to `int`.  Every
`key integer` pair is well formed (`wellFormed_of_integer_pair`). -/
def WellFormedConfigLine (env : FileCollaborators R) (line : Line) : Prop :=
  ∃ key value, env.splitBySpace line = [key, value]
    ∧ (key ∈ integerKeys → ∃ v, env.lexical_cast_int value = some v)

/-- A config line has the key `version` and a value other than `1`. -/
def BadVersionLine (env : FileCollaborators R) (line : Line) : Prop :=
  ∃ value v, env.splitBySpace line = [keyVersion, value]
    ∧ env.lexical_cast_int value = some v ∧ v ≠ 1

/-- The lines of a config section: those before the first empty line of the stream. -/
def configSection (config_file : Stream) : List Line :=
  config_file.takeWhile (fun line => decide (line ≠ []))

/-- The key of a config line: its first field, which `readConfig` compares with the
recognised keys (`fields[0]`). -/
def configKey (env : FileCollaborators R) (line : Line) : Option Line :=
  (env.splitBySpace line).head?

/-- The config line has the key `key`, and its second field is the text of the int `v`: the
line `key v`. -/
def ConfigLineSets (env : FileCollaborators R) (line key : Line) (v : Int) : Prop :=
  ∃ value more, env.splitBySpace line = key :: value :: more
    ∧ env.lexical_cast_int value = some v

/-- The config line is not a vocabulary-size line: its key is none of `vocab_size`,
`input_vocab_size`, `output_vocab_size`. -/
def NoVocabSizeKey (env : FileCollaborators R) (line : Line) : Prop :=
  configKey env line ≠ some keyVocabSize ∧ configKey env line ≠ some keyInputVocabSize
    ∧ configKey env line ≠ some keyOutputVocabSize

/-- The keys that `readConfig` recognises (model.cpp, lines 142-158). -/
def recognisedKeys : List Line :=
  [keyNgramSize, keyVocabSize, keyInputVocabSize, keyOutputVocabSize,
    keyInputEmbeddingDimension, keyNumHidden, keyOutputEmbeddingDimension,
    keyActivationFunction, keyVersion]

/-- The state of the loop of `readConfig` without the lines written to `cerr`: what the rest
of the loop and the call of `resize` depend on. -/
def ConfigState.core (cs : ConfigState R) :
    model R × ConfigLocals × activation_function_type :=
  (cs.m, cs.locals, cs.activation_function)

/-- The model has been resized with the vocabulary sizes `a` and `b`, as `model::resize`
leaves it: the members `input_vocab_size` and `output_vocab_size` hold them, the embedding
table has `a` rows and records the vocabulary size `a`, the weights and the biases of the
output layer have `b` rows, and `premultiplied` is false. -/
def model.ResizedWithVocab (m : model R) (a b : Int) : Prop :=
  m.input_vocab_size = a ∧ m.output_vocab_size = b
    ∧ m.input_layer.W.rows = a.toNat ∧ m.input_layer.vocab_size = a
    ∧ m.output_layer.W.rows = b.toNat ∧ m.output_layer.b.rows = b.toNat
    ∧ m.premultiplied = false

/-- The fields of a line, split at spaces and tabs, empty fields dropped; `cur` is the field
being collected.  Used by `exampleFileCollaborators`. -/
def splitFields : List Char → Line → List Line
  | [], cur => if cur = [] then [] else [cur]
  | c :: cs, cur =>
    if c = ' ' ∨ c = '\t' then
      if cur = [] then splitFields cs [] else cur :: splitFields cs []
    else splitFields cs (cur ++ [c])

/-- The number written with the given decimal digits, most significant first, after the
digits already read as `acc`; `none` if a character is not a digit. -/
def parseDigits : List Char → Nat → Option Nat
  | [], acc => some acc
  | c :: cs, acc =>
    if c.isDigit then parseDigits cs (10 * acc + (c.toNat - '0'.toNat)) else none

/-- An optional sign followed by at least one digit, read as an `int`; `none` for any other
text and for values outside the range of `int`.  Used by `exampleFileCollaborators`. -/
def parseInt (s : Line) : Option Int :=
  let signed : Option Int :=
    match s with
    | [] => none
    | '-' :: ds => if ds = [] then none else (parseDigits ds 0).map (fun n => -(n : Int))
    | '+' :: ds => if ds = [] then none else (parseDigits ds 0).map (fun n => (n : Int))
    | ds => (parseDigits ds 0).map (fun n => (n : Int))
  match signed with
  | some v => if -2147483648 ≤ v ∧ v < 2147483648 then some v else none
  | none => none

/-- The lines up to the first empty line, and the number of lines taken from the stream (the
empty line included).  Used by `exampleFileCollaborators`. -/
def readLinesUntilBlank : Stream → List Line × Nat
  | [] => ([], 0)
  | line :: rest =>
    if line = [] then ([], 1)
    else ((line :: (readLinesUntilBlank rest).1), (readLinesUntilBlank rest).2 + 1)

/-- The line `rows cols` with the dimensions of a matrix.  Used by
`exampleFileCollaborators`. -/
def showDims (M : Mat R) : Line :=
  showSize M.rows ++ ' ' :: showSize M.cols

/-- File collaborators used to instantiate the theorems: fields are split at blanks, a word
list is one word per line up to an empty line, and the text of a sub-object is the line of
its dimensions, which its reader skips up to the empty line. -/
def exampleFileCollaborators (R : Type) : FileCollaborators R :=
  { splitBySpace := fun line => splitFields line []
    lexical_cast_int := parseInt
    string_to_activation_function := fun name =>
      if name = "identity".toList then 0 else if name = "rectifier".toList then 1
      else if name = "tanh".toList then 2 else if name = "hardtanh".toList then 3 else 4
    activation_function_to_string := fun f =>
      if f = 0 then "identity".toList else if f = 1 then "rectifier".toList
      else if f = 2 then "tanh".toList else if f = 3 then "hardtanh".toList
      else "invalid".toList
    readWordsFile := fun file words =>
      .ok (words ++ (readLinesUntilBlank file).1, (readLinesUntilBlank file).2)
    writeWordsFile := fun words => words
    input_layer_read := fun file l => .ok (l, (readLinesUntilBlank file).2)
    input_layer_write := fun l => [showDims l.W]
    linear_read_weights := fun file l => .ok (l, (readLinesUntilBlank file).2)
    linear_write_weights := fun l => [showDims l.U]
    linear_read_biases := fun file l => .ok (l, (readLinesUntilBlank file).2)
    linear_write_biases := fun l => [showDims l.b]
    output_read_weights := fun file l => .ok (l, (readLinesUntilBlank file).2)
    output_write_weights := fun l => [showDims l.W]
    output_read_biases := fun file l => .ok (l, (readLinesUntilBlank file).2)
    output_write_biases := fun l => [showDims l.b] }

/-- The reader of a matrix section of `checkingFileCollaborators`: the first line of the
section must be the line of the dimensions of the matrix `M` that is being filled, otherwise
the reader throws; the lines up to the empty line are consumed. -/
def readCheckingDims {α : Type} (M : Mat R) (file : Stream) (l : α) : Outcome (α × Nat) :=
  match file with
  | [] => .error .thrown
  | first :: _ =>
    if first = showDims M then .ok (l, (readLinesUntilBlank file).2) else .error .thrown

/-- File collaborators whose readers depend on the object they fill: as
`exampleFileCollaborators`, but every reader of a sub-object throws unless the text gives the
dimensions of the matrix that it is to fill. -/
def checkingFileCollaborators (R : Type) : FileCollaborators R :=
  { exampleFileCollaborators R with
    input_layer_read := fun file l => readCheckingDims l.W file l
    linear_read_weights := fun file l => readCheckingDims l.U file l
    linear_read_biases := fun file l => readCheckingDims l.b file l
    output_read_weights := fun file l => readCheckingDims l.W file l
    output_read_biases := fun file l => readCheckingDims l.b file l }

/-- A reading state over the model `m` with empty word lists, an output word list requested
and no log. -/
def freshReadState (m : model R) : ReadState R :=
  { m := m, input_words := [], output_words := some [], cerr := [], log := none }

end ReadWrite

/-! ## The scorer (`neuralNetwork.h`) -/

/-- What the scorer reads of the class `propagator` after a forward pass (propagator.h is
outside the given sources): the flag `skip_hidden` and the `fProp_matrix` of the two hidden
activation nodes, of an arbitrary type `A`. -/
structure propagator (A : Type) where
  skip_hidden : Bool
  first_hidden_activation_node : A
  second_hidden_activation_node : A

/-- The functions that `neuralNetwork.h` calls and that are declared outside the given
sources, taken as parameters.

* `fProp m ngram` is `prop.fProp(ngram)` on the propagator bound to the model `m`; `none`
  stands for a failure raised by the forward pass.
* `output_fProp_matrix m a` is `prop.output_layer_node.param->fProp(a, scores)`: the
  coefficients that the call writes into `scores`, by row (output word) and column.
* `output_fProp_single m a output col` is `prop.output_layer_node.param->fProp(a, output, col)`.
* `logsum` is the function `logsum` and `hash_value` is `Eigen::hash_value` of util.h. -/
structure Collaborators (R A : Type) where
  fProp : model R → List Int → Option (propagator A)
  output_fProp_matrix : model R → A → Nat → Nat → R
  output_fProp_single : model R → A → Int → Nat → R
  logsum : Mat R → R
  hash_value : List Int → Nat

/-- The class `neuralNetwork`.  The key matrix `cache_keys` is stored as the list of its
columns, so `cache_keys.col(h)` is the `h`-th list.  The member `prop` is not stored: every
lookup reads the propagator only after its own forward pass. -/
structure neuralNetwork (R : Type) where
  m : model R
  ngram_size_ : Int
  normalization : Bool
  weight : R
  cache_size : Nat
  cache_keys : List (List Int)
  cache_values : List R
  cache_lookups : Int
  cache_hits : Int

/-- The process-wide thread settings that the single lookup reads and writes.
`omp_max_threads` is the value that `omp_get_max_threads()` returns and that
`omp_set_num_threads` sets.  `eigen_max_threads` is the value that the last call of
`Eigen::setNbThreads` stored; Eigen starts with `-1`, nothing stored.  What
`Eigen::nbThreads()` returns depends on both: see `ThreadSettings.nbThreads`. -/
structure ThreadSettings where
  omp_max_threads : Int
  eigen_max_threads : Int
  deriving DecidableEq

/-- The call `omp_get_max_threads()`. -/
def ThreadSettings.omp_get_max_threads (t : ThreadSettings) : Int :=
  t.omp_max_threads

/-- The call `omp_set_num_threads(n)`. -/
def ThreadSettings.omp_set_num_threads (t : ThreadSettings) (n : Int) : ThreadSettings :=
  { t with omp_max_threads := n }

/-- The call `Eigen::nbThreads()` in a build with OpenMP, which the calls of
`omp_get_max_threads` and `omp_set_num_threads` in neuralNetwork.h presuppose (Eigen is a
library outside the given sources; this is its `manage_multi_threading`): the value stored by
`setNbThreads` if it is positive, and `omp_get_max_threads()` otherwise. -/
def ThreadSettings.nbThreads (t : ThreadSettings) : Int :=
  if t.eigen_max_threads > 0 then t.eigen_max_threads else t.omp_get_max_threads

/-- The call `Eigen::setNbThreads(n)`: the value is stored. -/
def ThreadSettings.setNbThreads (t : ThreadSettings) (n : Int) : ThreadSettings :=
  { t with eigen_max_threads := n }

/-- Result of one call of the single-n-gram `lookup_ngram`: the returned value (`none` when
the forward pass raised a failure and no value is returned), the scorer and the thread
settings after the call, and a ghost flag telling whether the call returned through the
cache-hit branch. -/
structure LookupResult (R : Type) where
  value : Option R
  nn : neuralNetwork R
  threads : ThreadSettings
  hit : Bool

/-- The value of a 32-bit `int` counter after `++`.  C++ leaves the overflow of a signed
increment undefined; the embedding takes the two's-complement result, the value wrapped into
`[-2^31, 2^31)`.  Whatever a compiler does, the counter stays in that range. -/
def wrapInt32 (x : Int) : Int :=
  (x + 2147483648) % 4294967296 - 2147483648

/-- The call `std::vector::resize(n)`: the first `n` elements are kept, missing ones are
value-initialised. -/
def vectorResize {α : Type} (v : List α) (n : Nat) (x : α) : List α :=
  v.take n ++ List.replicate (n - v.length) x

/-- The functions that the batch `lookup_ngram` calls and that are declared outside the
given sources, taken as parameters.

* `fProp m ngram` is `prop.fProp(ngram)` on the matrix of n-grams, given by its columns, for
  the propagator bound to the model `m`; `none` stands for a failure raised by the forward
  pass.
* `output_fProp_matrix m a` is `prop.output_layer_node.param->fProp(a, scores)`: the
  coefficients that the call writes into `scores`.
* `output_fProp_single m a output col` is `prop.output_layer_node.param->fProp(a, output, col)`.
* `softmaxLogLoss_fProp scores targets` is `SoftmaxLogLoss().fProp(scores, targets,
  output_probs, log_likelihood)`: the coefficients that the call writes into `output_probs`. -/
structure BatchCollaborators (R A : Type) where
  fProp : model R → List (List Int) → Option (propagator A)
  output_fProp_matrix : model R → A → Nat → Nat → R
  output_fProp_single : model R → A → Int → Nat → R
  softmaxLogLoss_fProp : Mat R → List Int → Nat → Nat → R

/-- Result of one call of the batch `lookup_ngram`: the row vector `log_probs` after the call
(`none` when the forward pass raised a failure) and the scorer after the call. -/
structure BatchResult (R : Type) where
  log_probs : Option (List R)
  nn : neuralNetwork R

section Scorer

variable {R A : Type}

/-- The function `neuralNetwork::set_cache` (neuralNetwork.h, lines 221-229). -/
def neuralNetwork.set_cache [Zero R] (nn : neuralNetwork R) (cache_size : Nat) :
    neuralNetwork R :=
  { nn with
    cache_size := cache_size
    cache_keys := List.replicate cache_size (List.replicate nn.ngram_size_.toNat (-1))
    cache_values := vectorResize nn.cache_values cache_size 0
    cache_lookups := 0
    cache_hits := 0 }

/-- The function `neuralNetwork::cache_hit_rate` (neuralNetwork.h, lines 231-234), with the
division carried out in `R`. -/
def neuralNetwork.cache_hit_rate [IntCast R] [Div R] (nn : neuralNetwork R) : R :=
  (nn.cache_hits : R) / (nn.cache_lookups : R)

/-- The function `neuralNetwork::set_normalization`. -/
def neuralNetwork.set_normalization (nn : neuralNetwork R) (value : Bool) : neuralNetwork R :=
  { nn with normalization := value }

/-- The function `neuralNetwork::set_log_base` (neuralNetwork.h, line 48), with the natural
logarithm passed as `log`. -/
def neuralNetwork.set_log_base [One R] [Div R] (log : R → R) (nn : neuralNetwork R)
    (value : R) : neuralNetwork R :=
  { nn with weight := 1 / log value }

/-- The function `neuralNetwork::premultiply` (neuralNetwork.h, lines 236-242): the model is
premultiplied unless its flag says it already is. -/
def neuralNetwork.premultiply [Semiring R] (nn : neuralNetwork R) : neuralNetwork R :=
  if !nn.m.premultiplied then { nn with m := nn.m.premultiply } else nn

/-- The slot of an n-gram: `Eigen::hash_value(ngram) % cache_size` (line 77). -/
def cacheSlot (env : Collaborators R A) (nn : neuralNetwork R) (ngram : List Int) : Nat :=
  env.hash_value ngram % nn.cache_size

/-- The test of the cache-hit branch (lines 74 and 79): caching is on and the key column of
the slot equals the probe. -/
def cacheHit (env : Collaborators R A) (nn : neuralNetwork R) (ngram : List Int) : Bool :=
  decide (nn.cache_size ≠ 0) && decide (nn.cache_keys.getD (cacheSlot env nn ngram) [] = ngram)

/-- The computation of `log_prob` on the miss path (lines 97-119): forward pass, then the
normalized or the raw score of the last word of the n-gram, scaled by `weight`. -/
def computeLogProb [Mul R] [Sub R] (env : Collaborators R A) (nn : neuralNetwork R)
    (ngram : List Int) : Option R :=
  match env.fProp nn.m ngram with
  | none => none
  | some prop =>
    let output : Int := ngram.getD (nn.ngram_size_ - 1).toNat 0
    let a : A :=
      if prop.skip_hidden then prop.first_hidden_activation_node
      else prop.second_hidden_activation_node
    if nn.normalization then
      let scores : Mat R :=
        { rows := nn.m.output_vocab_size.toNat, cols := 1
          coeff := env.output_fProp_matrix nn.m a }
      let logz : R := env.logsum scores
      some (nn.weight * (scores.coeff output.toNat 0 - logz))
    else
      some (nn.weight * env.output_fProp_single nn.m a output 0)

/-- The single-n-gram `neuralNetwork::lookup_ngram` (neuralNetwork.h, lines 66-136).  The
three assertions at its head are preconditions and are not part of the result.  On the miss
path the thread settings are read and written in the order of lines 88-91 and 132-133:
`Eigen::nbThreads()` is read after `omp_set_num_threads(1)`. -/
def neuralNetwork.lookup_ngram [Zero R] [Mul R] [Sub R] (env : Collaborators R A)
    (nn : neuralNetwork R) (threads : ThreadSettings) (ngram : List Int) : LookupResult R :=
  let hash : Nat := cacheSlot env nn ngram
  let nn1 : neuralNetwork R :=
    if nn.cache_size ≠ 0 then { nn with cache_lookups := wrapInt32 (nn.cache_lookups + 1) }
    else nn
  if cacheHit env nn ngram then
    { value := some (nn.cache_values.getD hash 0)
      nn := { nn1 with cache_hits := wrapInt32 (nn1.cache_hits + 1) }
      threads := threads
      hit := true }
  else
    let save_threads : Int := threads.omp_get_max_threads
    let threads1 : ThreadSettings := threads.omp_set_num_threads 1
    let save_eigen_threads : Int := threads1.nbThreads
    let threads2 : ThreadSettings := threads1.setNbThreads 1
    match computeLogProb env nn1 ngram with
    | none => { value := none, nn := nn1, threads := threads2, hit := false }
    | some log_prob =>
      let nn2 : neuralNetwork R :=
        if nn1.cache_size ≠ 0 then
          { nn1 with
            cache_keys := nn1.cache_keys.set hash ngram
            cache_values := nn1.cache_values.set hash log_prob }
        else nn1
      { value := some log_prob
        nn := nn2
        threads := (threads2.setNbThreads save_eigen_threads).omp_set_num_threads save_threads
        hit := false }

/-- A sequence of single-n-gram lookups, each starting from the scorer and the thread
settings that the previous one left; the results are listed in call order. -/
def lookupSequence [Zero R] [Mul R] [Sub R] (env : Collaborators R A) :
    neuralNetwork R → ThreadSettings → List (List Int) → List (LookupResult R)
  | _, _, [] => []
  | nn, threads, ngram :: rest =>
    let res := nn.lookup_ngram env threads ngram
    res :: lookupSequence env res.nn res.threads rest

/-- The scorer after a sequence of single-n-gram lookups. -/
def scorerAfter [Zero R] [Mul R] [Sub R] (env : Collaborators R A) :
    neuralNetwork R → ThreadSettings → List (List Int) → neuralNetwork R
  | nn, _, [] => nn
  | nn, threads, ngram :: rest =>
    let res := nn.lookup_ngram env threads ngram
    scorerAfter env res.nn res.threads rest

/-- The n-gram that `lookup_ngram_start_null` builds and passes to `lookup_ngram`
(neuralNetwork.h, lines 142-153).  `ngram_a` is the array behind the pointer, `want` is
`ngram_size_`; the vector starts with unspecified entries (here `0`), the first loop writes
`fill` at the positions below `missing`, the second copies from the array. -/
def startNullNgram (want : Int) (ngram_a : List Int) (n start null : Int) : List Int :=
  let ngram0 : List Int := List.replicate want.toNat 0
  let missing : Int := want - n
  if missing > 0 then
    let fill : Int := if ngram_a.getD 0 0 = start then start else null
    let ngram1 : List Int :=
      (List.range missing.toNat).foldl (fun g i => g.set i fill) ngram0
    (List.range (want - missing).toNat).foldl
      (fun g j => g.set (missing.toNat + j) (ngram_a.getD j 0)) ngram1
  else
    let first : Nat := (-missing).toNat
    (List.range want.toNat).foldl (fun g i => g.set i (ngram_a.getD (first + i) 0)) ngram0

/-- The function `neuralNetwork::lookup_ngram_start_null` (neuralNetwork.h, lines 138-155). -/
def neuralNetwork.lookup_ngram_start_null [Zero R] [Mul R] [Sub R] (env : Collaborators R A)
    (nn : neuralNetwork R) (threads : ThreadSettings) (ngram_a : List Int)
    (n start null : Int) : LookupResult R :=
  nn.lookup_ngram env threads (startNullNgram nn.ngram_size_ ngram_a n start null)

/-- An n-gram of token indices: it is not empty and no entry is negative.  The sentinel `-1`
that fills the key matrix is not a token index. -/
def ValidNgram (ngram : List Int) : Prop :=
  ngram ≠ [] ∧ ∀ w ∈ ngram, 0 ≤ w

instance (ngram : List Int) : Decidable (ValidNgram ngram) := by
  unfold ValidNgram; infer_instance

/-- Coherence of the cache of `nn` with the scoring of a reference scorer `ref`: the model,
the normalization flag, the weight and the order are those of `ref`, the key matrix and the
value array have `cache_size` slots, and every slot whose key is an n-gram of token indices
holds the value that the miss path computes for that key. -/
def CacheCoherent [Mul R] [Sub R] [Zero R] (env : Collaborators R A)
    (ref nn : neuralNetwork R) : Prop :=
  nn.m = ref.m ∧ nn.normalization = ref.normalization ∧ nn.weight = ref.weight
    ∧ nn.ngram_size_ = ref.ngram_size_
    ∧ nn.cache_keys.length = nn.cache_size ∧ nn.cache_values.length = nn.cache_size
    ∧ ∀ i, i < nn.cache_size → ValidNgram (nn.cache_keys.getD i []) →
        computeLogProb env ref (nn.cache_keys.getD i []) = some (nn.cache_values.getD i 0)

/-- Collaborators used to instantiate the theorems: the forward pass keeps the sum of the
context words, the score of output word `t` is that sum plus `t`, `logsum` adds the scores
of the first two output words, the hash is the first word. -/
def exampleCollaborators (R : Type) [Ring R] : Collaborators R Int :=
  { fProp := fun m ngram =>
      some { skip_hidden := decide (m.num_hidden = 0)
             first_hidden_activation_node := (ngram.take (m.ngram_size - 1).toNat).sum
             second_hidden_activation_node := (ngram.take (m.ngram_size - 1).toNat).sum }
    output_fProp_matrix := fun _ a t _ => ((a + t : Int) : R)
    output_fProp_single := fun _ a output _ => ((a + output : Int) : R)
    logsum := fun scores => scores.coeff 0 0 + scores.coeff 1 0
    hash_value := fun ngram => (ngram.getD 0 0).toNat }

/-- Collaborators whose output layer scores every word `0`, with the given `logsum`; used to
instantiate the theorems about normalization. -/
def flatCollaborators (R : Type) [Zero R] (logsum : Mat R → R) : Collaborators R Unit :=
  { fProp := fun _ _ =>
      some { skip_hidden := false
             first_hidden_activation_node := ()
             second_hidden_activation_node := () }
    output_fProp_matrix := fun _ _ _ _ => 0
    output_fProp_single := fun _ _ _ _ => 0
    logsum := logsum
    hash_value := fun ngram => (ngram.getD 0 0).toNat }

/-- A scorer over `exampleModel`, without normalization, weight one, caching off. -/
def exampleScorer (R : Type) [Semiring R] : neuralNetwork R :=
  { m := exampleModel R
    ngram_size_ := 3
    normalization := false
    weight := 1
    cache_size := 0
    cache_keys := []
    cache_values := []
    cache_lookups := 0
    cache_hits := 0 }

/-- The batch `neuralNetwork::lookup_ngram` (neuralNetwork.h, lines 158-197).  `ngram` is
the list of the columns of the n-gram matrix and `log_probs` the row vector that receives the
results: the loop over the columns writes entry `j` for every column `j`.  The assertions at
its head are preconditions and are not part of the result. -/
def neuralNetwork.lookup_ngram_batch [Mul R] (env : BatchCollaborators R A)
    (nn : neuralNetwork R) (ngram : List (List Int)) (log_probs : List R) : BatchResult R :=
  match env.fProp nn.m ngram with
  | none => { log_probs := none, nn := nn }
  | some prop =>
    let a : A :=
      if prop.skip_hidden then prop.first_hidden_activation_node
      else prop.second_hidden_activation_node
    let outputOf : Nat → Int := fun j => (ngram.getD j []).getD (nn.ngram_size_ - 1).toNat 0
    if nn.normalization then
      let scores : Mat R :=
        { rows := nn.m.output_vocab_size.toNat, cols := ngram.length
          coeff := env.output_fProp_matrix nn.m a }
      let output_probs : Nat → Nat → R :=
        env.softmaxLogLoss_fProp (scores.leftCols ngram.length)
          ((List.range ngram.length).map outputOf)
      { log_probs := some ((List.range ngram.length).foldl
          (fun lp j => lp.set j (nn.weight * output_probs (outputOf j).toNat j)) log_probs)
        nn := nn }
    else
      { log_probs := some ((List.range ngram.length).foldl
          (fun lp j => lp.set j (nn.weight * env.output_fProp_single nn.m a (outputOf j) j))
          log_probs)
        nn := nn }

/-- The cache of the scorer is allocated with a capacity other than zero: the key matrix and
the value array have `cache_size` slots, as `set_cache` leaves them (`set_cache_allocated`)
and as every lookup keeps them. -/
def CacheAllocated (nn : neuralNetwork R) : Prop :=
  nn.cache_size ≠ 0 ∧ nn.cache_keys.length = nn.cache_size
    ∧ nn.cache_values.length = nn.cache_size

/-- Batch collaborators used to instantiate the theorems: the forward pass keeps, for each
column, the sum of its context words; the score of output word `t` in column `j` is that sum
plus `t`; the softmax stand-in subtracts the score of word `0` of the column. -/
def exampleBatchCollaborators (R : Type) [Ring R] : BatchCollaborators R (List Int) :=
  { fProp := fun m ngram =>
      some { skip_hidden := decide (m.num_hidden = 0)
             first_hidden_activation_node :=
               ngram.map (fun col => (col.take (m.ngram_size - 1).toNat).sum)
             second_hidden_activation_node :=
               ngram.map (fun col => (col.take (m.ngram_size - 1).toNat).sum) }
    output_fProp_matrix := fun _ a t j => ((a.getD j 0 + t : Int) : R)
    output_fProp_single := fun _ a output j => ((a.getD j 0 + output : Int) : R)
    softmaxLogLoss_fProp := fun scores _ t j => scores.coeff t j - scores.coeff 0 j }

/-- Collaborators whose forward pass raises a failure; used to instantiate the theorems about
the exit paths of a lookup. -/
def failingCollaborators (R : Type) [Zero R] : Collaborators R Unit :=
  { fProp := fun _ _ => none
    output_fProp_matrix := fun _ _ _ _ => 0
    output_fProp_single := fun _ _ _ _ => 0
    logsum := fun _ => 0
    hash_value := fun ngram => (ngram.getD 0 0).toNat }

end Scorer

/-! ## The minibatch loop of the test driver (`testNeuralNetwork.cpp`, lines 98-111) -/

/-- The variable `num_batches` (testNeuralNetwork.cpp, line 98):
`(test_data_size-1)/minibatch_size + 1`, with the division of C++ `int`, which truncates
toward zero. -/
def num_batches (test_data_size minibatch_size : Int) : Int :=
  (test_data_size - 1).tdiv minibatch_size + 1

/-- The variable `minibatch_start_index` of the pass `batch` of the loop (line 108). -/
def minibatch_start_index (minibatch_size batch : Int) : Int :=
  minibatch_size * batch

/-- The variable `current_minibatch_size` of the pass `batch` of the loop (lines 109-110). -/
def current_minibatch_size (test_data_size minibatch_size batch : Int) : Int :=
  min minibatch_size (test_data_size - minibatch_start_index minibatch_size batch)

/-- The columns of `test_data` that make up the minibatch of the pass `batch`:
`test_data.middleCols(minibatch_start_index, current_minibatch_size)` (line 111), in order. -/
def minibatchColumns (test_data_size minibatch_size batch : Int) : List Int :=
  (List.range (current_minibatch_size test_data_size minibatch_size batch).toNat).map
    (fun j : Nat => minibatch_start_index minibatch_size batch + (j : Int))

/-- The loop `for (int batch = 0; batch < num_batches; batch++)` (line 106): the minibatches
in the order in which they are scored. -/
def minibatches (test_data_size minibatch_size : Int) : List (List Int) :=
  (List.range (num_batches test_data_size minibatch_size).toNat).map
    (fun batch : Nat => minibatchColumns test_data_size minibatch_size (batch : Int))

/-! # Theorems -/

section PremultiplyTheorems

variable {R : Type} [Semiring R]

/-- A sum over `range (d * c)` split into `c` consecutive blocks of length `d`. -/
theorem sum_range_blocks {M : Type} [AddCommMonoid M] (f : Nat → M) (d c : Nat) :
    ∑ j ∈ Finset.range (d * c), f j
      = ∑ i ∈ Finset.range c, ∑ k ∈ Finset.range d, f (i * d + k) := by
  induction c with
  | zero => simp
  | succ c ih =>
    rw [Nat.mul_succ, Finset.sum_range_add, ih, Finset.sum_range_succ]
    simp [Nat.mul_comm]

/-- Entry `i * W.cols + k` of the concatenated embedding rows is entry `k` of the row of the
`i`-th context word. -/
theorem concatEmbeddingRows_getD (W : Mat R) (context : List Int) (i k : Nat)
    (hi : i < context.length) (hk : k < W.cols) :
    (concatEmbeddingRows W context).getD (i * W.cols + k) 0
      = W.coeff (context.getD i 0).toNat k := by
  induction context generalizing i with
  | nil => simp at hi
  | cons w ws ih =>
    unfold concatEmbeddingRows at ih ⊢
    rw [List.flatMap_cons]
    cases i with
    | zero =>
      rw [List.getD_append _ _ _ _ (by simpa using hk)]
      simp [List.getD_eq_getElem, hk]
    | succ i =>
      have hle : ((List.range W.cols).map (W.coeff w.toNat)).length ≤ (i + 1) * W.cols + k := by
        simp only [List.length_map, List.length_range]
        nlinarith
      rw [List.getD_append_right _ _ _ _ hle]
      have hidx : (i + 1) * W.cols + k - ((List.range W.cols).map (W.coeff w.toNat)).length
          = i * W.cols + k := by
        simp only [List.length_map, List.length_range]
        rw [Nat.succ_mul]; omega
      rw [hidx, ih i (by simpa using hi)]
      simp

/-- After `c` iterations of the loop of `premultiply`, the column `i*V + w` of block `i < c`
holds the product of the `i`-th block of `U` with the embedding row of word `w`. -/
theorem premultiply_fold_coeff (m : model R) (U U0 : Mat R) (c i w r : Nat)
    (hV : 0 ≤ m.input_vocab_size) (hi : i < c) (hw : w < m.input_vocab_size.toNat) :
    ((List.range c).foldl (premultiplyStep m U) U0).coeff r (i * m.input_vocab_size.toNat + w)
      = ∑ k ∈ Finset.range m.input_embedding_dimension.toNat,
          U.coeff r (((i : Int) * m.input_embedding_dimension).toNat + k)
            * m.input_layer.W.coeff w k := by
  obtain ⟨v, hv⟩ := Int.eq_ofNat_of_zero_le hV
  have hvn : m.input_vocab_size.toNat = v := by rw [hv]; rfl
  have hstart : ∀ j : Nat, ((j : Int) * m.input_vocab_size).toNat = j * v := by
    intro j
    rw [hv]
    exact_mod_cast Int.toNat_ofNat (j * v)
  rw [hvn] at hw ⊢
  induction c with
  | zero => omega
  | succ c ih =>
    rw [List.range_succ, List.foldl_append]
    simp only [List.foldl_cons, List.foldl_nil]
    by_cases hic : i = c
    · subst hic
      simp only [premultiplyStep, Mat.setMiddleCols, Mat.mul, Mat.middleCols, Mat.transpose,
        hstart, hvn]
      have hin : i * v ≤ i * v + w ∧ i * v + w < i * v + v := by omega
      rw [if_pos hin]
      simp
    · have hlt : i < c := by omega
      have hlt2 : i * v + v ≤ c * v := by
        have : (i + 1) * v ≤ c * v := Nat.mul_le_mul_right v hlt
        rw [Nat.succ_mul] at this
        exact this
      conv_lhs => rw [premultiplyStep]
      simp only [Mat.setMiddleCols, hstart, hvn]
      have hout : ¬ (c * v ≤ i * v + w ∧ i * v + w < c * v + v) := by omega
      rw [if_neg hout]
      exact ih hlt

/-- Claim C1 (premultiply equivalence, exact arithmetic).  For a model whose embedding table
and first-stage weight matrix have the dimensions that `resize` gives them, and for every
context of `ngram_size - 1` word indices `0 <= w_i < input_vocab_size`, the sum over the
positions `i` of column `i*V + w_i` of the first-stage matrix after `premultiply` equals the
original first-stage matrix applied to the concatenation of the embedding rows
`W[w_0], ..., W[w_{n-2}]`, in every row `r`, whether `num_hidden` is zero or not. -/
theorem premultiply_preserves_first_stage (m : model R) (context : List Int) (r : Nat)
    (hW : m.input_layer.W.cols = m.input_embedding_dimension.toNat)
    (hU : m.first_hidden_linear.U.cols
      = (m.input_embedding_dimension * (m.ngram_size - 1)).toNat)
    (hlen : (context.length : Int) = m.ngram_size - 1)
    (hctx : ∀ w ∈ context, 0 ≤ w ∧ w < m.input_vocab_size) :
    sumOfColumns m.premultiply.first_hidden_linear.U m.input_vocab_size context r
      = applyRow m.first_hidden_linear.U (concatEmbeddingRows m.input_layer.W context) r := by
  have hcs : (m.ngram_size - 1).toNat = context.length := by
    rw [← hlen]; rfl
  have hdmul : ∀ j : Nat, ((j : Int) * m.input_embedding_dimension).toNat
      = j * m.input_embedding_dimension.toNat := by
    intro j
    rcases le_or_lt 0 m.input_embedding_dimension with hd | hd
    · obtain ⟨d, hd⟩ := Int.eq_ofNat_of_zero_le hd
      rw [hd]
      exact_mod_cast Int.toNat_ofNat (j * d)
    · have h1 : m.input_embedding_dimension.toNat = 0 := by omega
      have h2 : (j : Int) * m.input_embedding_dimension ≤ 0 :=
        Int.mul_nonpos_of_nonneg_of_nonpos (by omega) (by omega)
      rw [h1, Nat.mul_zero]
      omega
  have hUc : m.first_hidden_linear.U.cols
      = m.input_embedding_dimension.toNat * context.length := by
    rw [hU, ← hlen, Int.mul_comm, hdmul, Nat.mul_comm]
  unfold sumOfColumns applyRow
  rw [hUc, sum_range_blocks]
  apply Finset.sum_congr rfl
  intro i hi
  have hi : i < context.length := Finset.mem_range.mp hi
  have hmem : context.getD i 0 ∈ context := by
    rw [List.getD_eq_getElem _ _ hi]
    exact List.getElem_mem hi
  obtain ⟨hw0, hwV⟩ := hctx _ hmem
  have hV : 0 ≤ m.input_vocab_size := by omega
  obtain ⟨v, hv⟩ := Int.eq_ofNat_of_zero_le hV
  obtain ⟨w, hw⟩ := Int.eq_ofNat_of_zero_le hw0
  have hcol : ((i : Int) * m.input_vocab_size + context.getD i 0).toNat
      = i * m.input_vocab_size.toNat + w := by
    rw [hw, hv]
    exact_mod_cast Int.toNat_ofNat (i * v + w)
  have hwlt : w < m.input_vocab_size.toNat := by omega
  have hfold := premultiply_fold_coeff m m.first_hidden_linear.U
    (if m.num_hidden = 0 then
      m.first_hidden_linear.U.resize m.output_embedding_dimension.toNat
        (m.input_vocab_size * (m.ngram_size - 1)).toNat
    else
      m.first_hidden_linear.U.resize m.num_hidden.toNat
        (m.input_vocab_size * (m.ngram_size - 1)).toNat)
    context.length i w r hV hi hwlt
  simp only [model.premultiply, hcs, hcol]
  rw [hfold]
  apply Finset.sum_congr rfl
  intro k hk
  have hk : k < m.input_layer.W.cols := by
    rw [hW]; exact Finset.mem_range.mp hk
  have hget := concatEmbeddingRows_getD m.input_layer.W context i k hi hk
  rw [hW] at hget
  rw [hdmul, hget, hw]
  rfl

/-- Instance of `premultiply_preserves_first_stage` at `exampleModel Int` and the context
`[1, 0]`: both computations give `1*10 + 2*11 + 3*0 + 4*1 = 36`. -/
theorem premultiply_preserves_first_stage_witness :
    sumOfColumns (exampleModel Int).premultiply.first_hidden_linear.U (exampleModel Int).input_vocab_size
        [1, 0] 0
      = applyRow (exampleModel Int).first_hidden_linear.U
          (concatEmbeddingRows (exampleModel Int).input_layer.W [1, 0]) 0
    ∧ applyRow (exampleModel Int).first_hidden_linear.U
          (concatEmbeddingRows (exampleModel Int).input_layer.W [1, 0]) 0 = 36 :=
  ⟨premultiply_preserves_first_stage (exampleModel Int) [1, 0] 0 (by decide) (by decide) (by decide)
    (by decide), by decide⟩

end PremultiplyTheorems

section PaddingTheorems

/-- A loop of indexed writes keeps the length of the vector. -/
theorem foldl_set_length {α : Type} (f : Nat → α) (off c : Nat) (l : List α) :
    ((List.range c).foldl (fun g i => g.set (off + i) (f i)) l).length = l.length := by
  induction c with
  | zero => simp
  | succ c ih => simp [List.range_succ, List.foldl_append, ih]

/-- The entries after the loop `for i < c: g(off + i) = f i`: the written positions hold the
written values, every other position is as before. -/
theorem foldl_set_getElem {α : Type} (f : Nat → α) (off c : Nat) (l : List α) (x : Nat) :
    ((List.range c).foldl (fun g i => g.set (off + i) (f i)) l)[x]?
      = if off ≤ x ∧ x < off + c ∧ x < l.length then some (f (x - off)) else l[x]? := by
  induction c with
  | zero =>
    have h0 : ¬ (off ≤ x ∧ x < off + 0 ∧ x < l.length) := by omega
    rw [if_neg h0]
    rfl
  | succ c ih =>
    rw [List.range_succ, List.foldl_append]
    simp only [List.foldl_cons, List.foldl_nil]
    rw [List.getElem?_set, foldl_set_length, ih]
    by_cases hx : off + c = x
    · subst hx
      by_cases hl : off + c < l.length
      · have h1 : off ≤ off + c ∧ off + c < off + (c + 1) ∧ off + c < l.length := by omega
        simp [hl, h1]
      · have h1 : ¬ (off ≤ off + c ∧ off + c < off + (c + 1) ∧ off + c < l.length) := by omega
        have h2 : l.length ≤ off + c := by omega
        simp [hl, h1, List.getElem?_eq_none h2]
    · rw [if_neg hx]
      by_cases h1 : off ≤ x ∧ x < off + c ∧ x < l.length
      · have h2 : off ≤ x ∧ x < off + (c + 1) ∧ x < l.length := by omega
        rw [if_pos h1, if_pos h2]
      · have h2 : ¬ (off ≤ x ∧ x < off + (c + 1) ∧ x < l.length) := by omega
        rw [if_neg h1, if_neg h2]

/-- Closed form of the padded n-gram: when `1 <= n < want` and the array holds `n` tokens,
`startNullNgram` is `want - n` copies of the fill symbol followed by the array. -/
theorem startNullNgram_short (want : Int) (ngram_a : List Int) (n start null : Int)
    (hlen : (ngram_a.length : Int) = n) (h1 : 1 ≤ n) (h2 : n < want) :
    startNullNgram want ngram_a n start null
      = List.replicate (want - n).toNat (if ngram_a.getD 0 0 = start then start else null)
          ++ ngram_a := by
  obtain ⟨k, hk⟩ := Int.eq_ofNat_of_zero_le (show 0 ≤ want - n by omega)
  have hkn : (want - n).toNat = k := by rw [hk]; rfl
  have hwant : want.toNat = k + ngram_a.length := by omega
  have hrest : (want - (want - n)).toNat = ngram_a.length := by omega
  have hpos : want - n > 0 := by omega
  unfold startNullNgram
  simp only [hpos, if_true, hkn, hwant, hrest]
  generalize (if ngram_a.getD 0 0 = start then start else null) = fill
  have hfill : (fun (g : List Int) (i : Nat) => g.set i fill)
      = (fun (g : List Int) (i : Nat) => g.set (0 + i) ((fun _ => fill) i)) := by
    funext g i; simp
  rw [hfill]
  apply List.ext_getElem?
  intro x
  rw [foldl_set_getElem, foldl_set_length, foldl_set_getElem, List.length_replicate]
  by_cases hx : x < k
  · have c1 : ¬ (k ≤ x ∧ x < k + ngram_a.length ∧ x < k + ngram_a.length) := by omega
    have c2 : 0 ≤ x ∧ x < 0 + k ∧ x < k + ngram_a.length := by omega
    rw [if_neg c1, if_pos c2, List.getElem?_append_left (by simpa using hx)]
    simp [hx]
  · by_cases hx2 : x < k + ngram_a.length
    · have c1 : k ≤ x ∧ x < k + ngram_a.length ∧ x < k + ngram_a.length := by omega
      rw [if_pos c1, List.getElem?_append_right (by simp; omega)]
      simp only [List.length_replicate, List.getD_eq_getElem?_getD]
      have hlt : x - k < ngram_a.length := by omega
      rw [List.getElem?_eq_getElem hlt]
      rfl
    · have c1 : ¬ (k ≤ x ∧ x < k + ngram_a.length ∧ x < k + ngram_a.length) := by omega
      have c2 : ¬ (0 ≤ x ∧ x < 0 + k ∧ x < k + ngram_a.length) := by omega
      rw [if_neg c1, if_neg c2, List.getElem?_append_right (by simp; omega)]
      rw [List.getElem?_eq_none (by simp; omega), List.getElem?_eq_none (by simp; omega)]

/-- Claim C4 (padding).  For a token array of length `n` with `1 <= n < ngram_size`,
`lookup_ngram_start_null` passes to `lookup_ngram` an n-gram of length `ngram_size` whose
first `ngram_size - n` entries all equal `fill` (`start` if `a[0] == start`, else `null`)
and whose last `n` entries are `a[0], ..., a[n-1]` in order. -/
theorem lookup_ngram_start_null_padding {R A : Type} [Zero R] [Mul R] [Sub R]
    (env : Collaborators R A) (nn : neuralNetwork R) (threads : ThreadSettings)
    (ngram_a : List Int) (n start null : Int)
    (hlen : (ngram_a.length : Int) = n) (h1 : 1 ≤ n) (h2 : n < nn.ngram_size_) :
    nn.lookup_ngram_start_null env threads ngram_a n start null
        = nn.lookup_ngram env threads (startNullNgram nn.ngram_size_ ngram_a n start null)
      ∧ ((startNullNgram nn.ngram_size_ ngram_a n start null).length : Int) = nn.ngram_size_
      ∧ (∀ i : Nat, (i : Int) < nn.ngram_size_ - n →
          (startNullNgram nn.ngram_size_ ngram_a n start null)[i]?
            = some (if ngram_a.getD 0 0 = start then start else null))
      ∧ (∀ j : Nat, (j : Int) < n →
          (startNullNgram nn.ngram_size_ ngram_a n start null)[(nn.ngram_size_ - n).toNat + j]?
            = ngram_a[j]?) := by
  rw [startNullNgram_short nn.ngram_size_ ngram_a n start null hlen h1 h2]
  refine ⟨?_, ?_, ?_, ?_⟩
  · unfold neuralNetwork.lookup_ngram_start_null
    rw [startNullNgram_short nn.ngram_size_ ngram_a n start null hlen h1 h2]
  · simp only [List.length_append, List.length_replicate]
    omega
  · intro i hi
    have hi2 : i < (nn.ngram_size_ - n).toNat := by omega
    rw [List.getElem?_append_left (by simpa using hi2)]
    simp [hi2]
  · intro j _
    rw [List.getElem?_append_right (by simp)]
    simp

/-- Instance of `lookup_ngram_start_null_padding` for trigrams and the one-token array `[5]`
with `start = 1`, `null = 0`: the n-gram passed on is `[0, 0, 5]`. -/
theorem lookup_ngram_start_null_padding_witness :
    ((([5] : List Int).length : Int) = 1 ∧ (1 : Int) ≤ 1 ∧ (1 : Int) < (exampleScorer Int).ngram_size_)
      ∧ startNullNgram (exampleScorer Int).ngram_size_ [5] 1 1 0 = [0, 0, 5]
      ∧ (exampleScorer Int).lookup_ngram_start_null (exampleCollaborators Int)
            ⟨4, 4⟩ [5] 1 1 0
          = (exampleScorer Int).lookup_ngram (exampleCollaborators Int) ⟨4, 4⟩
              (startNullNgram (exampleScorer Int).ngram_size_ [5] 1 1 0) :=
  ⟨by decide, by decide,
    (lookup_ngram_start_null_padding (exampleCollaborators Int) (exampleScorer Int) ⟨4, 4⟩
      [5] 1 1 0 (by decide) (by decide) (by decide)).1⟩

end PaddingTheorems

section CacheTheorems

/-- The miss-path computation reads only the model, the normalization flag, the weight and
the order of the scorer. -/
theorem computeLogProb_congr {R A : Type} [Mul R] [Sub R]
    (env : Collaborators R A) (nn ref : neuralNetwork R)
    (ngram : List Int) (hm : nn.m = ref.m) (hnorm : nn.normalization = ref.normalization)
    (hw : nn.weight = ref.weight) (hn : nn.ngram_size_ = ref.ngram_size_) :
    computeLogProb env nn ngram = computeLogProb env ref ngram := by
  unfold computeLogProb
  rw [hm, hnorm, hw, hn]

variable {R A : Type} [Zero R] [Mul R] [Sub R]

/-- With caching disabled a lookup returns what the miss path computes. -/
theorem lookup_ngram_uncached_value (env : Collaborators R A) (nn : neuralNetwork R)
    (threads : ThreadSettings) (ngram : List Int) (h0 : nn.cache_size = 0) :
    (nn.lookup_ngram env threads ngram).value = computeLogProb env nn ngram := by
  unfold neuralNetwork.lookup_ngram cacheHit
  simp only [h0, ne_eq, not_true_eq_false, decide_False, Bool.false_and, if_false]
  cases computeLogProb env nn ngram <;> rfl

/-- The column of sentinels is not an n-gram of token indices. -/
theorem sentinel_not_valid (k : Nat) : ¬ ValidNgram (List.replicate k (-1)) := by
  rintro ⟨hne, hpos⟩
  cases k with
  | zero => exact hne rfl
  | succ k =>
    have := hpos (-1) (by simp [List.replicate_succ])
    omega

/-- The value array has `n` elements after `resize(n)`. -/
theorem vectorResize_length {α : Type} (v : List α) (n : Nat) (x : α) :
    (vectorResize v n x).length = n := by
  unfold vectorResize
  simp only [List.length_append, List.length_take, List.length_replicate]
  omega

/-- The cache is coherent right after `set_cache`. -/
theorem set_cache_coherent (env : Collaborators R A) (nn0 : neuralNetwork R) (N : Nat) :
    CacheCoherent env nn0 (nn0.set_cache N) := by
  refine ⟨rfl, rfl, rfl, rfl, ?_, ?_, ?_⟩
  · simp [neuralNetwork.set_cache]
  · simp [neuralNetwork.set_cache, vectorResize_length]
  · intro i hi hv
    exfalso
    have hi2 : i < N := hi
    have hkey : (nn0.set_cache N).cache_keys.getD i []
        = List.replicate nn0.ngram_size_.toNat (-1) := by
      simp [neuralNetwork.set_cache, hi2]
    rw [hkey] at hv
    exact sentinel_not_valid _ hv

/-- One lookup on a coherent cache returns the value of the miss path of the reference
scorer and leaves the cache coherent. -/
theorem lookup_ngram_coherent (env : Collaborators R A) (ref nn : neuralNetwork R)
    (threads : ThreadSettings) (ngram : List Int) (hc : CacheCoherent env ref nn)
    (hv : ValidNgram ngram) :
    (nn.lookup_ngram env threads ngram).value = computeLogProb env ref ngram
      ∧ CacheCoherent env ref (nn.lookup_ngram env threads ngram).nn := by
  obtain ⟨hm, hnorm, hw, hn, hkl, hvl, hslots⟩ := hc
  unfold neuralNetwork.lookup_ngram
  by_cases hhit : cacheHit env nn ngram = true
  · rw [if_pos hhit]
    simp only [cacheHit, Bool.and_eq_true, decide_eq_true_eq] at hhit
    obtain ⟨hsz, hkey⟩ := hhit
    have hlt : cacheSlot env nn ngram < nn.cache_size :=
      Nat.mod_lt _ (Nat.pos_of_ne_zero hsz)
    have hval := hslots _ hlt (by rw [hkey]; exact hv)
    rw [hkey] at hval
    refine ⟨hval.symm, ?_⟩
    simp only [hsz, ne_eq, not_false_eq_true, if_true]
    exact ⟨hm, hnorm, hw, hn, hkl, hvl, hslots⟩
  · rw [if_neg hhit]
    have hc1 : CacheCoherent env ref
        (if nn.cache_size ≠ 0 then
          { nn with cache_lookups := wrapInt32 (nn.cache_lookups + 1) } else nn) := by
      split
      · exact ⟨hm, hnorm, hw, hn, hkl, hvl, hslots⟩
      · exact ⟨hm, hnorm, hw, hn, hkl, hvl, hslots⟩
    generalize hnn1 : (if nn.cache_size ≠ 0 then
          { nn with cache_lookups := wrapInt32 (nn.cache_lookups + 1) } else nn) = nn1 at hc1 ⊢
    have hsize : nn1.cache_size = nn.cache_size := by
      rw [← hnn1]; split <;> rfl
    obtain ⟨hm1, hnorm1, hw1, hn1, hkl1, hvl1, hslots1⟩ := hc1
    have hcomp : computeLogProb env nn1 ngram = computeLogProb env ref ngram :=
      computeLogProb_congr env nn1 ref ngram hm1 hnorm1 hw1 hn1
    rw [hcomp]
    cases hres : computeLogProb env ref ngram with
    | none => exact ⟨rfl, hm1, hnorm1, hw1, hn1, hkl1, hvl1, hslots1⟩
    | some v =>
      refine ⟨rfl, ?_⟩
      by_cases hsz : nn1.cache_size = 0
      · simp only [hsz, ne_eq, not_true_eq_false, if_false]
        exact ⟨hm1, hnorm1, hw1, hn1, hkl1, hvl1, hslots1⟩
      · simp only [hsz, ne_eq, not_false_eq_true, if_true]
        have hlt : cacheSlot env nn ngram < nn1.cache_size := by
          rw [hsize]
          exact Nat.mod_lt _ (Nat.pos_of_ne_zero (by rw [← hsize]; exact hsz))
        refine ⟨hm1, hnorm1, hw1, hn1, ?_, ?_, ?_⟩
        · simpa using hkl1
        · simpa using hvl1
        · intro i hi hvi
          simp only [List.getD_eq_getElem?_getD] at hvi hslots1 ⊢
          by_cases hih : cacheSlot env nn ngram = i
          · subst hih
            rw [List.getElem?_set_self (by rw [hkl1]; exact hlt)]
            rw [List.getElem?_set_self (by rw [hvl1]; exact hlt)]
            simpa using hres
          · rw [List.getElem?_set_ne hih] at hvi ⊢
            rw [List.getElem?_set_ne hih]
            exact hslots1 i hi hvi

/-- A sequence of lookups on a coherent cache returns, call by call, the values of the miss
path of the reference scorer. -/
theorem lookupSequence_values (env : Collaborators R A) (ref : neuralNetwork R)
    (calls : List (List Int)) (nn : neuralNetwork R) (threads : ThreadSettings)
    (hc : CacheCoherent env ref nn) (hv : ∀ g ∈ calls, ValidNgram g) :
    (lookupSequence env nn threads calls).map (fun res => res.value)
      = calls.map (computeLogProb env ref) := by
  induction calls generalizing nn threads with
  | nil => rfl
  | cons g rest ih =>
    obtain ⟨h1, h2⟩ := lookup_ngram_coherent env ref nn threads g hc
      (hv g (List.mem_cons_self _ _))
    simp only [lookupSequence, List.map_cons, h1]
    rw [ih _ _ h2 (fun g' hg' => hv g' (List.mem_cons_of_mem _ hg'))]

/-- Claim C2 (cache correctness).  With the model, the normalization flag and the weight
fixed, for every capacity `N > 0` and every sequence of single-n-gram lookups of token-index
n-grams made after `set_cache(N)`, the value returned by each call, hit or miss, equals the
value that `lookup_ngram` returns for that n-gram with caching disabled. -/
theorem cache_correctness (env : Collaborators R A) (nn0 : neuralNetwork R) (N : Nat)
    (calls : List (List Int)) (threads threads0 : ThreadSettings)
    (hv : ∀ g ∈ calls, ValidNgram g) :
    (lookupSequence env (nn0.set_cache N) threads calls).map (fun res => res.value)
      = calls.map (fun g => ((nn0.set_cache 0).lookup_ngram env threads0 g).value) := by
  rw [lookupSequence_values env nn0 calls _ threads (set_cache_coherent env nn0 N) hv]
  apply List.map_congr_left
  intro g _
  rw [lookup_ngram_uncached_value env (nn0.set_cache 0) threads0 g rfl]
  exact (computeLogProb_congr env (nn0.set_cache 0) nn0 g rfl rfl rfl rfl).symm

/-- Instance of `cache_correctness`: capacity two and the calls `[0,1,2]`, `[0,1,2]`,
`[1,0,1]` on the example scorer.  The second call is a hit, and all three return what the
scorer returns with caching disabled. -/
theorem cache_correctness_witness :
    (∀ g ∈ ([[0, 1, 2], [0, 1, 2], [1, 0, 1]] : List (List Int)), ValidNgram g)
      ∧ (lookupSequence (exampleCollaborators Int) ((exampleScorer Int).set_cache 2) ⟨4, 4⟩
            [[0, 1, 2], [0, 1, 2], [1, 0, 1]]).map (fun res => res.value)
          = ([[0, 1, 2], [0, 1, 2], [1, 0, 1]] : List (List Int)).map
              (fun g => (((exampleScorer Int).set_cache 0).lookup_ngram
                (exampleCollaborators Int) ⟨4, 4⟩ g).value)
      ∧ (lookupSequence (exampleCollaborators Int) ((exampleScorer Int).set_cache 2) ⟨4, 4⟩
            [[0, 1, 2], [0, 1, 2], [1, 0, 1]]).map (fun res => (res.value, res.hit))
          = [(some 3, false), (some 3, true), (some 2, false)] :=
  ⟨by decide,
    cache_correctness (exampleCollaborators Int) (exampleScorer Int) 2
      [[0, 1, 2], [0, 1, 2], [1, 0, 1]] ⟨4, 4⟩ ⟨4, 4⟩ (by decide),
    by decide⟩

/-- Wrapping is compatible with a further increment. -/
theorem wrapInt32_succ (c : Int) : wrapInt32 (wrapInt32 c + 1) = wrapInt32 (c + 1) := by
  unfold wrapInt32
  omega

/-- Values in the range of `int` are fixed by wrapping. -/
theorem wrapInt32_of_range (c : Int) (h0 : -2147483648 ≤ c) (h1 : c < 2147483648) :
    wrapInt32 c = c := by
  unfold wrapInt32
  omega

/-- The number of results of a run that returned through the cache-hit branch. -/
theorem countHits_le {R : Type} (l : List (LookupResult R)) :
    (l.filter (fun res => res.hit)).length ≤ l.length :=
  List.length_filter_le _ _

/-- One lookup with caching on: the capacity is kept, `cache_lookups` is incremented, and
`cache_hits` is incremented exactly when the call returns through the hit branch. -/
theorem lookup_ngram_counters (env : Collaborators R A) (nn : neuralNetwork R)
    (threads : ThreadSettings) (ngram : List Int) (hsz : nn.cache_size ≠ 0) :
    (nn.lookup_ngram env threads ngram).nn.cache_size = nn.cache_size
      ∧ (nn.lookup_ngram env threads ngram).nn.cache_lookups
          = wrapInt32 (nn.cache_lookups + 1)
      ∧ (nn.lookup_ngram env threads ngram).nn.cache_hits
          = if (nn.lookup_ngram env threads ngram).hit then wrapInt32 (nn.cache_hits + 1)
            else nn.cache_hits := by
  unfold neuralNetwork.lookup_ngram
  simp only [hsz, ne_eq, not_false_eq_true, if_true]
  by_cases hhit : cacheHit env nn ngram = true
  · simp [hhit]
  · simp only [hhit, if_false]
    cases computeLogProb env
      { nn with cache_lookups := wrapInt32 (nn.cache_lookups + 1) } ngram with
    | none => exact ⟨rfl, rfl, by simp⟩
    | some v => exact ⟨rfl, rfl, by simp⟩

/-- The counters after a run of lookups with caching on, as 32-bit values: `cache_lookups`
has advanced by the number of calls and `cache_hits` by the number of hit-branch returns. -/
theorem scorerAfter_counters (env : Collaborators R A) (calls : List (List Int))
    (nn : neuralNetwork R) (threads : ThreadSettings) (c h : Int)
    (hsz : nn.cache_size ≠ 0) (hc : nn.cache_lookups = wrapInt32 c)
    (hh : nn.cache_hits = wrapInt32 h) :
    (scorerAfter env nn threads calls).cache_lookups = wrapInt32 (c + calls.length)
      ∧ (scorerAfter env nn threads calls).cache_hits
          = wrapInt32 (h + ((lookupSequence env nn threads calls).filter
              (fun res => res.hit)).length) := by
  induction calls generalizing nn threads c h with
  | nil => simpa [scorerAfter, lookupSequence] using ⟨hc, hh⟩
  | cons g rest ih =>
    obtain ⟨h1, h2, h3⟩ := lookup_ngram_counters env nn threads g hsz
    simp only [scorerAfter, lookupSequence]
    by_cases hhit : (nn.lookup_ngram env threads g).hit = true
    · rw [hhit] at h3
      have := ih (nn.lookup_ngram env threads g).nn (nn.lookup_ngram env threads g).threads
        (c + 1) (h + 1) (by rw [h1]; exact hsz) (by rw [h2, hc, wrapInt32_succ])
        (by rw [h3, hh]; simp [wrapInt32_succ])
      rw [this.1, this.2, List.filter_cons_of_pos (by simpa using hhit)]
      constructor
      · congr 1; simp only [List.length_cons]; push_cast; ring
      · congr 1; simp only [List.length_cons]; push_cast; ring
    · have hf : (nn.lookup_ngram env threads g).hit = false := by simpa using hhit
      rw [hf] at h3
      have := ih (nn.lookup_ngram env threads g).nn (nn.lookup_ngram env threads g).threads
        (c + 1) h (by rw [h1]; exact hsz) (by rw [h2, hc, wrapInt32_succ])
        (by rw [h3, hh]; simp)
      rw [this.1, this.2, List.filter_cons_of_neg (by simp [hf])]
      constructor
      · congr 1; simp only [List.length_cons]; push_cast; ring
      · rfl

/-- The run of lookups has one result per call. -/
theorem lookupSequence_length (env : Collaborators R A) (calls : List (List Int))
    (nn : neuralNetwork R) (threads : ThreadSettings) :
    (lookupSequence env nn threads calls).length = calls.length := by
  induction calls generalizing nn threads with
  | nil => rfl
  | cons g rest ih => simp [lookupSequence, ih]

/-- Claim C3 (cache accounting), for a number of calls that a 32-bit counter can hold.
After `set_cache(N)` with `N > 0` followed by `k` single-n-gram lookups, `1 <= k < 2^31`, of
which `h` returned through the cache-hit branch, `cache_lookups = k`, `cache_hits = h` and
`cache_hit_rate()` is the quotient of `h` by `k`. -/
theorem cache_accounting [IntCast R] [Div R] (env : Collaborators R A)
    (nn0 : neuralNetwork R) (N : Nat) (calls : List (List Int)) (threads : ThreadSettings)
    (hN : 0 < N) (_hk1 : 1 ≤ calls.length) (hk : calls.length < 2147483648) :
    (scorerAfter env (nn0.set_cache N) threads calls).cache_lookups = calls.length
      ∧ (scorerAfter env (nn0.set_cache N) threads calls).cache_hits
          = ((lookupSequence env (nn0.set_cache N) threads calls).filter
              (fun res => res.hit)).length
      ∧ (scorerAfter env (nn0.set_cache N) threads calls).cache_hit_rate
          = ((((lookupSequence env (nn0.set_cache N) threads calls).filter
                (fun res => res.hit)).length : Int) : R)
              / (((calls.length : Nat) : Int) : R) := by
  have hsz : (nn0.set_cache N).cache_size ≠ 0 := by
    show N ≠ 0
    omega
  obtain ⟨h1, h2⟩ := scorerAfter_counters env calls (nn0.set_cache N) threads 0 0 hsz
    rfl rfl
  have hle := countHits_le (lookupSequence env (nn0.set_cache N) threads calls)
  rw [lookupSequence_length] at hle
  rw [wrapInt32_of_range _ (by omega) (by omega)] at h1 h2
  simp only [zero_add] at h1 h2
  refine ⟨h1, h2, ?_⟩
  unfold neuralNetwork.cache_hit_rate
  rw [h1, h2]

/-- Instance of `cache_accounting`: capacity two and the calls `[0,1,2]`, `[0,1,2]`,
`[1,0,1]` over the rationals; three lookups, one hit, hit rate one third. -/
theorem cache_accounting_witness :
    ((0 < 2) ∧ 1 ≤ ([[0, 1, 2], [0, 1, 2], [1, 0, 1]] : List (List Int)).length
        ∧ ([[0, 1, 2], [0, 1, 2], [1, 0, 1]] : List (List Int)).length < 2147483648)
      ∧ (scorerAfter (exampleCollaborators ℚ) ((exampleScorer ℚ).set_cache 2) ⟨4, 4⟩
          [[0, 1, 2], [0, 1, 2], [1, 0, 1]]).cache_lookups = 3
      ∧ (scorerAfter (exampleCollaborators ℚ) ((exampleScorer ℚ).set_cache 2) ⟨4, 4⟩
          [[0, 1, 2], [0, 1, 2], [1, 0, 1]]).cache_hits = 1
      ∧ (scorerAfter (exampleCollaborators ℚ) ((exampleScorer ℚ).set_cache 2) ⟨4, 4⟩
          [[0, 1, 2], [0, 1, 2], [1, 0, 1]]).cache_hit_rate = 1 / 3 := by
  have h := cache_accounting (exampleCollaborators ℚ) (exampleScorer ℚ) 2
    [[0, 1, 2], [0, 1, 2], [1, 0, 1]] ⟨4, 4⟩ (by decide) (by decide) (by decide)
  have hcount : ((lookupSequence (exampleCollaborators ℚ) ((exampleScorer ℚ).set_cache 2)
      ⟨4, 4⟩ [[0, 1, 2], [0, 1, 2], [1, 0, 1]]).filter (fun res => res.hit)).length = 1 := by
    decide
  rw [hcount] at h
  refine ⟨⟨by decide, by decide, by decide⟩, h.1, h.2.1, ?_⟩
  rw [h.2.2]
  norm_num

/-- Claim C3 as stated fails for `k = 2^31` lookups: after `set_cache(1)` and `2^31` lookups
the 32-bit counter `cache_lookups` is not `2^31`. -/
theorem cache_accounting_counterexample :
    (scorerAfter (exampleCollaborators ℚ) ((exampleScorer ℚ).set_cache 1) ⟨4, 4⟩
        (List.replicate 2147483648 [0, 1, 2])).cache_lookups
      ≠ ((List.replicate 2147483648 ([0, 1, 2] : List Int)).length : Int) := by
  have h := (scorerAfter_counters (exampleCollaborators ℚ)
    (List.replicate 2147483648 [0, 1, 2]) ((exampleScorer ℚ).set_cache 1) ⟨4, 4⟩ 0 0
    (by decide) rfl rfl).1
  rw [h, List.length_replicate]
  unfold wrapInt32
  omega

end CacheTheorems

section NormalizationTheorems

/-- The sum of a list built over `List.range n` is the sum over `Finset.range n`. -/
theorem sum_map_range (f : Nat → ℝ) (n : Nat) :
    ((List.range n).map f).sum = ∑ t ∈ Finset.range n, f t := by
  induction n with
  | zero => simp
  | succ n ih => simp [List.range_succ, Finset.sum_range_succ, ih]

/-- Softmax identity: the exponentials of the scores minus the log of the sum of their
exponentials add up to one. -/
theorem sum_exp_sub_log_sum_exp (S : Nat → ℝ) (V : Nat) (hV : 0 < V) :
    ∑ t ∈ Finset.range V,
        Real.exp (S t - Real.log (∑ i ∈ Finset.range V, Real.exp (S i))) = 1 := by
  have hpos : 0 < ∑ i ∈ Finset.range V, Real.exp (S i) :=
    Finset.sum_pos (fun i _ => Real.exp_pos _) (Finset.nonempty_range_iff.mpr (by omega))
  simp only [Real.exp_sub, Real.exp_log hpos]
  rw [← Finset.sum_div]
  exact div_self (ne_of_gt hpos)

/-- With normalization on, the miss path returns `weight * (score[t] - logz)` for the n-gram
made of a context followed by the target `t`, where the scores are those of the forward pass
on that n-gram. -/
theorem computeLogProb_normalized {A : Type} (env : Collaborators ℝ A) (nn : neuralNetwork ℝ)
    (context : List Int) (t : Nat) (p : propagator A)
    (hnorm : nn.normalization = true)
    (hlen : (context.length : Int) = nn.ngram_size_ - 1)
    (hp : env.fProp nn.m (context ++ [(t : Int)]) = some p) :
    computeLogProb env nn (context ++ [(t : Int)])
      = some (nn.weight *
          (env.output_fProp_matrix nn.m
              (if p.skip_hidden then p.first_hidden_activation_node
               else p.second_hidden_activation_node) t 0
            - env.logsum
                { rows := nn.m.output_vocab_size.toNat, cols := 1
                  coeff := env.output_fProp_matrix nn.m
                    (if p.skip_hidden then p.first_hidden_activation_node
                     else p.second_hidden_activation_node) })) := by
  have hidx : (nn.ngram_size_ - 1).toNat = context.length := by omega
  unfold computeLogProb
  rw [hp]
  simp only [hnorm, if_true, hidx]
  have hget : (context ++ [(t : Int)]).getD context.length 0 = (t : Int) := by
    rw [List.getD_append_right _ _ _ _ (le_refl _)]
    simp
  rw [hget]
  rfl

/-- Claim C10 (normalization property), with the log-base weight taken into account.  With
normalization enabled, a nonzero weight `w`, a non-empty output vocabulary, `logsum` the log
of the sum of exponentials and a forward pass that succeeds and depends on the context only,
the lookups of the context followed by each target index `t` return values `v_t` with
`sum_t exp(v_t / w) = 1`; in particular `sum_t exp(v_t) = 1` when `w = 1`, the weight of the
natural logarithm. -/
theorem normalization_property {A : Type} (env : Collaborators ℝ A) (nn0 : neuralNetwork ℝ)
    (N : Nat) (threads : ThreadSettings) (context : List Int)
    (hnorm : nn0.normalization = true) (hw : nn0.weight ≠ 0)
    (hlen : (context.length : Int) = nn0.ngram_size_ - 1)
    (hctx : ∀ w ∈ context, 0 ≤ w)
    (hV : 0 < nn0.m.output_vocab_size)
    (hlogsum : ∀ M : Mat ℝ,
      env.logsum M = Real.log (∑ i ∈ Finset.range M.rows, Real.exp (M.coeff i 0)))
    (hprop : ∃ p, ∀ t : Int, env.fProp nn0.m (context ++ [t]) = some p) :
    ∃ v : List ℝ,
      (lookupSequence env (nn0.set_cache N) threads
          ((List.range nn0.m.output_vocab_size.toNat).map
            (fun t : Nat => context ++ [(t : Int)]))).map (fun res => res.value) = v.map some
        ∧ (v.map (fun x => Real.exp (x / nn0.weight))).sum = 1
        ∧ (nn0.weight = 1 → (v.map Real.exp).sum = 1) := by
  obtain ⟨p, hp⟩ := hprop
  have hvalid : ∀ g ∈ (List.range nn0.m.output_vocab_size.toNat).map
      (fun t : Nat => context ++ [(t : Int)]), ValidNgram g := by
    intro g hg
    obtain ⟨t, _, rfl⟩ := List.mem_map.mp hg
    refine ⟨by simp, ?_⟩
    intro w hw
    rcases List.mem_append.mp hw with h | h
    · exact hctx w h
    · have : w = (t : Int) := by simpa using h
      omega
  rw [lookupSequence_values env nn0 _ _ threads (set_cache_coherent env nn0 N) hvalid]
  generalize hS : env.output_fProp_matrix nn0.m
      (if p.skip_hidden then p.first_hidden_activation_node
       else p.second_hidden_activation_node) = S
  have hval : ∀ t : Nat, computeLogProb env nn0 (context ++ [(t : Int)])
      = some (nn0.weight * (S t 0
          - Real.log (∑ i ∈ Finset.range nn0.m.output_vocab_size.toNat,
              Real.exp (S i 0)))) := by
    intro t
    rw [computeLogProb_normalized env nn0 context t p hnorm hlen (hp t), hlogsum, hS]
  have hsum : ((List.map (fun t : Nat => nn0.weight * (S t 0
        - Real.log (∑ i ∈ Finset.range nn0.m.output_vocab_size.toNat, Real.exp (S i 0))))
      (List.range nn0.m.output_vocab_size.toNat)).map
        (fun x => Real.exp (x / nn0.weight))).sum = 1 := by
    rw [List.map_map, sum_map_range]
    have hV2 : 0 < nn0.m.output_vocab_size.toNat := by omega
    rw [← sum_exp_sub_log_sum_exp (fun t => S t 0) _ hV2]
    apply Finset.sum_congr rfl
    intro t _
    simp only [Function.comp]
    rw [mul_div_cancel_left₀ _ hw]
  refine ⟨(List.range nn0.m.output_vocab_size.toNat).map (fun t => nn0.weight * (S t 0
      - Real.log (∑ i ∈ Finset.range nn0.m.output_vocab_size.toNat, Real.exp (S i 0)))),
    ?_, hsum, ?_⟩
  · rw [List.map_map, List.map_map]
    apply List.map_congr_left
    intro t _
    simp only [Function.comp]
    exact hval t
  · intro h1
    simp only [h1, div_one] at hsum
    simpa [h1] using hsum

/-- Instance of `normalization_property`: the example scorer with normalization on and the
default weight one, the output layer that scores every word `0`, and the context `[0, 1]`. -/
theorem normalization_property_witness :
    (((exampleScorer ℝ).set_normalization true).normalization = true
        ∧ ((exampleScorer ℝ).set_normalization true).weight ≠ 0
        ∧ ((([0, 1] : List Int).length : Int)
            = ((exampleScorer ℝ).set_normalization true).ngram_size_ - 1)
        ∧ 0 < ((exampleScorer ℝ).set_normalization true).m.output_vocab_size)
      ∧ ∃ v : List ℝ,
          (lookupSequence
              (flatCollaborators ℝ
                (fun M => Real.log (∑ i ∈ Finset.range M.rows, Real.exp (M.coeff i 0))))
              (((exampleScorer ℝ).set_normalization true).set_cache 2) ⟨4, 4⟩
              ((List.range ((exampleScorer ℝ).set_normalization true).m.output_vocab_size.toNat).map
                (fun t : Nat => [0, 1] ++ [(t : Int)]))).map (fun res => res.value)
            = v.map some
          ∧ (v.map (fun x =>
              Real.exp (x / ((exampleScorer ℝ).set_normalization true).weight))).sum = 1
          ∧ (((exampleScorer ℝ).set_normalization true).weight = 1 →
              (v.map Real.exp).sum = 1) :=
  ⟨⟨rfl, one_ne_zero, by decide, by decide⟩,
    normalization_property
      (flatCollaborators ℝ
        (fun M => Real.log (∑ i ∈ Finset.range M.rows, Real.exp (M.coeff i 0))))
      ((exampleScorer ℝ).set_normalization true) 2 ⟨4, 4⟩ [0, 1] rfl one_ne_zero
      (by decide) (by decide) (by decide) (fun _ => rfl) ⟨_, fun _ => rfl⟩⟩

/-- Claim C10 as stated fails once the log base is not `e`: after `set_log_base(10)`, with
normalization on and three output words all scored `0`, every lookup returns
`-log 3 / log 10` and the exponentials of the three returned values do not add up to one. -/
theorem normalization_counterexample :
    ∑ t ∈ Finset.range 3,
        Real.exp
          (((((exampleScorer ℝ).set_normalization true).set_log_base Real.log 10).lookup_ngram
              (flatCollaborators ℝ
                (fun M => Real.log (∑ i ∈ Finset.range M.rows, Real.exp (M.coeff i 0))))
              ⟨4, 4⟩ [0, 1, (t : Int)]).value.getD 0)
      ≠ 1 := by
  have hval : ∀ t : Nat,
      ((((exampleScorer ℝ).set_normalization true).set_log_base Real.log 10).lookup_ngram
          (flatCollaborators ℝ
            (fun M => Real.log (∑ i ∈ Finset.range M.rows, Real.exp (M.coeff i 0))))
          ⟨4, 4⟩ [0, 1, (t : Int)]).value
        = some (1 / Real.log 10 * (0 - Real.log 3)) := by
    intro t
    rw [lookup_ngram_uncached_value _ _ _ _ rfl]
    simp only [computeLogProb, flatCollaborators, neuralNetwork.set_log_base,
      neuralNetwork.set_normalization, exampleScorer, exampleModel, if_true]
    have h3 : Int.toNat 3 = 3 := rfl
    norm_num [Finset.sum_range_succ, h3]
  simp only [hval, Option.getD_some, Finset.sum_const, Finset.card_range, nsmul_eq_mul]
  have h10 : 1 < Real.log 10 := by
    rw [Real.lt_log_iff_exp_lt (by norm_num)]
    exact lt_trans Real.exp_one_lt_d9 (by norm_num)
  have h3 : 0 < Real.log 3 := Real.log_pos (by norm_num)
  have hx : -Real.log 3 < 1 / Real.log 10 * (0 - Real.log 3) := by
    have hinv : 1 / Real.log 10 < 1 := by
      rw [div_lt_one (by linarith)]
      exact h10
    nlinarith
  have hexp : 1 / 3 < Real.exp (1 / Real.log 10 * (0 - Real.log 3)) := by
    have h := Real.exp_lt_exp.mpr hx
    rw [Real.exp_neg, Real.exp_log (by norm_num)] at h
    linarith [h]
  intro hcontra
  have h1 : (3 : ℝ) * Real.exp (1 / Real.log 10 * (0 - Real.log 3)) = 1 := by
    simpa using hcontra
  linarith

end NormalizationTheorems

section ConfigTheorems

variable {R : Type}

/-- A well-formed line with the key `version` and a value other than `1` ends the process
with `exit(1)`. -/
theorem readConfigLine_bad_version (env : FileCollaborators R) (cs : ConfigState R)
    (line value : Line) (v : Int) (hsplit : env.splitBySpace line = [keyVersion, value])
    (hcast : env.lexical_cast_int value = some v) (hv : v ≠ 1) :
    readConfigLine env cs line = .error (.exit 1) := by
  unfold readConfigLine
  rw [hsplit]
  simp only
  rw [if_neg (show ¬ keyVersion = keyNgramSize by decide)]
  rw [if_neg (show ¬ keyVersion = keyVocabSize by decide)]
  rw [if_neg (show ¬ keyVersion = keyInputVocabSize by decide)]
  rw [if_neg (show ¬ keyVersion = keyOutputVocabSize by decide)]
  rw [if_neg (show ¬ keyVersion = keyInputEmbeddingDimension by decide)]
  rw [if_neg (show ¬ keyVersion = keyNumHidden by decide)]
  rw [if_neg (show ¬ keyVersion = keyOutputEmbeddingDimension by decide)]
  rw [if_neg (show ¬ keyVersion = keyActivationFunction by decide)]
  simp only [if_true, hcast, hv, ne_eq, not_false_eq_true]

/-- Every `key integer` pair is a well-formed config line. -/
theorem wellFormed_of_integer_pair (env : FileCollaborators R) (line key value : Line)
    (v : Int) (hsplit : env.splitBySpace line = [key, value])
    (hcast : env.lexical_cast_int value = some v) : WellFormedConfigLine env line :=
  ⟨key, value, hsplit, fun _ => ⟨v, hcast⟩⟩

/-- A well-formed line that is not a `version` line with a value other than `1` is
processed without failure. -/
theorem readConfigLine_good (env : FileCollaborators R) (cs : ConfigState R)
    (line key value : Line) (hsplit : env.splitBySpace line = [key, value])
    (hcast : key ∈ integerKeys → ∃ v, env.lexical_cast_int value = some v)
    (hgood : ∀ v, key = keyVersion → env.lexical_cast_int value = some v → v = 1) :
    ∃ cs1, readConfigLine env cs line = .ok cs1 := by
  unfold readConfigLine
  rw [hsplit]
  simp only
  by_cases h0 : key = keyNgramSize
  · obtain ⟨v, hv⟩ := hcast (by rw [h0]; decide)
    rw [if_pos h0, hv]; exact ⟨_, rfl⟩
  rw [if_neg h0]
  by_cases h1 : key = keyVocabSize
  · obtain ⟨v, hv⟩ := hcast (by rw [h1]; decide)
    rw [if_pos h1, hv]; exact ⟨_, rfl⟩
  rw [if_neg h1]
  by_cases h2 : key = keyInputVocabSize
  · obtain ⟨v, hv⟩ := hcast (by rw [h2]; decide)
    rw [if_pos h2, hv]; exact ⟨_, rfl⟩
  rw [if_neg h2]
  by_cases h3 : key = keyOutputVocabSize
  · obtain ⟨v, hv⟩ := hcast (by rw [h3]; decide)
    rw [if_pos h3, hv]; exact ⟨_, rfl⟩
  rw [if_neg h3]
  by_cases h4 : key = keyInputEmbeddingDimension
  · obtain ⟨v, hv⟩ := hcast (by rw [h4]; decide)
    rw [if_pos h4, hv]; exact ⟨_, rfl⟩
  rw [if_neg h4]
  by_cases h5 : key = keyNumHidden
  · obtain ⟨v, hv⟩ := hcast (by rw [h5]; decide)
    rw [if_pos h5, hv]; exact ⟨_, rfl⟩
  rw [if_neg h5]
  by_cases h6 : key = keyOutputEmbeddingDimension
  · obtain ⟨v, hv⟩ := hcast (by rw [h6]; decide)
    rw [if_pos h6, hv]; exact ⟨_, rfl⟩
  rw [if_neg h6]
  by_cases h7 : key = keyActivationFunction
  · rw [if_pos h7]; exact ⟨_, rfl⟩
  rw [if_neg h7]
  by_cases h8 : key = keyVersion
  · obtain ⟨v, hv⟩ := hcast (by rw [h8]; decide)
    rw [if_pos h8, hv]
    have hv1 : v = 1 := hgood v h8 hv
    simp only [hv1, ne_eq, not_true_eq_false, if_false]
    exact ⟨_, rfl⟩
  rw [if_neg h8]
  exact ⟨_, rfl⟩

/-- On a section of well-formed lines the loop of `readConfig` ends with `exit(1)` exactly
when the section has a `version` line with a value other than `1`, and returns otherwise. -/
theorem readConfigLoop_fatal_iff (env : FileCollaborators R) (config_file : Stream)
    (cs : ConfigState R)
    (hwf : ∀ line ∈ configSection config_file, WellFormedConfigLine env line) :
    (readConfigLoop env cs config_file = .error (.exit 1)
        ↔ ∃ line ∈ configSection config_file, BadVersionLine env line)
      ∧ ((¬ ∃ line ∈ configSection config_file, BadVersionLine env line) →
          ∃ r, readConfigLoop env cs config_file = .ok r) := by
  induction config_file generalizing cs with
  | nil =>
    refine ⟨⟨fun h => ?_, fun h => ?_⟩, fun _ => ⟨_, rfl⟩⟩
    · simp [readConfigLoop] at h
    · simp [configSection] at h
  | cons line rest ih =>
    by_cases hblank : line = []
    · subst hblank
      refine ⟨⟨fun h => ?_, fun h => ?_⟩, fun _ => ⟨(cs, rest), by simp [readConfigLoop]⟩⟩
      · simp [readConfigLoop] at h
      · simp [configSection] at h
    · have hsec : configSection (line :: rest) = line :: configSection rest := by
        simp [configSection, hblank]
      rw [hsec] at hwf ⊢
      obtain ⟨key, value, hsplit, hcast⟩ := hwf line (List.mem_cons_self _ _)
      have hwf2 : ∀ l ∈ configSection rest, WellFormedConfigLine env l :=
        fun l hl => hwf l (List.mem_cons_of_mem _ hl)
      unfold readConfigLoop
      rw [if_neg hblank]
      by_cases hbad : BadVersionLine env line
      · obtain ⟨value2, v2, hs2, hc2, hv2⟩ := hbad
        rw [readConfigLine_bad_version env cs line value2 v2 hs2 hc2 hv2]
        have hex : ∃ l ∈ line :: configSection rest, BadVersionLine env l :=
          ⟨line, List.mem_cons_self _ _, value2, v2, hs2, hc2, hv2⟩
        exact ⟨⟨fun _ => hex, fun _ => rfl⟩, fun hno => absurd hex hno⟩
      · have hgood : ∀ v, key = keyVersion → env.lexical_cast_int value = some v → v = 1 := by
          intro v hk hv
          by_contra hne
          exact hbad ⟨value, v, by rw [hsplit, hk], hv, hne⟩
        obtain ⟨cs1, hok⟩ := readConfigLine_good env cs line key value hsplit hcast hgood
        rw [hok]
        have hiff : (∃ l ∈ line :: configSection rest, BadVersionLine env l)
            ↔ ∃ l ∈ configSection rest, BadVersionLine env l := by
          constructor
          · rintro ⟨l, hl, hb⟩
            rcases List.mem_cons.mp hl with rfl | hl
            · exact absurd hb hbad
            · exact ⟨l, hl, hb⟩
          · rintro ⟨l, hl, hb⟩
            exact ⟨l, List.mem_cons_of_mem _ hl, hb⟩
        rw [hiff]
        exact ih cs1 hwf2

/-- Claim C6 (config fatal path).  For a config section whose lines are well formed (as
every `key integer` pair is), `readConfig` ends the process with `exit(1)` if and only if
some line before the first empty line has the key `version` and a value other than `1`;
otherwise it returns, having applied `resize`.  A failed call returns no model: `resize` is
not applied. -/
theorem readConfig_fatal_iff (env : FileCollaborators R) (uninit : ConfigLocals)
    (m : model R) (config_file : Stream)
    (hwf : ∀ line ∈ configSection config_file, WellFormedConfigLine env line) :
    (m.readConfig env uninit config_file = .error (.exit 1)
        ↔ ∃ line ∈ configSection config_file, BadVersionLine env line)
      ∧ ((¬ ∃ line ∈ configSection config_file, BadVersionLine env line) →
          ∃ r, m.readConfig env uninit config_file = .ok r) := by
  obtain ⟨h1, h2⟩ := readConfigLoop_fatal_iff env config_file
    { m := m, locals := uninit, activation_function := m.activation_function, cerr := [] } hwf
  unfold model.readConfig
  constructor
  · rw [← h1]
    constructor
    · intro h
      split at h
      · cases h
      · rename_i f hf
        simp only [Except.error.injEq] at h
        rw [hf, h]
    · intro h
      rw [h]
  · intro hno
    obtain ⟨r, hr⟩ := h2 hno
    rw [hr]
    exact ⟨_, rfl⟩

/-- Instance of `readConfig_fatal_iff`: the section `ngram_size 3`, `version 2`,
`num_hidden 5` is well formed, holds the line `version 2`, and `readConfig` ends with
`exit(1)`. -/
theorem readConfig_fatal_iff_witness :
    (∀ line ∈ configSection ["ngram_size 3".toList, "version 2".toList, "num_hidden 5".toList,
        [], "version 7".toList], WellFormedConfigLine (exampleFileCollaborators Int) line)
      ∧ (∃ line ∈ configSection ["ngram_size 3".toList, "version 2".toList,
          "num_hidden 5".toList, [], "version 7".toList],
            BadVersionLine (exampleFileCollaborators Int) line)
      ∧ (exampleModel Int).readConfig (exampleFileCollaborators Int) ⟨0, 0, 0, 0⟩
          ["ngram_size 3".toList, "version 2".toList, "num_hidden 5".toList, [],
            "version 7".toList] = .error (.exit 1) := by
  have hsec : configSection ["ngram_size 3".toList, "version 2".toList, "num_hidden 5".toList,
      [], "version 7".toList]
      = ["ngram_size 3".toList, "version 2".toList, "num_hidden 5".toList] := by decide
  have hwf : ∀ line ∈ configSection ["ngram_size 3".toList, "version 2".toList,
      "num_hidden 5".toList, [], "version 7".toList],
      WellFormedConfigLine (exampleFileCollaborators Int) line := by
    rw [hsec]
    intro line hline
    simp only [List.mem_cons, List.mem_singleton, List.not_mem_nil, or_false] at hline
    rcases hline with rfl | rfl | rfl
    · exact wellFormed_of_integer_pair _ _ keyNgramSize "3".toList 3 (by decide) (by decide)
    · exact wellFormed_of_integer_pair _ _ keyVersion "2".toList 2 (by decide) (by decide)
    · exact wellFormed_of_integer_pair _ _ keyNumHidden "5".toList 5 (by decide) (by decide)
  have hbad : ∃ line ∈ configSection ["ngram_size 3".toList, "version 2".toList,
      "num_hidden 5".toList, [], "version 7".toList],
      BadVersionLine (exampleFileCollaborators Int) line := by
    rw [hsec]
    exact ⟨"version 2".toList, by simp, "2".toList, 2, by decide, by decide, by decide⟩
  exact ⟨hwf, hbad,
    (readConfig_fatal_iff (exampleFileCollaborators Int) ⟨0, 0, 0, 0⟩ (exampleModel Int) _
      hwf).1.mpr hbad⟩

end ConfigTheorems

section ReadLoopTheorems

variable {R : Type}

/-- Skipping a section only consumes lines. -/
theorem skip_section_length (file : Stream) : (skip_section file).length ≤ file.length := by
  induction file with
  | nil => simp [skip_section]
  | cons line rest ih =>
    unfold skip_section
    split
    · simp
    · simp only [List.length_cons]; omega

/-- The loop of `readConfig` only consumes lines. -/
theorem readConfigLoop_length (env : FileCollaborators R) (file : Stream) (cs : ConfigState R)
    (cs1 : ConfigState R) (rest : Stream)
    (h : readConfigLoop env cs file = .ok (cs1, rest)) : rest.length ≤ file.length := by
  induction file generalizing cs with
  | nil =>
    simp only [readConfigLoop, Except.ok.injEq, Prod.mk.injEq] at h
    rw [← h.2]
  | cons line more ih =>
    unfold readConfigLoop at h
    split at h
    · simp only [Except.ok.injEq, Prod.mk.injEq] at h
      rw [← h.2]; simp
    · split at h
      · have := ih _ h
        simp only [List.length_cons]; omega
      · cases h

/-- The function `readConfig` only consumes lines. -/
theorem readConfig_length (env : FileCollaborators R) (uninit : ConfigLocals) (m : model R)
    (file : Stream) (m1 : model R) (warnings : List Line) (rest : Stream)
    (h : m.readConfig env uninit file = .ok (m1, warnings, rest)) :
    rest.length ≤ file.length := by
  unfold model.readConfig at h
  split at h
  · rename_i cs rest1 hloop
    simp only [Except.ok.injEq, Prod.mk.injEq] at h
    rw [← h.2.2]
    exact readConfigLoop_length env file _ cs rest1 hloop
  · cases h

/-- A step made from a reader goes on with a suffix of the stream. -/
theorem stepOfReader_next_length {α : Type} (res : Outcome (α × Nat)) (rest : Stream)
    (update : α → ReadState R) (st1 : ReadState R) (rest1 : Stream)
    (h : stepOfReader res rest update = .next st1 rest1) : rest1.length ≤ rest.length := by
  unfold stepOfReader at h
  split at h
  · simp only [StepResult.next.injEq] at h
    rw [← h.2, List.length_drop]; omega
  · cases h

/-- The chain of comparisons goes on with a suffix of the stream. -/
theorem markerStep_next_length (env : FileCollaborators R) (uninit : ConfigLocals)
    (st st1 : ReadState R) (line : Line) (rest rest1 : Stream)
    (h : markerStep env uninit st line rest = .next st1 rest1) :
    rest1.length ≤ rest.length := by
  unfold markerStep at h
  by_cases h0 : line = sectionEnd
  · rw [if_pos h0] at h
    cases h
  rw [if_neg h0] at h
  by_cases h1 : line = sectionConfig
  · rw [if_pos h1] at h
    unfold configStep at h
    split at h
    · rename_i hcfg
      simp only [StepResult.next.injEq] at h
      rw [← h.2]
      exact readConfig_length env uninit _ rest _ _ _ hcfg
    · cases h
  rw [if_neg h1] at h
  by_cases h2 : line = sectionVocab
  · rw [if_pos h2] at h
    exact stepOfReader_next_length _ _ _ _ _ h
  rw [if_neg h2] at h
  by_cases h3 : line = sectionInputVocab
  · rw [if_pos h3] at h
    exact stepOfReader_next_length _ _ _ _ _ h
  rw [if_neg h3] at h
  by_cases h4 : line = sectionOutputVocab
  · rw [if_pos h4] at h
    unfold outputVocabStep at h
    split at h
    · exact stepOfReader_next_length _ _ _ _ _ h
    · simp only [StepResult.next.injEq] at h
      rw [← h.2]; exact skip_section_length rest
  rw [if_neg h4] at h
  by_cases h5 : line = sectionInputEmbeddings
  · rw [if_pos h5] at h
    exact stepOfReader_next_length _ _ _ _ _ h
  rw [if_neg h5] at h
  by_cases h6 : line = sectionHiddenWeights1
  · rw [if_pos h6] at h
    exact stepOfReader_next_length _ _ _ _ _ h
  rw [if_neg h6] at h
  by_cases h7 : line = sectionHiddenBiases1
  · rw [if_pos h7] at h
    exact stepOfReader_next_length _ _ _ _ _ h
  rw [if_neg h7] at h
  by_cases h8 : line = sectionHiddenWeights2
  · rw [if_pos h8] at h
    exact stepOfReader_next_length _ _ _ _ _ h
  rw [if_neg h8] at h
  by_cases h9 : line = sectionHiddenBiases2
  · rw [if_pos h9] at h
    exact stepOfReader_next_length _ _ _ _ _ h
  rw [if_neg h9] at h
  by_cases h10 : line = sectionOutputWeights
  · rw [if_pos h10] at h
    exact stepOfReader_next_length _ _ _ _ _ h
  rw [if_neg h10] at h
  by_cases h11 : line = sectionOutputBiases
  · rw [if_pos h11] at h
    exact stepOfReader_next_length _ _ _ _ _ h
  rw [if_neg h11] at h
  simp only [StepResult.next.injEq] at h
  rw [← h.2]

/-- A pass of the loop of `read` that goes on has consumed at least one line. -/
theorem sectionStep_next_length (env : FileCollaborators R) (uninit : ConfigLocals)
    (st st1 : ReadState R) (file rest1 : Stream)
    (h : sectionStep env uninit st file = .next st1 rest1) : rest1.length < file.length := by
  cases file with
  | nil => simp [sectionStep] at h
  | cons raw rest =>
    simp only [List.length_cons]
    suffices hle : rest1.length ≤ rest.length by omega
    simp only [sectionStep] at h
    split_ifs at h
    · simp only [StepResult.next.injEq] at h
      rw [← h.2]
    · exact markerStep_next_length env uninit _ _ _ _ _ h
    · unfold unrecognizedStep at h
      simp only [StepResult.next.injEq] at h
      rw [← h.2]; exact skip_section_length rest

/-- Fuel beyond the number of lines does not change the result of the loop, which is then
never out of fuel. -/
theorem readLoop_fuel (env : FileCollaborators R) (uninit : ConfigLocals) (fuel1 fuel2 : Nat)
    (st : ReadState R) (file : Stream) (h1 : file.length < fuel1) (h2 : file.length < fuel2) :
    readLoop env uninit fuel1 st file = readLoop env uninit fuel2 st file
      ∧ (readLoop env uninit fuel1 st file).isSome = true := by
  induction fuel1 generalizing fuel2 st file with
  | zero => omega
  | succ n ih =>
    cases fuel2 with
    | zero => omega
    | succ k =>
      unfold readLoop
      cases hstep : sectionStep env uninit st file with
      | done st1 => exact ⟨rfl, rfl⟩
      | fail f => exact ⟨rfl, rfl⟩
      | next st1 rest =>
        have hlt := sectionStep_next_length env uninit st st1 file rest hstep
        exact ih k st1 rest (by omega) (by omega)

/-- The loop equation of `model::read`: the result is decided by one pass of the loop body,
followed, when the loop goes on, by the reading of the rest of the stream. -/
theorem read_eq (env : FileCollaborators R) (uninit : ConfigLocals) (st : ReadState R)
    (file : Stream) :
    model.read env uninit st file
      = match sectionStep env uninit st file with
        | .done st1 => .ok st1
        | .next st1 rest => model.read env uninit st1 rest
        | .fail f => .error f := by
  unfold model.read
  conv_lhs => unfold readLoop
  cases hstep : sectionStep env uninit st file with
  | done st1 => rfl
  | fail f => rfl
  | next st1 rest =>
    have hlt := sectionStep_next_length env uninit st st1 file rest hstep
    simp only
    rw [(readLoop_fuel env uninit file.length (rest.length + 1) st1 rest (by omega)
      (by omega)).1]

/-- The function `model::read` returns a result for every stream: its loop never runs out
of fuel. -/
theorem read_total (env : FileCollaborators R) (uninit : ConfigLocals) (st : ReadState R)
    (file : Stream) :
    readLoop env uninit (file.length + 1) st file
      = some (model.read env uninit st file) := by
  have h := (readLoop_fuel env uninit (file.length + 1) (file.length + 1) st file
    (by omega) (by omega)).2
  unfold model.read
  cases hr : readLoop env uninit (file.length + 1) st file with
  | none => rw [hr] at h; cases h
  | some o => rfl

/-- A pass on a line that is empty after right-trimming goes on with the next line. -/
theorem read_blank (env : FileCollaborators R) (uninit : ConfigLocals) (st : ReadState R)
    (raw : Line) (rest : Stream) (hblank : rightTrim raw = []) :
    model.read env uninit st (raw :: rest) = model.read env uninit st rest := by
  rw [read_eq]
  simp only [sectionStep, hblank, if_true]

/-- A pass on a line that starts with a backslash after right-trimming logs the line and
goes through the chain of comparisons. -/
theorem sectionStep_marker (env : FileCollaborators R) (uninit : ConfigLocals)
    (st : ReadState R) (raw line : Line) (rest : Stream) (htrim : rightTrim raw = line)
    (hhead : line.head? = some '\\') :
    sectionStep env uninit st (raw :: rest)
      = markerStep env uninit (st.logLine ("reading section ".toList ++ line)) line rest := by
  have hne : line ≠ [] := by
    intro h; rw [h] at hhead; cases hhead
  simp only [sectionStep, htrim, hne, hhead, if_true, if_false]

/-- What the code does with a marker line that is none of the section names: the line goes
to the log, no warning is written, nothing is skipped, and the loop goes on with the very
next line. -/
theorem sectionStep_unknown_marker (env : FileCollaborators R) (uninit : ConfigLocals)
    (st : ReadState R) (raw line : Line) (rest : Stream) (htrim : rightTrim raw = line)
    (hhead : line.head? = some '\\')
    (hunknown : line ∉ [sectionEnd, sectionConfig, sectionVocab, sectionInputVocab,
      sectionOutputVocab, sectionInputEmbeddings, sectionHiddenWeights1, sectionHiddenBiases1,
      sectionHiddenWeights2, sectionHiddenBiases2, sectionOutputWeights,
      sectionOutputBiases]) :
    sectionStep env uninit st (raw :: rest)
      = .next (st.logLine ("reading section ".toList ++ line)) rest := by
  rw [sectionStep_marker env uninit st raw line rest htrim hhead]
  simp only [List.mem_cons, List.mem_singleton, List.not_mem_nil, or_false, not_or] at hunknown
  obtain ⟨h0, h1, h2, h3, h4, h5, h6, h7, h8, h9, h10, h11⟩ := hunknown
  unfold markerStep
  rw [if_neg h0, if_neg h1, if_neg h2, if_neg h3, if_neg h4, if_neg h5, if_neg h6, if_neg h7,
    if_neg h8, if_neg h9, if_neg h10, if_neg h11]

/-- A pass on the line `\end` ends the loop. -/
theorem read_end (env : FileCollaborators R) (uninit : ConfigLocals) (st : ReadState R)
    (raw : Line) (rest : Stream) (hend : rightTrim raw = sectionEnd) :
    model.read env uninit st (raw :: rest)
      = .ok (st.logLine ("reading section ".toList ++ sectionEnd)) := by
  rw [read_eq, sectionStep_marker env uninit st raw sectionEnd rest hend (by decide)]
  unfold markerStep
  rw [if_pos rfl]

/-- Claim C8 at a failing input.  On the stream that begins with the lines `\foo` and
`\end`, `model::read` writes no warning for the unrecognised marker `\foo` (`cerr` is as
before) and skips nothing: the very next line `\end` is interpreted and ends the reading,
whatever follows. -/
theorem read_unknown_marker_not_skipped (env : FileCollaborators R) (uninit : ConfigLocals)
    (st : ReadState R) (rest : Stream) :
    model.read env uninit st ("\\foo".toList :: "\\end".toList :: rest)
      = .ok ((st.logLine "reading section \\foo".toList).logLine
          "reading section \\end".toList)
      ∧ ((st.logLine "reading section \\foo".toList).logLine
          "reading section \\end".toList).cerr = st.cerr := by
  refine ⟨?_, rfl⟩
  rw [read_eq, sectionStep_unknown_marker env uninit st _ "\\foo".toList _ (by decide)
    (by decide) (by decide)]
  simp only
  rw [read_end env uninit _ _ _ (by decide)]
  rfl

/-- Claim C7 at a failing input.  The file made of the sections `\input_vocab` (word `a`)
and `\output_vocab` (word `b`) is read with both word lists filled.  With the extra section
`\foo`, `\end`, empty line inserted between the two, the content line `\end` is not
discarded with the extra section: it ends the reading and the output word list stays
empty. -/
theorem read_extra_section_changes_result :
    (model.read (exampleFileCollaborators Int) ⟨0, 0, 0, 0⟩ (freshReadState (exampleModel Int))
        ["\\input_vocab".toList, "a".toList, [],
         "\\output_vocab".toList, "b".toList, [], "\\end".toList]).toOption.map
          (fun st => (st.input_words, st.output_words))
      = some (["a".toList], some ["b".toList])
    ∧ (model.read (exampleFileCollaborators Int) ⟨0, 0, 0, 0⟩
        (freshReadState (exampleModel Int))
        ["\\input_vocab".toList, "a".toList, [],
         "\\foo".toList, "\\end".toList, [],
         "\\output_vocab".toList, "b".toList, [], "\\end".toList]).toOption.map
          (fun st => (st.input_words, st.output_words))
      = some (["a".toList], some []) := by
  constructor <;> decide

end ReadLoopTheorems

section EndTheorems

variable {R : Type}

/-- When the loop of `readConfig` leaves lines unread, it has consumed a prefix of the
stream and does the same whatever follows that prefix. -/
theorem readConfigLoop_local (env : FileCollaborators R) (file : Stream) (cs cs1 : ConfigState R)
    (rest : Stream) (h : readConfigLoop env cs file = .ok (cs1, rest)) (hne : rest ≠ []) :
    ∃ C, file = C ++ rest ∧ ∀ Y, readConfigLoop env cs (C ++ Y) = .ok (cs1, Y) := by
  induction file generalizing cs with
  | nil =>
    simp only [readConfigLoop, Except.ok.injEq, Prod.mk.injEq] at h
    exact absurd h.2.symm hne
  | cons line more ih =>
    unfold readConfigLoop at h
    by_cases hblank : line = []
    · rw [if_pos hblank] at h
      simp only [Except.ok.injEq, Prod.mk.injEq] at h
      obtain ⟨hcs, hrest⟩ := h
      subst hcs hrest hblank
      exact ⟨[[]], rfl, fun Y => by simp [readConfigLoop]⟩
    · rw [if_neg hblank] at h
      cases hline : readConfigLine env cs line with
      | error f => rw [hline] at h; cases h
      | ok cs2 =>
        rw [hline] at h
        obtain ⟨C, hC, hY⟩ := ih cs2 h
        refine ⟨line :: C, by rw [hC]; rfl, fun Y => ?_⟩
        simp only [List.cons_append, readConfigLoop, hblank, if_false, hline]
        exact hY Y

/-- The same for `readConfig`. -/
theorem readConfig_local (env : FileCollaborators R) (uninit : ConfigLocals) (m : model R)
    (file : Stream) (m1 : model R) (warnings : List Line) (rest : Stream)
    (h : m.readConfig env uninit file = .ok (m1, warnings, rest)) (hne : rest ≠ []) :
    ∃ C, file = C ++ rest ∧ ∀ Y, m.readConfig env uninit (C ++ Y) = .ok (m1, warnings, Y) := by
  unfold model.readConfig at h
  split at h
  · rename_i cs rest1 hloop
    simp only [Except.ok.injEq, Prod.mk.injEq] at h
    obtain ⟨hm, hw, hrest⟩ := h
    subst hrest
    obtain ⟨C, hC, hY⟩ := readConfigLoop_local env file _ cs rest1 hloop hne
    refine ⟨C, hC, fun Y => ?_⟩
    unfold model.readConfig
    rw [hY Y]
    simp only [hm, hw]
  · cases h

/-- When skipping a section leaves lines unread, it has consumed a prefix of the stream and
does the same whatever follows that prefix. -/
theorem skip_section_local (file : Stream) (hne : skip_section file ≠ []) :
    ∃ C, file = C ++ skip_section file ∧ ∀ Y, skip_section (C ++ Y) = Y := by
  induction file with
  | nil => simp [skip_section] at hne
  | cons line more ih =>
    by_cases hblank : rightTrim line = []
    · have hs : skip_section (line :: more) = more := by simp [skip_section, hblank]
      rw [hs]
      exact ⟨[line], rfl, fun Y => by simp [skip_section, hblank]⟩
    · have hs : skip_section (line :: more) = skip_section more := by
        simp [skip_section, hblank]
      rw [hs] at hne ⊢
      obtain ⟨C, hC, hY⟩ := ih hne
      refine ⟨line :: C, by rw [List.cons_append, ← hC], fun Y => ?_⟩
      simp only [List.cons_append, skip_section, hblank, if_false]
      exact hY Y

/-- A step made from a local reader that leaves lines unread has consumed a prefix of the
stream and does the same whatever non-empty stream follows that prefix. -/
theorem stepOfReader_local {α : Type} (rd : Stream → α → Outcome (α × Nat))
    (hrd : ReaderLocal rd) (cur : α) (rest : Stream) (update : α → ReadState R)
    (st1 : ReadState R) (rest1 : Stream)
    (h : stepOfReader (rd rest cur) rest update = .next st1 rest1) (hne : rest1 ≠ []) :
    ∃ C, rest = C ++ rest1
      ∧ ∀ Y, Y ≠ [] → stepOfReader (rd (C ++ Y) cur) (C ++ Y) update = .next st1 Y := by
  unfold stepOfReader at h
  cases hres : rd rest cur with
  | error f => rw [hres] at h; cases h
  | ok ak =>
    obtain ⟨a, k⟩ := ak
    rw [hres] at h
    simp only [StepResult.next.injEq] at h
    obtain ⟨hst, hrest⟩ := h
    subst hrest
    have hk : k < rest.length := by
      by_contra hge
      exact hne (List.drop_eq_nil_of_le (by omega))
    refine ⟨rest.take k, (List.take_append_drop k rest).symm, fun Y hY => ?_⟩
    rw [hrd rest cur a k hres hk Y hY]
    simp only [stepOfReader, hst, StepResult.next.injEq, true_and]
    rw [List.drop_append_of_le_length (by rw [List.length_take]; omega)]
    rw [List.drop_eq_nil_of_le (by rw [List.length_take]; omega)]
    rfl

/-- The chain of comparisons is local: when it goes on with lines unread, it has consumed a
prefix of the stream and does the same whatever non-empty stream follows that prefix. -/
theorem markerStep_local (env : FileCollaborators R) (uninit : ConfigLocals)
    (hl : ReadersLocal env) (st st1 : ReadState R) (line : Line) (rest rest1 : Stream)
    (h : markerStep env uninit st line rest = .next st1 rest1) (hne : rest1 ≠ []) :
    ∃ C, rest = C ++ rest1
      ∧ ∀ Y, Y ≠ [] → markerStep env uninit st line (C ++ Y) = .next st1 Y := by
  unfold markerStep at h
  by_cases h0 : line = sectionEnd
  · rw [if_pos h0] at h
    cases h
  rw [if_neg h0] at h
  by_cases h1 : line = sectionConfig
  · rw [if_pos h1] at h
    unfold configStep at h
    split at h
    · rename_i m1 warnings rest1 hcfg
      simp only [StepResult.next.injEq] at h
      obtain ⟨hst, hrest⟩ := h
      subst hrest
      obtain ⟨C, hC, hY⟩ := readConfig_local env uninit _ rest _ _ _ hcfg hne
      refine ⟨C, hC, fun Y _ => ?_⟩
      unfold markerStep
      rw [if_neg h0, if_pos h1]
      simp only [configStep, hY Y, hst]
    · cases h
  rw [if_neg h1] at h
  by_cases h2 : line = sectionVocab
  · rw [if_pos h2] at h
    unfold vocabStep at h
    obtain ⟨C, hC, hY⟩ := stepOfReader_local _ hl.1 _ _ _ _ _ h hne
    refine ⟨C, hC, fun Y hYne => ?_⟩
    unfold markerStep
    rw [if_neg h0, if_neg h1, if_pos h2]
    unfold vocabStep
    exact hY Y hYne
  rw [if_neg h2] at h
  by_cases h3 : line = sectionInputVocab
  · rw [if_pos h3] at h
    unfold inputVocabStep at h
    obtain ⟨C, hC, hY⟩ := stepOfReader_local _ hl.1 _ _ _ _ _ h hne
    refine ⟨C, hC, fun Y hYne => ?_⟩
    unfold markerStep
    rw [if_neg h0, if_neg h1, if_neg h2, if_pos h3]
    unfold inputVocabStep
    exact hY Y hYne
  rw [if_neg h3] at h
  by_cases h4 : line = sectionOutputVocab
  · rw [if_pos h4] at h
    unfold outputVocabStep at h
    split at h
    · rename_i words hw
      obtain ⟨C, hC, hY⟩ := stepOfReader_local _ hl.1 _ _ _ _ _ h hne
      refine ⟨C, hC, fun Y hYne => ?_⟩
      unfold markerStep
      rw [if_neg h0, if_neg h1, if_neg h2, if_neg h3, if_pos h4]
      simp only [outputVocabStep, hw]
      exact hY Y hYne
    · rename_i hw
      simp only [StepResult.next.injEq] at h
      obtain ⟨hst, hrest⟩ := h
      subst hrest
      obtain ⟨C, hC, hY⟩ := skip_section_local rest hne
      refine ⟨C, hC, fun Y _ => ?_⟩
      unfold markerStep
      rw [if_neg h0, if_neg h1, if_neg h2, if_neg h3, if_pos h4]
      simp only [outputVocabStep, hw, hY Y, hst]
  rw [if_neg h4] at h
  by_cases h5 : line = sectionInputEmbeddings
  · rw [if_pos h5] at h
    obtain ⟨C, hC, hY⟩ := stepOfReader_local _ hl.2.1 _ _ _ _ _ h hne
    refine ⟨C, hC, fun Y hYne => ?_⟩
    unfold markerStep
    rw [if_neg h0, if_neg h1, if_neg h2, if_neg h3, if_neg h4, if_pos h5]
    exact hY Y hYne
  rw [if_neg h5] at h
  by_cases h6 : line = sectionHiddenWeights1
  · rw [if_pos h6] at h
    obtain ⟨C, hC, hY⟩ := stepOfReader_local _ hl.2.2.1 _ _ _ _ _ h hne
    refine ⟨C, hC, fun Y hYne => ?_⟩
    unfold markerStep
    rw [if_neg h0, if_neg h1, if_neg h2, if_neg h3, if_neg h4, if_neg h5, if_pos h6]
    exact hY Y hYne
  rw [if_neg h6] at h
  by_cases h7 : line = sectionHiddenBiases1
  · rw [if_pos h7] at h
    obtain ⟨C, hC, hY⟩ := stepOfReader_local _ hl.2.2.2.1 _ _ _ _ _ h hne
    refine ⟨C, hC, fun Y hYne => ?_⟩
    unfold markerStep
    rw [if_neg h0, if_neg h1, if_neg h2, if_neg h3, if_neg h4, if_neg h5, if_neg h6, if_pos h7]
    exact hY Y hYne
  rw [if_neg h7] at h
  by_cases h8 : line = sectionHiddenWeights2
  · rw [if_pos h8] at h
    obtain ⟨C, hC, hY⟩ := stepOfReader_local _ hl.2.2.1 _ _ _ _ _ h hne
    refine ⟨C, hC, fun Y hYne => ?_⟩
    unfold markerStep
    rw [if_neg h0, if_neg h1, if_neg h2, if_neg h3, if_neg h4, if_neg h5, if_neg h6, if_neg h7, if_pos h8]
    exact hY Y hYne
  rw [if_neg h8] at h
  by_cases h9 : line = sectionHiddenBiases2
  · rw [if_pos h9] at h
    obtain ⟨C, hC, hY⟩ := stepOfReader_local _ hl.2.2.2.1 _ _ _ _ _ h hne
    refine ⟨C, hC, fun Y hYne => ?_⟩
    unfold markerStep
    rw [if_neg h0, if_neg h1, if_neg h2, if_neg h3, if_neg h4, if_neg h5, if_neg h6, if_neg h7, if_neg h8, if_pos h9]
    exact hY Y hYne
  rw [if_neg h9] at h
  by_cases h10 : line = sectionOutputWeights
  · rw [if_pos h10] at h
    obtain ⟨C, hC, hY⟩ := stepOfReader_local _ hl.2.2.2.2.1 _ _ _ _ _ h hne
    refine ⟨C, hC, fun Y hYne => ?_⟩
    unfold markerStep
    rw [if_neg h0, if_neg h1, if_neg h2, if_neg h3, if_neg h4, if_neg h5, if_neg h6, if_neg h7, if_neg h8, if_neg h9, if_pos h10]
    exact hY Y hYne
  rw [if_neg h10] at h
  by_cases h11 : line = sectionOutputBiases
  · rw [if_pos h11] at h
    obtain ⟨C, hC, hY⟩ := stepOfReader_local _ hl.2.2.2.2.2 _ _ _ _ _ h hne
    refine ⟨C, hC, fun Y hYne => ?_⟩
    unfold markerStep
    rw [if_neg h0, if_neg h1, if_neg h2, if_neg h3, if_neg h4, if_neg h5, if_neg h6, if_neg h7, if_neg h8, if_neg h9, if_neg h10, if_pos h11]
    exact hY Y hYne
  rw [if_neg h11] at h
  simp only [StepResult.next.injEq] at h
  obtain ⟨hst, hrest⟩ := h
  subst hrest
  refine ⟨[], rfl, fun Y _ => ?_⟩
  unfold markerStep
  rw [if_neg h0, if_neg h1, if_neg h2, if_neg h3, if_neg h4, if_neg h5, if_neg h6, if_neg h7,
    if_neg h8, if_neg h9, if_neg h10, if_neg h11, hst]
  rfl

/-- A pass of the loop of `read` is local: when it goes on with lines unread, it has
consumed a non-empty prefix of the stream and does the same whatever non-empty stream
follows that prefix. -/
theorem sectionStep_local (env : FileCollaborators R) (uninit : ConfigLocals)
    (hl : ReadersLocal env) (st st1 : ReadState R) (file rest1 : Stream)
    (h : sectionStep env uninit st file = .next st1 rest1) (hne : rest1 ≠ []) :
    ∃ C, file = C ++ rest1
      ∧ ∀ Y, Y ≠ [] → sectionStep env uninit st (C ++ Y) = .next st1 Y := by
  cases file with
  | nil => simp [sectionStep] at h
  | cons raw rest =>
    simp only [sectionStep] at h
    by_cases hblank : rightTrim raw = []
    · rw [if_pos hblank] at h
      simp only [StepResult.next.injEq] at h
      obtain ⟨hst, hrest⟩ := h
      subst hrest
      refine ⟨[raw], rfl, fun Y _ => ?_⟩
      simp only [List.singleton_append, sectionStep, hblank, if_true, hst]
    · rw [if_neg hblank] at h
      by_cases hhead : (rightTrim raw).head? = some '\\'
      · rw [if_pos hhead] at h
        obtain ⟨C, hC, hY⟩ := markerStep_local env uninit hl _ _ _ _ _ h hne
        refine ⟨raw :: C, by rw [hC]; rfl, fun Y hYne => ?_⟩
        simp only [List.cons_append, sectionStep, hblank, if_false, hhead, if_true]
        exact hY Y hYne
      · rw [if_neg hhead] at h
        unfold unrecognizedStep at h
        simp only [StepResult.next.injEq] at h
        obtain ⟨hst, hrest⟩ := h
        subst hrest
        obtain ⟨C, hC, hY⟩ := skip_section_local rest hne
        refine ⟨raw :: C, by rw [List.cons_append, ← hC], fun Y _ => ?_⟩
        simp only [List.cons_append, sectionStep, hblank, if_false, hhead, unrecognizedStep,
          hY Y, hst]

/-- When the loop of `read` is at section level before a line that right-trims to `\end`,
the lines read so far are a prefix of the stream, and whatever follows the `\end` line the
result is the state reached there (with the line logged). -/
theorem read_reaches_end (env : FileCollaborators R) (uninit : ConfigLocals)
    (hl : ReadersLocal env) (st st2 : ReadState R) (file file2 : Stream) (raw : Line)
    (later : Stream) (hreach : ReachesSectionLevel env uninit st file st2 file2)
    (hfile2 : file2 = raw :: later) (hend : rightTrim raw = sectionEnd) :
    ∃ C, file = C ++ raw :: later
      ∧ ∀ Y, model.read env uninit st (C ++ raw :: Y)
          = .ok (st2.logLine ("reading section ".toList ++ sectionEnd)) := by
  induction hreach with
  | here st0 file0 =>
    subst hfile2
    exact ⟨[], rfl, fun Y => read_end env uninit st0 raw Y hend⟩
  | pass st0 st1 st3 file0 rest0 file3 hstep _ ih =>
    obtain ⟨C2, hC2, hY2⟩ := ih hfile2
    have hne : rest0 ≠ [] := by rw [hC2]; simp
    obtain ⟨C1, hC1, hY1⟩ := sectionStep_local env uninit hl st0 st1 file0 rest0 hstep hne
    refine ⟨C1 ++ C2, by rw [hC1, hC2, List.append_assoc], fun Y => ?_⟩
    rw [List.append_assoc, read_eq, hY1 (C2 ++ raw :: Y) (by simp)]
    exact hY2 Y

/-- When the loop of `read` is at section level before a line that right-trims to `\end`,
the result of the reading is the state reached there, with the line logged. -/
theorem read_result_at_end (env : FileCollaborators R) (uninit : ConfigLocals)
    (st st2 : ReadState R) (file file2 : Stream) (raw : Line) (later : Stream)
    (hreach : ReachesSectionLevel env uninit st file st2 file2)
    (hfile2 : file2 = raw :: later) (hend : rightTrim raw = sectionEnd) :
    model.read env uninit st file
      = .ok (st2.logLine ("reading section ".toList ++ sectionEnd)) := by
  induction hreach with
  | here st0 file0 =>
    subst hfile2
    exact read_end env uninit st0 raw later hend
  | pass st0 st1 st3 file0 rest0 file3 hstep _ ih =>
    rw [read_eq, hstep]
    exact ih hfile2

/-- Claim C9.  When `model::read` meets, at section level, a line that right-trims to
`\end`, it stops at once: the result is the state reached at that point, whatever follows
the line; and, the readers of sub-objects being local, it is also the result of reading the
stream truncated just after that line, so no later line is consumed or interpreted. -/
theorem read_stops_at_end (env : FileCollaborators R) (uninit : ConfigLocals)
    (st st2 : ReadState R) (file : Stream) (raw : Line) (later : Stream)
    (hreach : ReachesSectionLevel env uninit st file st2 (raw :: later))
    (hend : rightTrim raw = sectionEnd) :
    model.read env uninit st file
        = .ok (st2.logLine ("reading section ".toList ++ sectionEnd))
      ∧ (ReadersLocal env →
          model.read env uninit st (file.take (file.length - later.length))
            = model.read env uninit st file) := by
  have h1 := read_result_at_end env uninit st st2 file _ raw later hreach rfl hend
  refine ⟨h1, fun hl => ?_⟩
  obtain ⟨C, hC, hY⟩ := read_reaches_end env uninit hl st st2 file _ raw later hreach rfl hend
  rw [h1]
  have htake : file.take (file.length - later.length) = C ++ [raw] := by
    rw [hC]
    have hlen : (C ++ raw :: later).length - later.length = (C ++ [raw]).length := by
      simp only [List.length_append, List.length_cons, List.length_nil]; omega
    rw [hlen, show C ++ raw :: later = (C ++ [raw]) ++ later by simp, List.take_left]
  rw [htake]
  exact hY []

/-- Reading lines up to an empty line is local. -/
theorem readLinesUntilBlank_local (file later : Stream)
    (hk : (readLinesUntilBlank file).2 < file.length) :
    readLinesUntilBlank (file.take (readLinesUntilBlank file).2 ++ later)
      = readLinesUntilBlank file := by
  induction file with
  | nil => simp at hk
  | cons line more ih =>
    by_cases hblank : line = []
    · subst hblank
      simp [readLinesUntilBlank]
    · have h2 : (readLinesUntilBlank (line :: more)).2 = (readLinesUntilBlank more).2 + 1 := by
        simp [readLinesUntilBlank, hblank]
      have h1 : (readLinesUntilBlank (line :: more)).1 = line :: (readLinesUntilBlank more).1 := by
        simp [readLinesUntilBlank, hblank]
      rw [h2] at hk ⊢
      simp only [List.length_cons] at hk
      have ih2 := ih (by omega)
      simp only [List.take_succ_cons, List.cons_append]
      apply Prod.ext
      · simp only [readLinesUntilBlank, hblank, if_false, ih2]
      · simp only [readLinesUntilBlank, hblank, if_false, ih2]

/-- The readers of `exampleFileCollaborators` are local. -/
theorem exampleFileCollaborators_local (R : Type) : ReadersLocal (exampleFileCollaborators R) := by
  have hobj : ∀ α : Type, ReaderLocal (fun (file : Stream) (l : α) =>
      (Except.ok (l, (readLinesUntilBlank file).2) : Outcome (α × Nat))) := by
    intro α file cur a k h hk later _
    simp only [Except.ok.injEq, Prod.mk.injEq] at h
    obtain ⟨ha, hk2⟩ := h
    subst ha hk2
    simp only [readLinesUntilBlank_local file later hk]
  refine ⟨?_, hobj _, hobj _, hobj _, hobj _, hobj _⟩
  intro file cur a k h hk later _
  simp only [exampleFileCollaborators, Except.ok.injEq, Prod.mk.injEq] at h ⊢
  obtain ⟨ha, hk2⟩ := h
  subst ha hk2
  simp only [readLinesUntilBlank_local file later hk, and_self]

/-- Instance of `read_stops_at_end`: in the file `\input_vocab`, `a`, empty line, `\end`
followed by two blanks, `\output_vocab`, `b`, empty line, the loop is at section level before
the `\end` line after the first section; the reading returns the input word `a` and leaves
the output word list empty, as it does on the file truncated after the `\end` line. -/
theorem read_stops_at_end_witness :
    ReachesSectionLevel (exampleFileCollaborators Int) ⟨0, 0, 0, 0⟩
        (freshReadState (exampleModel Int))
        ["\\input_vocab".toList, "a".toList, [], "\\end  ".toList,
          "\\output_vocab".toList, "b".toList, []]
        { freshReadState (exampleModel Int) with input_words := ["a".toList] }
        ("\\end  ".toList :: ["\\output_vocab".toList, "b".toList, []])
      ∧ rightTrim "\\end  ".toList = sectionEnd
      ∧ ReadersLocal (exampleFileCollaborators Int)
      ∧ (model.read (exampleFileCollaborators Int) ⟨0, 0, 0, 0⟩
            (freshReadState (exampleModel Int))
            ["\\input_vocab".toList, "a".toList, [], "\\end  ".toList,
              "\\output_vocab".toList, "b".toList, []]
          = .ok (({ freshReadState (exampleModel Int) with
                    input_words := ["a".toList] } : ReadState Int).logLine
                  ("reading section ".toList ++ sectionEnd))
        ∧ model.read (exampleFileCollaborators Int) ⟨0, 0, 0, 0⟩
            (freshReadState (exampleModel Int))
            (["\\input_vocab".toList, "a".toList, [], "\\end  ".toList,
              "\\output_vocab".toList, "b".toList, []].take
                (["\\input_vocab".toList, "a".toList, [], "\\end  ".toList,
                  "\\output_vocab".toList, "b".toList, []].length
                  - ["\\output_vocab".toList, "b".toList, []].length))
          = model.read (exampleFileCollaborators Int) ⟨0, 0, 0, 0⟩
              (freshReadState (exampleModel Int))
              ["\\input_vocab".toList, "a".toList, [], "\\end  ".toList,
                "\\output_vocab".toList, "b".toList, []]) := by
  have hreach : ReachesSectionLevel (exampleFileCollaborators Int) ⟨0, 0, 0, 0⟩
      (freshReadState (exampleModel Int))
      ["\\input_vocab".toList, "a".toList, [], "\\end  ".toList,
        "\\output_vocab".toList, "b".toList, []]
      { freshReadState (exampleModel Int) with input_words := ["a".toList] }
      ("\\end  ".toList :: ["\\output_vocab".toList, "b".toList, []]) :=
    ReachesSectionLevel.pass _ _ _ _ _ _ (by rfl) (ReachesSectionLevel.here _ _)
  have h := read_stops_at_end (exampleFileCollaborators Int) ⟨0, 0, 0, 0⟩ _ _ _ _ _
    hreach (by decide)
  exact ⟨hreach, by decide, exampleFileCollaborators_local Int, h.1,
    h.2 (exampleFileCollaborators_local Int)⟩

end EndTheorems

section RoundTripTheorems

variable {R : Type}

/-- The chain of comparisons on the section name `sectionConfig`. -/
theorem markerStep_sectionConfig (env : FileCollaborators R) (uninit : ConfigLocals)
    (st : ReadState R) (rest : Stream) :
    markerStep env uninit st sectionConfig rest
      = configStep env uninit st rest := by
  unfold markerStep
  rw [if_neg (show ¬ sectionConfig = sectionEnd by decide), if_pos rfl]

/-- The chain of comparisons on the section name `sectionInputVocab`. -/
theorem markerStep_sectionInputVocab (env : FileCollaborators R) (uninit : ConfigLocals)
    (st : ReadState R) (rest : Stream) :
    markerStep env uninit st sectionInputVocab rest
      = inputVocabStep env st rest := by
  unfold markerStep
  rw [if_neg (show ¬ sectionInputVocab = sectionEnd by decide), if_neg (show ¬ sectionInputVocab = sectionConfig by decide), if_neg (show ¬ sectionInputVocab = sectionVocab by decide), if_pos rfl]

/-- The chain of comparisons on the section name `sectionOutputVocab`. -/
theorem markerStep_sectionOutputVocab (env : FileCollaborators R) (uninit : ConfigLocals)
    (st : ReadState R) (rest : Stream) :
    markerStep env uninit st sectionOutputVocab rest
      = outputVocabStep env st rest := by
  unfold markerStep
  rw [if_neg (show ¬ sectionOutputVocab = sectionEnd by decide), if_neg (show ¬ sectionOutputVocab = sectionConfig by decide), if_neg (show ¬ sectionOutputVocab = sectionVocab by decide), if_neg (show ¬ sectionOutputVocab = sectionInputVocab by decide), if_pos rfl]

/-- The chain of comparisons on the section name `sectionInputEmbeddings`. -/
theorem markerStep_sectionInputEmbeddings (env : FileCollaborators R) (uninit : ConfigLocals)
    (st : ReadState R) (rest : Stream) :
    markerStep env uninit st sectionInputEmbeddings rest
      = stepOfReader (env.input_layer_read rest st.m.input_layer) rest
          (fun l => { st with m := { st.m with input_layer := l } }) := by
  unfold markerStep
  rw [if_neg (show ¬ sectionInputEmbeddings = sectionEnd by decide), if_neg (show ¬ sectionInputEmbeddings = sectionConfig by decide), if_neg (show ¬ sectionInputEmbeddings = sectionVocab by decide), if_neg (show ¬ sectionInputEmbeddings = sectionInputVocab by decide), if_neg (show ¬ sectionInputEmbeddings = sectionOutputVocab by decide), if_pos rfl]

/-- The chain of comparisons on the section name `sectionHiddenWeights1`. -/
theorem markerStep_sectionHiddenWeights1 (env : FileCollaborators R) (uninit : ConfigLocals)
    (st : ReadState R) (rest : Stream) :
    markerStep env uninit st sectionHiddenWeights1 rest
      = stepOfReader (env.linear_read_weights rest st.m.first_hidden_linear) rest
          (fun l => { st with m := { st.m with first_hidden_linear := l } }) := by
  unfold markerStep
  rw [if_neg (show ¬ sectionHiddenWeights1 = sectionEnd by decide), if_neg (show ¬ sectionHiddenWeights1 = sectionConfig by decide), if_neg (show ¬ sectionHiddenWeights1 = sectionVocab by decide), if_neg (show ¬ sectionHiddenWeights1 = sectionInputVocab by decide), if_neg (show ¬ sectionHiddenWeights1 = sectionOutputVocab by decide), if_neg (show ¬ sectionHiddenWeights1 = sectionInputEmbeddings by decide), if_pos rfl]

/-- The chain of comparisons on the section name `sectionHiddenBiases1`. -/
theorem markerStep_sectionHiddenBiases1 (env : FileCollaborators R) (uninit : ConfigLocals)
    (st : ReadState R) (rest : Stream) :
    markerStep env uninit st sectionHiddenBiases1 rest
      = stepOfReader (env.linear_read_biases rest st.m.first_hidden_linear) rest
          (fun l => { st with m := { st.m with first_hidden_linear := l } }) := by
  unfold markerStep
  rw [if_neg (show ¬ sectionHiddenBiases1 = sectionEnd by decide), if_neg (show ¬ sectionHiddenBiases1 = sectionConfig by decide), if_neg (show ¬ sectionHiddenBiases1 = sectionVocab by decide), if_neg (show ¬ sectionHiddenBiases1 = sectionInputVocab by decide), if_neg (show ¬ sectionHiddenBiases1 = sectionOutputVocab by decide), if_neg (show ¬ sectionHiddenBiases1 = sectionInputEmbeddings by decide), if_neg (show ¬ sectionHiddenBiases1 = sectionHiddenWeights1 by decide), if_pos rfl]

/-- The chain of comparisons on the section name `sectionHiddenWeights2`. -/
theorem markerStep_sectionHiddenWeights2 (env : FileCollaborators R) (uninit : ConfigLocals)
    (st : ReadState R) (rest : Stream) :
    markerStep env uninit st sectionHiddenWeights2 rest
      = stepOfReader (env.linear_read_weights rest st.m.second_hidden_linear) rest
          (fun l => { st with m := { st.m with second_hidden_linear := l } }) := by
  unfold markerStep
  rw [if_neg (show ¬ sectionHiddenWeights2 = sectionEnd by decide), if_neg (show ¬ sectionHiddenWeights2 = sectionConfig by decide), if_neg (show ¬ sectionHiddenWeights2 = sectionVocab by decide), if_neg (show ¬ sectionHiddenWeights2 = sectionInputVocab by decide), if_neg (show ¬ sectionHiddenWeights2 = sectionOutputVocab by decide), if_neg (show ¬ sectionHiddenWeights2 = sectionInputEmbeddings by decide), if_neg (show ¬ sectionHiddenWeights2 = sectionHiddenWeights1 by decide), if_neg (show ¬ sectionHiddenWeights2 = sectionHiddenBiases1 by decide), if_pos rfl]

/-- The chain of comparisons on the section name `sectionHiddenBiases2`. -/
theorem markerStep_sectionHiddenBiases2 (env : FileCollaborators R) (uninit : ConfigLocals)
    (st : ReadState R) (rest : Stream) :
    markerStep env uninit st sectionHiddenBiases2 rest
      = stepOfReader (env.linear_read_biases rest st.m.second_hidden_linear) rest
          (fun l => { st with m := { st.m with second_hidden_linear := l } }) := by
  unfold markerStep
  rw [if_neg (show ¬ sectionHiddenBiases2 = sectionEnd by decide), if_neg (show ¬ sectionHiddenBiases2 = sectionConfig by decide), if_neg (show ¬ sectionHiddenBiases2 = sectionVocab by decide), if_neg (show ¬ sectionHiddenBiases2 = sectionInputVocab by decide), if_neg (show ¬ sectionHiddenBiases2 = sectionOutputVocab by decide), if_neg (show ¬ sectionHiddenBiases2 = sectionInputEmbeddings by decide), if_neg (show ¬ sectionHiddenBiases2 = sectionHiddenWeights1 by decide), if_neg (show ¬ sectionHiddenBiases2 = sectionHiddenBiases1 by decide), if_neg (show ¬ sectionHiddenBiases2 = sectionHiddenWeights2 by decide), if_pos rfl]

/-- The chain of comparisons on the section name `sectionOutputWeights`. -/
theorem markerStep_sectionOutputWeights (env : FileCollaborators R) (uninit : ConfigLocals)
    (st : ReadState R) (rest : Stream) :
    markerStep env uninit st sectionOutputWeights rest
      = stepOfReader (env.output_read_weights rest st.m.output_layer) rest
          (fun l => { st with m := { st.m with output_layer := l } }) := by
  unfold markerStep
  rw [if_neg (show ¬ sectionOutputWeights = sectionEnd by decide), if_neg (show ¬ sectionOutputWeights = sectionConfig by decide), if_neg (show ¬ sectionOutputWeights = sectionVocab by decide), if_neg (show ¬ sectionOutputWeights = sectionInputVocab by decide), if_neg (show ¬ sectionOutputWeights = sectionOutputVocab by decide), if_neg (show ¬ sectionOutputWeights = sectionInputEmbeddings by decide), if_neg (show ¬ sectionOutputWeights = sectionHiddenWeights1 by decide), if_neg (show ¬ sectionOutputWeights = sectionHiddenBiases1 by decide), if_neg (show ¬ sectionOutputWeights = sectionHiddenWeights2 by decide), if_neg (show ¬ sectionOutputWeights = sectionHiddenBiases2 by decide), if_pos rfl]

/-- The chain of comparisons on the section name `sectionOutputBiases`. -/
theorem markerStep_sectionOutputBiases (env : FileCollaborators R) (uninit : ConfigLocals)
    (st : ReadState R) (rest : Stream) :
    markerStep env uninit st sectionOutputBiases rest
      = stepOfReader (env.output_read_biases rest st.m.output_layer) rest
          (fun l => { st with m := { st.m with output_layer := l } }) := by
  unfold markerStep
  rw [if_neg (show ¬ sectionOutputBiases = sectionEnd by decide), if_neg (show ¬ sectionOutputBiases = sectionConfig by decide), if_neg (show ¬ sectionOutputBiases = sectionVocab by decide), if_neg (show ¬ sectionOutputBiases = sectionInputVocab by decide), if_neg (show ¬ sectionOutputBiases = sectionOutputVocab by decide), if_neg (show ¬ sectionOutputBiases = sectionInputEmbeddings by decide), if_neg (show ¬ sectionOutputBiases = sectionHiddenWeights1 by decide), if_neg (show ¬ sectionOutputBiases = sectionHiddenBiases1 by decide), if_neg (show ¬ sectionOutputBiases = sectionHiddenWeights2 by decide), if_neg (show ¬ sectionOutputBiases = sectionHiddenBiases2 by decide), if_neg (show ¬ sectionOutputBiases = sectionOutputWeights by decide), if_pos rfl]

/-- The config line with the key `keyNgramSize` and an integer value. -/
theorem readConfigLine_keyNgramSize (env : FileCollaborators R) (cs : ConfigState R)
    (line value : Line) (v : Int) (hsplit : env.splitBySpace line = [keyNgramSize, value])
    (hcast : env.lexical_cast_int value = some v) :
    readConfigLine env cs line = .ok { cs with locals := { cs.locals with ngram_size := v } } := by
  unfold readConfigLine
  rw [hsplit]
  simp only
  rw [if_pos trivial, hcast]

/-- The config line with the key `keyInputVocabSize` and an integer value. -/
theorem readConfigLine_keyInputVocabSize (env : FileCollaborators R) (cs : ConfigState R)
    (line value : Line) (v : Int) (hsplit : env.splitBySpace line = [keyInputVocabSize, value])
    (hcast : env.lexical_cast_int value = some v) :
    readConfigLine env cs line = .ok { cs with m := { cs.m with input_vocab_size := v } } := by
  unfold readConfigLine
  rw [hsplit]
  simp only
  rw [if_neg (show ¬ keyInputVocabSize = keyNgramSize by decide), if_neg (show ¬ keyInputVocabSize = keyVocabSize by decide), if_pos trivial, hcast]

/-- The config line with the key `keyOutputVocabSize` and an integer value. -/
theorem readConfigLine_keyOutputVocabSize (env : FileCollaborators R) (cs : ConfigState R)
    (line value : Line) (v : Int) (hsplit : env.splitBySpace line = [keyOutputVocabSize, value])
    (hcast : env.lexical_cast_int value = some v) :
    readConfigLine env cs line = .ok { cs with m := { cs.m with output_vocab_size := v } } := by
  unfold readConfigLine
  rw [hsplit]
  simp only
  rw [if_neg (show ¬ keyOutputVocabSize = keyNgramSize by decide), if_neg (show ¬ keyOutputVocabSize = keyVocabSize by decide), if_neg (show ¬ keyOutputVocabSize = keyInputVocabSize by decide), if_pos trivial, hcast]

/-- The config line with the key `keyInputEmbeddingDimension` and an integer value. -/
theorem readConfigLine_keyInputEmbeddingDimension (env : FileCollaborators R) (cs : ConfigState R)
    (line value : Line) (v : Int) (hsplit : env.splitBySpace line = [keyInputEmbeddingDimension, value])
    (hcast : env.lexical_cast_int value = some v) :
    readConfigLine env cs line = .ok { cs with locals := { cs.locals with input_embedding_dimension := v } } := by
  unfold readConfigLine
  rw [hsplit]
  simp only
  rw [if_neg (show ¬ keyInputEmbeddingDimension = keyNgramSize by decide), if_neg (show ¬ keyInputEmbeddingDimension = keyVocabSize by decide), if_neg (show ¬ keyInputEmbeddingDimension = keyInputVocabSize by decide), if_neg (show ¬ keyInputEmbeddingDimension = keyOutputVocabSize by decide), if_pos trivial, hcast]

/-- The config line with the key `keyNumHidden` and an integer value. -/
theorem readConfigLine_keyNumHidden (env : FileCollaborators R) (cs : ConfigState R)
    (line value : Line) (v : Int) (hsplit : env.splitBySpace line = [keyNumHidden, value])
    (hcast : env.lexical_cast_int value = some v) :
    readConfigLine env cs line = .ok { cs with locals := { cs.locals with num_hidden := v } } := by
  unfold readConfigLine
  rw [hsplit]
  simp only
  rw [if_neg (show ¬ keyNumHidden = keyNgramSize by decide), if_neg (show ¬ keyNumHidden = keyVocabSize by decide), if_neg (show ¬ keyNumHidden = keyInputVocabSize by decide), if_neg (show ¬ keyNumHidden = keyOutputVocabSize by decide), if_neg (show ¬ keyNumHidden = keyInputEmbeddingDimension by decide), if_pos trivial, hcast]

/-- The config line with the key `keyOutputEmbeddingDimension` and an integer value. -/
theorem readConfigLine_keyOutputEmbeddingDimension (env : FileCollaborators R) (cs : ConfigState R)
    (line value : Line) (v : Int) (hsplit : env.splitBySpace line = [keyOutputEmbeddingDimension, value])
    (hcast : env.lexical_cast_int value = some v) :
    readConfigLine env cs line = .ok { cs with locals := { cs.locals with output_embedding_dimension := v } } := by
  unfold readConfigLine
  rw [hsplit]
  simp only
  rw [if_neg (show ¬ keyOutputEmbeddingDimension = keyNgramSize by decide), if_neg (show ¬ keyOutputEmbeddingDimension = keyVocabSize by decide), if_neg (show ¬ keyOutputEmbeddingDimension = keyInputVocabSize by decide), if_neg (show ¬ keyOutputEmbeddingDimension = keyOutputVocabSize by decide), if_neg (show ¬ keyOutputEmbeddingDimension = keyInputEmbeddingDimension by decide), if_neg (show ¬ keyOutputEmbeddingDimension = keyNumHidden by decide), if_pos trivial, hcast]

/-- The config line with the key `activation_function`. -/
theorem readConfigLine_keyActivationFunction (env : FileCollaborators R) (cs : ConfigState R)
    (line value : Line) (hsplit : env.splitBySpace line = [keyActivationFunction, value]) :
    readConfigLine env cs line
      = .ok { cs with activation_function := env.string_to_activation_function value } := by
  unfold readConfigLine
  rw [hsplit]
  simp only
  rw [if_neg (show ¬ keyActivationFunction = keyNgramSize by decide), if_neg (show ¬ keyActivationFunction = keyVocabSize by decide), if_neg (show ¬ keyActivationFunction = keyInputVocabSize by decide), if_neg (show ¬ keyActivationFunction = keyOutputVocabSize by decide), if_neg (show ¬ keyActivationFunction = keyInputEmbeddingDimension by decide), if_neg (show ¬ keyActivationFunction = keyNumHidden by decide), if_neg (show ¬ keyActivationFunction = keyOutputEmbeddingDimension by decide), if_pos trivial]

/-- The config line `version 1`. -/
theorem readConfigLine_keyVersion (env : FileCollaborators R) (cs : ConfigState R)
    (line value : Line) (hsplit : env.splitBySpace line = [keyVersion, value])
    (hcast : env.lexical_cast_int value = some 1) :
    readConfigLine env cs line = .ok cs := by
  unfold readConfigLine
  rw [hsplit]
  simp only
  rw [if_neg (show ¬ keyVersion = keyNgramSize by decide), if_neg (show ¬ keyVersion = keyVocabSize by decide), if_neg (show ¬ keyVersion = keyInputVocabSize by decide), if_neg (show ¬ keyVersion = keyOutputVocabSize by decide), if_neg (show ¬ keyVersion = keyInputEmbeddingDimension by decide), if_neg (show ¬ keyVersion = keyNumHidden by decide), if_neg (show ¬ keyVersion = keyOutputEmbeddingDimension by decide), if_neg (show ¬ keyVersion = keyActivationFunction by decide), if_pos trivial, hcast]
  simp

/-- The loop of `readConfig` on the config section that `model::write` emits for `m`: the
two vocabulary sizes of the model and the four locals receive the values of `m`, no warning
is written, and the lines after the empty line are left. -/
theorem readConfigLoop_written (env : FileCollaborators R) (m : model R) (cs : ConfigState R)
    (rest : Stream) (hcfg : ConfigTextParses env m) :
    readConfigLoop env cs
        ("version 1".toList
          :: ("ngram_size ".toList ++ showInt m.ngram_size)
          :: ("input_vocab_size ".toList ++ showInt m.input_vocab_size)
          :: ("output_vocab_size ".toList ++ showInt m.output_vocab_size)
          :: ("input_embedding_dimension ".toList ++ showInt m.input_embedding_dimension)
          :: ("num_hidden ".toList ++ showInt m.num_hidden)
          :: ("output_embedding_dimension ".toList ++ showInt m.output_embedding_dimension)
          :: ("activation_function ".toList
                ++ env.activation_function_to_string m.activation_function)
          :: [] :: rest)
      = .ok ({ m := { cs.m with
                      input_vocab_size := m.input_vocab_size
                      output_vocab_size := m.output_vocab_size }
               locals := { ngram_size := m.ngram_size
                           input_embedding_dimension := m.input_embedding_dimension
                           num_hidden := m.num_hidden
                           output_embedding_dimension := m.output_embedding_dimension }
               activation_function := env.string_to_activation_function
                 (env.activation_function_to_string m.activation_function)
               cerr := cs.cerr }, rest) := by
  obtain ⟨hv, hn, hiv, hov, hie, hnh, hoe, haf⟩ := hcfg
  have e1 := readConfigLine_keyVersion env cs _ _ hv.1 hv.2
  have e2 := fun cs => readConfigLine_keyNgramSize env cs _ _ _ hn.1 hn.2
  have e3 := fun cs => readConfigLine_keyInputVocabSize env cs _ _ _ hiv.1 hiv.2
  have e4 := fun cs => readConfigLine_keyOutputVocabSize env cs _ _ _ hov.1 hov.2
  have e5 := fun cs => readConfigLine_keyInputEmbeddingDimension env cs _ _ _ hie.1 hie.2
  have e6 := fun cs => readConfigLine_keyNumHidden env cs _ _ _ hnh.1 hnh.2
  have e7 := fun cs => readConfigLine_keyOutputEmbeddingDimension env cs _ _ _ hoe.1 hoe.2
  have e8 := fun cs => readConfigLine_keyActivationFunction env cs _ _ haf
  have n1 : ("version 1".toList : Line) ≠ [] := by decide
  have n2 : ∀ x : Line, "ngram_size ".toList ++ x ≠ [] := fun x h => by cases h
  have n3 : ∀ x : Line, "input_vocab_size ".toList ++ x ≠ [] := fun x h => by cases h
  have n4 : ∀ x : Line, "output_vocab_size ".toList ++ x ≠ [] := fun x h => by cases h
  have n5 : ∀ x : Line, "input_embedding_dimension ".toList ++ x ≠ [] := fun x h => by cases h
  have n6 : ∀ x : Line, "num_hidden ".toList ++ x ≠ [] := fun x h => by cases h
  have n7 : ∀ x : Line, "output_embedding_dimension ".toList ++ x ≠ [] :=
    fun x h => by cases h
  have n8 : ∀ x : Line, "activation_function ".toList ++ x ≠ [] := fun x h => by cases h
  rw [readConfigLoop, if_neg n1]
  rw [show readConfigLine env cs "version 1".toList = .ok cs from e1]
  simp only
  rw [readConfigLoop, if_neg (n2 _)]
  rw [show readConfigLine env cs ("ngram_size ".toList ++ showInt m.ngram_size) = _ from e2 cs]
  simp only
  rw [readConfigLoop, if_neg (n3 _)]
  rw [show readConfigLine env _ ("input_vocab_size ".toList ++ showInt m.input_vocab_size)
    = _ from e3 _]
  simp only
  rw [readConfigLoop, if_neg (n4 _)]
  rw [show readConfigLine env _ ("output_vocab_size ".toList ++ showInt m.output_vocab_size)
    = _ from e4 _]
  simp only
  rw [readConfigLoop, if_neg (n5 _)]
  rw [show readConfigLine env _
    ("input_embedding_dimension ".toList ++ showInt m.input_embedding_dimension)
    = _ from e5 _]
  simp only
  rw [readConfigLoop, if_neg (n6 _)]
  rw [show readConfigLine env _ ("num_hidden ".toList ++ showInt m.num_hidden) = _ from e6 _]
  simp only
  rw [readConfigLoop, if_neg (n7 _)]
  rw [show readConfigLine env _
    ("output_embedding_dimension ".toList ++ showInt m.output_embedding_dimension)
    = _ from e7 _]
  simp only
  rw [readConfigLoop, if_neg (n8 _)]
  rw [show readConfigLine env _
    ("activation_function ".toList ++ env.activation_function_to_string m.activation_function)
    = _ from e8 _]
  simp only
  rw [readConfigLoop, if_pos rfl]

/-- The function `readConfig` on the config section that `model::write` emits for `m`
returns a model with the topology of `m`, whose sub-objects have the dimensions that `resize`
gives for that topology, and leaves the lines after the empty line. -/
theorem readConfig_written (env : FileCollaborators R) (uninit : ConfigLocals)
    (m0 m : model R) (rest : Stream) (hcfg : ConfigTextParses env m) :
    ∃ m1, m0.readConfig env uninit
        ("version 1".toList
          :: ("ngram_size ".toList ++ showInt m.ngram_size)
          :: ("input_vocab_size ".toList ++ showInt m.input_vocab_size)
          :: ("output_vocab_size ".toList ++ showInt m.output_vocab_size)
          :: ("input_embedding_dimension ".toList ++ showInt m.input_embedding_dimension)
          :: ("num_hidden ".toList ++ showInt m.num_hidden)
          :: ("output_embedding_dimension ".toList ++ showInt m.output_embedding_dimension)
          :: ("activation_function ".toList
                ++ env.activation_function_to_string m.activation_function)
          :: [] :: rest) = .ok (m1, [], rest)
      ∧ SameTopology m1 m ∧ m1.SameDims m.resizeToTopology := by
  unfold model.readConfig
  rw [readConfigLoop_written env m _ rest hcfg]
  refine ⟨_, rfl, ⟨rfl, rfl, rfl, rfl, rfl, rfl⟩, ?_⟩
  by_cases h : m.num_hidden = 0
  · simp [model.SameDims, Input_word_embeddings.SameDims, Linear_layer.SameDims,
      Output_word_embeddings.SameDims, Mat.SameDims, model.resizeToTopology, model.resize,
      model.set_activation_function, h, Input_word_embeddings.resize, Linear_layer.resize,
      Output_word_embeddings.resize, Mat.resize]
  · simp [model.SameDims, Input_word_embeddings.SameDims, Linear_layer.SameDims,
      Output_word_embeddings.SameDims, Mat.SameDims, model.resizeToTopology, model.resize,
      model.set_activation_function, h, Input_word_embeddings.resize, Linear_layer.resize,
      Output_word_embeddings.resize, Mat.resize]

/-- Reading the line `\end` from a state with the topology of `m`. -/
theorem readsTo_end (env : FileCollaborators R) (uninit : ConfigLocals) (m : model R)
    (b : Bool) : ReadsTo env uninit m b [sectionEnd] := by
  intro st hst
  exact ⟨_, read_end env uninit st sectionEnd [] (by decide), hst.1, hst.2.2⟩

/-- A section whose reader consumes exactly the emitted lines and keeps what the sections
keep: the reading goes on after the empty line that follows the emitted lines. -/
theorem readsTo_reader_section {α : Type} (env : FileCollaborators R) (uninit : ConfigLocals)
    (m : model R) (b : Bool) (marker : Line) (rd : Stream → α → Outcome (α × Nat))
    (proj : ReadState R → α) (upd : ReadState R → α → ReadState R) (emitted tail : Stream)
    (hstep : ∀ st X, sectionStep env uninit st (marker :: X)
      = stepOfReader (rd X (proj st)) X (upd st))
    (hback : ∀ st, ReadInv m b st → ∀ rest : Stream,
      ∃ a k, rd (emitted ++ [] :: rest) (proj st) = .ok (a, k)
        ∧ (k = emitted.length ∨ k = emitted.length + 1) ∧ ReadInv m b (upd st a))
    (htail : ReadsTo env uninit m b tail) :
    ReadsTo env uninit m b (marker :: (emitted ++ [] :: tail)) := by
  intro st hst
  obtain ⟨a, k, hrd, hk, hinv⟩ := hback st hst tail
  rw [read_eq, hstep, hrd]
  simp only [stepOfReader]
  rcases hk with rfl | rfl
  · rw [List.drop_left, read_blank env uninit _ [] tail (by decide)]
    exact htail _ hinv
  · have hdrop : List.drop (emitted.length + 1) (emitted ++ [] :: tail) = tail := by
      rw [show emitted ++ [] :: tail = (emitted ++ [[]]) ++ tail by simp]
      rw [show emitted.length + 1 = (emitted ++ [[]]).length by simp]
      exact List.drop_left _ _
    rw [hdrop]
    exact htail _ hinv

/-- The loop at `skip_section` consumes emitted lines that are not empty after
right-trimming, and the empty line after them. -/
theorem skip_section_emitted (emitted rest : Stream)
    (h : ∀ line ∈ emitted, rightTrim line ≠ []) :
    skip_section (emitted ++ [] :: rest) = rest := by
  induction emitted with
  | nil => simp [skip_section, show rightTrim [] = [] from by decide]
  | cons line more ih =>
    simp only [List.cons_append, skip_section, h line (List.mem_cons_self _ _), if_false]
    exact ih (fun l hl => h l (List.mem_cons_of_mem _ hl))

/-- A pass on a section name: the name is logged and goes through the chain. -/
theorem sectionStep_name (env : FileCollaborators R) (uninit : ConfigLocals)
    (st : ReadState R) (name : Line) (rest : Stream) (htrim : rightTrim name = name)
    (hhead : name.head? = some '\\') :
    sectionStep env uninit st (name :: rest)
      = markerStep env uninit (st.logLine ("reading section ".toList ++ name)) name rest :=
  sectionStep_marker env uninit st name name rest htrim hhead

/-- The sections of the sub-objects, `\input_embeddings` to `\output_biases`, followed by
`\end`, as `model::write` emits them for `m`. -/
theorem readsTo_sub_objects (env : FileCollaborators R) (uninit : ConfigLocals) (m : model R)
    (b : Bool) (hsub : SubObjectsReadBack env m) :
    ReadsTo env uninit m b
      (sectionInputEmbeddings :: (env.input_layer_write m.input_layer ++ [] ::
        (sectionHiddenWeights1 :: (env.linear_write_weights m.first_hidden_linear ++ [] ::
        (sectionHiddenBiases1 :: (env.linear_write_biases m.first_hidden_linear ++ [] ::
        (sectionHiddenWeights2 :: (env.linear_write_weights m.second_hidden_linear ++ [] ::
        (sectionHiddenBiases2 :: (env.linear_write_biases m.second_hidden_linear ++ [] ::
        (sectionOutputWeights :: (env.output_write_weights m.output_layer ++ [] ::
        (sectionOutputBiases :: (env.output_write_biases m.output_layer ++ [] ::
        [sectionEnd])))))))))))))) := by
  refine readsTo_reader_section env uninit m b sectionInputEmbeddings env.input_layer_read
    (fun st => st.m.input_layer)
    (fun st l => { (st.logLine ("reading section ".toList ++ sectionInputEmbeddings)) with
      m := { st.m with input_layer := l } })
    _ _ ?_ ?_ ?_
  · intro st X
    rw [sectionStep_name env uninit st sectionInputEmbeddings X (by decide) (by decide),
      markerStep_sectionInputEmbeddings]
    rfl
  · intro st hst rest
    obtain ⟨a, k, hrd, hk, hshape⟩ := hsub.1 st.m.input_layer hst.2.2.1 rest
    exact ⟨a, k, hrd, hk, hst.1, hst.2.1, ⟨hshape, hst.2.2.2.1, hst.2.2.2.2.1, hst.2.2.2.2.2⟩⟩
  refine readsTo_reader_section env uninit m b sectionHiddenWeights1 env.linear_read_weights
    (fun st => st.m.first_hidden_linear)
    (fun st l => { (st.logLine ("reading section ".toList ++ sectionHiddenWeights1)) with
      m := { st.m with first_hidden_linear := l } })
    _ _ ?_ ?_ ?_
  · intro st X
    rw [sectionStep_name env uninit st sectionHiddenWeights1 X (by decide) (by decide),
      markerStep_sectionHiddenWeights1]
    rfl
  · intro st hst rest
    obtain ⟨a, k, hrd, hk, hshape⟩ := hsub.2.1 st.m.first_hidden_linear hst.2.2.2.1 rest
    exact ⟨a, k, hrd, hk, hst.1, hst.2.1, ⟨hst.2.2.1, hshape, hst.2.2.2.2.1, hst.2.2.2.2.2⟩⟩
  refine readsTo_reader_section env uninit m b sectionHiddenBiases1 env.linear_read_biases
    (fun st => st.m.first_hidden_linear)
    (fun st l => { (st.logLine ("reading section ".toList ++ sectionHiddenBiases1)) with
      m := { st.m with first_hidden_linear := l } })
    _ _ ?_ ?_ ?_
  · intro st X
    rw [sectionStep_name env uninit st sectionHiddenBiases1 X (by decide) (by decide),
      markerStep_sectionHiddenBiases1]
    rfl
  · intro st hst rest
    obtain ⟨a, k, hrd, hk, hshape⟩ := hsub.2.2.1 st.m.first_hidden_linear hst.2.2.2.1 rest
    exact ⟨a, k, hrd, hk, hst.1, hst.2.1, ⟨hst.2.2.1, hshape, hst.2.2.2.2.1, hst.2.2.2.2.2⟩⟩
  refine readsTo_reader_section env uninit m b sectionHiddenWeights2 env.linear_read_weights
    (fun st => st.m.second_hidden_linear)
    (fun st l => { (st.logLine ("reading section ".toList ++ sectionHiddenWeights2)) with
      m := { st.m with second_hidden_linear := l } })
    _ _ ?_ ?_ ?_
  · intro st X
    rw [sectionStep_name env uninit st sectionHiddenWeights2 X (by decide) (by decide),
      markerStep_sectionHiddenWeights2]
    rfl
  · intro st hst rest
    obtain ⟨a, k, hrd, hk, hshape⟩ := hsub.2.2.2.1 st.m.second_hidden_linear hst.2.2.2.2.1 rest
    exact ⟨a, k, hrd, hk, hst.1, hst.2.1, ⟨hst.2.2.1, hst.2.2.2.1, hshape, hst.2.2.2.2.2⟩⟩
  refine readsTo_reader_section env uninit m b sectionHiddenBiases2 env.linear_read_biases
    (fun st => st.m.second_hidden_linear)
    (fun st l => { (st.logLine ("reading section ".toList ++ sectionHiddenBiases2)) with
      m := { st.m with second_hidden_linear := l } })
    _ _ ?_ ?_ ?_
  · intro st X
    rw [sectionStep_name env uninit st sectionHiddenBiases2 X (by decide) (by decide),
      markerStep_sectionHiddenBiases2]
    rfl
  · intro st hst rest
    obtain ⟨a, k, hrd, hk, hshape⟩ := hsub.2.2.2.2.1 st.m.second_hidden_linear hst.2.2.2.2.1 rest
    exact ⟨a, k, hrd, hk, hst.1, hst.2.1, ⟨hst.2.2.1, hst.2.2.2.1, hshape, hst.2.2.2.2.2⟩⟩
  refine readsTo_reader_section env uninit m b sectionOutputWeights env.output_read_weights
    (fun st => st.m.output_layer)
    (fun st l => { (st.logLine ("reading section ".toList ++ sectionOutputWeights)) with
      m := { st.m with output_layer := l } })
    _ _ ?_ ?_ ?_
  · intro st X
    rw [sectionStep_name env uninit st sectionOutputWeights X (by decide) (by decide),
      markerStep_sectionOutputWeights]
    rfl
  · intro st hst rest
    obtain ⟨a, k, hrd, hk, hshape⟩ := hsub.2.2.2.2.2.1 st.m.output_layer hst.2.2.2.2.2 rest
    exact ⟨a, k, hrd, hk, hst.1, hst.2.1, ⟨hst.2.2.1, hst.2.2.2.1, hst.2.2.2.2.1, hshape⟩⟩
  refine readsTo_reader_section env uninit m b sectionOutputBiases env.output_read_biases
    (fun st => st.m.output_layer)
    (fun st l => { (st.logLine ("reading section ".toList ++ sectionOutputBiases)) with
      m := { st.m with output_layer := l } })
    _ _ ?_ ?_ ?_
  · intro st X
    rw [sectionStep_name env uninit st sectionOutputBiases X (by decide) (by decide),
      markerStep_sectionOutputBiases]
    rfl
  · intro st hst rest
    obtain ⟨a, k, hrd, hk, hshape⟩ := hsub.2.2.2.2.2.2 st.m.output_layer hst.2.2.2.2.2 rest
    exact ⟨a, k, hrd, hk, hst.1, hst.2.1, ⟨hst.2.2.1, hst.2.2.2.1, hst.2.2.2.2.1, hshape⟩⟩
  exact readsTo_end env uninit m b

/-- The section `\input_vocab` that `model::write` emits for a word list. -/
theorem readsTo_input_vocab (env : FileCollaborators R) (uninit : ConfigLocals) (m : model R)
    (b : Bool) (words : List Line) (tail : Stream)
    (hback : WordsReadBack env.readWordsFile (env.writeWordsFile words))
    (htail : ReadsTo env uninit m b tail) :
    ReadsTo env uninit m b (sectionInputVocab :: (env.writeWordsFile words ++ [] :: tail)) := by
  refine readsTo_reader_section env uninit m b sectionInputVocab env.readWordsFile
    (fun _ => [])
    (fun st ws =>
      ({ (st.logLine ("reading section ".toList ++ sectionInputVocab)) with
          input_words := ws } : ReadState R).logLine
        ("input_vocab: ".toList ++ showSize ws.length ++ " words".toList))
    _ _ ?_ ?_ htail
  · intro st X
    rw [sectionStep_name env uninit st sectionInputVocab X (by decide) (by decide),
      markerStep_sectionInputVocab]
    rfl
  · intro st hst rest
    obtain ⟨a, k, hrd, hk⟩ := hback rest
    exact ⟨a, k, hrd, hk, hst.1, hst.2.1, hst.2.2⟩

/-- The section `\output_vocab` that `model::write` emits for a word list, read by
`readWordsFile` when an output word list is wanted and skipped otherwise. -/
theorem readsTo_output_vocab (env : FileCollaborators R) (uninit : ConfigLocals)
    (m : model R) (b : Bool) (words : List Line) (tail : Stream)
    (hback : if b then WordsReadBack env.readWordsFile (env.writeWordsFile words)
      else ∀ line ∈ env.writeWordsFile words, rightTrim line ≠ [])
    (htail : ReadsTo env uninit m b tail) :
    ReadsTo env uninit m b (sectionOutputVocab :: (env.writeWordsFile words ++ [] :: tail)) := by
  intro st hst
  cases b with
  | true =>
    simp only [if_true] at hback
    obtain ⟨old, hold⟩ := Option.isSome_iff_exists.mp hst.2.1
    obtain ⟨a, k, hrd, hk⟩ := hback tail
    rw [read_eq, sectionStep_name env uninit st sectionOutputVocab _ (by decide) (by decide),
      markerStep_sectionOutputVocab]
    have hlog : (st.logLine ("reading section ".toList ++ sectionOutputVocab)).output_words
        = some old := hold
    simp only [outputVocabStep, hlog, hrd, stepOfReader]
    have hinv : ReadInv m true
        (({ (st.logLine ("reading section ".toList ++ sectionOutputVocab)) with
            output_words := some a } : ReadState R).logLine
          ("output_vocab: ".toList ++ showSize a.length ++ " words".toList)) :=
      ⟨hst.1, rfl, hst.2.2⟩
    rcases hk with rfl | rfl
    · rw [List.drop_left, read_blank env uninit _ [] tail (by decide)]
      exact htail _ hinv
    · have hdrop : List.drop ((env.writeWordsFile words).length + 1)
          (env.writeWordsFile words ++ [] :: tail) = tail := by
        rw [show env.writeWordsFile words ++ [] :: tail
          = (env.writeWordsFile words ++ [[]]) ++ tail by simp]
        rw [show (env.writeWordsFile words).length + 1
          = (env.writeWordsFile words ++ [[]]).length by simp]
        exact List.drop_left _ _
      rw [hdrop]
      exact htail _ hinv
  | false =>
    simp only [Bool.false_eq_true, if_false] at hback
    have hnone : st.output_words = none := by
      have h := hst.2.1
      cases hw : st.output_words with
      | none => rfl
      | some w => rw [hw] at h; cases h
    rw [read_eq, sectionStep_name env uninit st sectionOutputVocab _ (by decide) (by decide),
      markerStep_sectionOutputVocab]
    have hlog : (st.logLine ("reading section ".toList ++ sectionOutputVocab)).output_words
        = none := hnone
    simp only [outputVocabStep, hlog, skip_section_emitted _ tail hback]
    exact htail _ ⟨hst.1, hst.2.1, hst.2.2⟩

/-- Claim C5 (round trip of the topology).  For every model `m` and every reading state:
assume that the config text that `model::write` emits is read back field by field, that each
reader of a sub-object, filling an object of the dimensions that `readConfig` has given it
(those that `resize` gives for the topology of `m`), consumes exactly what its writer emitted
for `m` and leaves the dimensions as they are, and that the word lists are consumed exactly.
Then `model::read` on the lines that `model::write` produced returns a model whose six
topology integers are those of `m`. -/
theorem write_read_topology (env : FileCollaborators R) (uninit : ConfigLocals)
    (m : model R) (st0 : ReadState R) (input_pwords output_pwords : Option (List Line))
    (hcfg : ConfigTextParses env m) (hsub : SubObjectsReadBack env m)
    (hwords : WordListsReadBack env st0.output_words.isSome input_pwords output_pwords) :
    ∃ st1, model.read env uninit st0 (m.write env input_pwords output_pwords) = .ok st1
      ∧ st1.m.ngram_size = m.ngram_size
      ∧ st1.m.input_vocab_size = m.input_vocab_size
      ∧ st1.m.output_vocab_size = m.output_vocab_size
      ∧ st1.m.input_embedding_dimension = m.input_embedding_dimension
      ∧ st1.m.num_hidden = m.num_hidden
      ∧ st1.m.output_embedding_dimension = m.output_embedding_dimension := by
  have hbody := readsTo_sub_objects env uninit m st0.output_words.isSome hsub
  have hout : ReadsTo env uninit m st0.output_words.isSome
      (vocabSection env sectionOutputVocab output_pwords ++
      (sectionInputEmbeddings :: (env.input_layer_write m.input_layer ++ [] ::
        (sectionHiddenWeights1 :: (env.linear_write_weights m.first_hidden_linear ++ [] ::
        (sectionHiddenBiases1 :: (env.linear_write_biases m.first_hidden_linear ++ [] ::
        (sectionHiddenWeights2 :: (env.linear_write_weights m.second_hidden_linear ++ [] ::
        (sectionHiddenBiases2 :: (env.linear_write_biases m.second_hidden_linear ++ [] ::
        (sectionOutputWeights :: (env.output_write_weights m.output_layer ++ [] ::
        (sectionOutputBiases :: (env.output_write_biases m.output_layer ++ [] ::
        [sectionEnd]))))))))))))))) := by
    cases hop : output_pwords with
    | none => exact hbody
    | some words =>
      have h := readsTo_output_vocab env uninit m st0.output_words.isSome words _
        (hwords.2 words hop) hbody
      simpa [vocabSection] using h
  generalize htail1 : (vocabSection env sectionOutputVocab output_pwords ++
      (sectionInputEmbeddings :: (env.input_layer_write m.input_layer ++ [] ::
        (sectionHiddenWeights1 :: (env.linear_write_weights m.first_hidden_linear ++ [] ::
        (sectionHiddenBiases1 :: (env.linear_write_biases m.first_hidden_linear ++ [] ::
        (sectionHiddenWeights2 :: (env.linear_write_weights m.second_hidden_linear ++ [] ::
        (sectionHiddenBiases2 :: (env.linear_write_biases m.second_hidden_linear ++ [] ::
        (sectionOutputWeights :: (env.output_write_weights m.output_layer ++ [] ::
        (sectionOutputBiases :: (env.output_write_biases m.output_layer ++ [] ::
        [sectionEnd]))))))))))))))) = tail1 at hout
  have hin : ReadsTo env uninit m st0.output_words.isSome
      (vocabSection env sectionInputVocab input_pwords ++ tail1) := by
    cases hip : input_pwords with
    | none => exact hout
    | some words =>
      have h := readsTo_input_vocab env uninit m st0.output_words.isSome words _
        (hwords.1 words hip) hout
      simpa [vocabSection] using h
  generalize htail2 : (vocabSection env sectionInputVocab input_pwords ++ tail1) = tail2
    at hin
  have hwrite : m.write env input_pwords output_pwords
      = sectionConfig
        :: "version 1".toList
        :: ("ngram_size ".toList ++ showInt m.ngram_size)
        :: ("input_vocab_size ".toList ++ showInt m.input_vocab_size)
        :: ("output_vocab_size ".toList ++ showInt m.output_vocab_size)
        :: ("input_embedding_dimension ".toList ++ showInt m.input_embedding_dimension)
        :: ("num_hidden ".toList ++ showInt m.num_hidden)
        :: ("output_embedding_dimension ".toList ++ showInt m.output_embedding_dimension)
        :: ("activation_function ".toList
              ++ env.activation_function_to_string m.activation_function)
        :: [] :: tail2 := by
    rw [← htail2, ← htail1]
    simp only [model.write, List.append_assoc, List.cons_append, List.nil_append,
      List.singleton_append]
  obtain ⟨m1, hread, htopo, hdims⟩ := readConfig_written env uninit
    (st0.logLine ("reading section ".toList ++ sectionConfig)).m m tail2 hcfg
  rw [hwrite, read_eq, sectionStep_name env uninit st0 sectionConfig _ (by decide) (by decide),
    markerStep_sectionConfig]
  simp only [configStep, hread]
  obtain ⟨st1, hst1, ⟨h1, h2, h3, h4, h5, h6⟩, _⟩ := hin _
    (⟨htopo, rfl, hdims⟩ : ReadInv m st0.output_words.isSome
      { (st0.logLine ("reading section ".toList ++ sectionConfig)) with
        m := m1
        cerr := (st0.logLine ("reading section ".toList ++ sectionConfig)).cerr ++ [] })
  exact ⟨st1, hst1, h1, h2, h3, h4, h5, h6⟩

/-- Reading lines up to an empty line consumes emitted non-empty lines and the empty line
after them. -/
theorem readLinesUntilBlank_emitted (emitted rest : Stream) (h : ∀ line ∈ emitted, line ≠ []) :
    readLinesUntilBlank (emitted ++ [] :: rest) = (emitted, emitted.length + 1) := by
  induction emitted with
  | nil => simp [readLinesUntilBlank]
  | cons line more ih =>
    have ih2 := ih (fun l hl => h l (List.mem_cons_of_mem _ hl))
    rw [List.cons_append, readLinesUntilBlank, if_neg (h line (List.mem_cons_self _ _)), ih2]
    rfl

/-- The reader of `checkingFileCollaborators` on the line of dimensions that the writer
emitted for a matrix `M`, filling an object whose matrix `N` has the dimensions of `M`. -/
theorem readCheckingDims_emitted {α : Type} (M N : Mat R) (hd : N.SameDims M) (l : α)
    (rest : Stream) :
    readCheckingDims N ([showDims M] ++ [] :: rest) l = .ok (l, 2) := by
  have hshow : showDims M = showDims N := by
    unfold showDims
    rw [hd.1, hd.2]
  have hne : ∀ line ∈ [showDims M], line ≠ [] := by
    intro line hl
    simp only [List.mem_singleton] at hl
    subst hl
    simp [showDims]
  unfold readCheckingDims
  simp only [List.singleton_append]
  rw [if_pos hshow]
  have h := readLinesUntilBlank_emitted [showDims M] rest hne
  simp only [List.singleton_append] at h
  rw [h]
  rfl

/-- The readers of sub-objects of `checkingFileCollaborators` consume what its writers emit
for a model whose sub-objects have the dimensions that `resize` gives for its topology. -/
theorem checkingFileCollaborators_readsBack (R : Type) (m : model R)
    (hm : m.SameDims m.resizeToTopology) :
    SubObjectsReadBack (checkingFileCollaborators R) m := by
  obtain ⟨h1, ⟨h2U, h2b⟩, ⟨h3U, h3b⟩, ⟨h4W, h4b⟩⟩ := hm
  have htrans : ∀ A B C : Mat R, A.SameDims C → B.SameDims C → A.SameDims B :=
    fun A B C ha hb => ⟨ha.1.trans hb.1.symm, ha.2.trans hb.2.symm⟩
  refine ⟨?_, ?_, ?_, ?_, ?_, ?_, ?_⟩
  · intro cur hshape rest
    exact ⟨cur, 2, readCheckingDims_emitted _ _ (htrans _ _ _ hshape h1) cur rest,
      Or.inr rfl, hshape⟩
  · intro cur hshape rest
    exact ⟨cur, 2, readCheckingDims_emitted _ _ (htrans _ _ _ hshape.1 h2U) cur rest,
      Or.inr rfl, hshape⟩
  · intro cur hshape rest
    exact ⟨cur, 2, readCheckingDims_emitted _ _ (htrans _ _ _ hshape.2 h2b) cur rest,
      Or.inr rfl, hshape⟩
  · intro cur hshape rest
    exact ⟨cur, 2, readCheckingDims_emitted _ _ (htrans _ _ _ hshape.1 h3U) cur rest,
      Or.inr rfl, hshape⟩
  · intro cur hshape rest
    exact ⟨cur, 2, readCheckingDims_emitted _ _ (htrans _ _ _ hshape.2 h3b) cur rest,
      Or.inr rfl, hshape⟩
  · intro cur hshape rest
    exact ⟨cur, 2, readCheckingDims_emitted _ _ (htrans _ _ _ hshape.1 h4W) cur rest,
      Or.inr rfl, hshape⟩
  · intro cur hshape rest
    exact ⟨cur, 2, readCheckingDims_emitted _ _ (htrans _ _ _ hshape.2 h4b) cur rest,
      Or.inr rfl, hshape⟩

/-- The word reader of `checkingFileCollaborators` consumes a written list of non-empty
words. -/
theorem checkingFileCollaborators_words (R : Type) (words : List Line)
    (h : ∀ line ∈ words, line ≠ []) :
    WordsReadBack (checkingFileCollaborators R).readWordsFile
      ((checkingFileCollaborators R).writeWordsFile words) := by
  intro rest
  refine ⟨words, words.length + 1, ?_, Or.inr rfl⟩
  show Except.ok ([] ++ (readLinesUntilBlank (words ++ [] :: rest)).1,
    (readLinesUntilBlank (words ++ [] :: rest)).2) = _
  rw [readLinesUntilBlank_emitted words rest h]
  rfl

/-- Instance of `write_read_topology` with readers that depend on the object they fill:
`exampleModel` written with the word lists `a`, `b` and `c`, read back by
`checkingFileCollaborators` into a reading state over a model of another topology and other
dimensions; the model read has the topology `3, 2, 3, 2, 1, 2` of `exampleModel`. -/
theorem write_read_topology_witness :
    (ConfigTextParses (checkingFileCollaborators Int) (exampleModel Int)
        ∧ SubObjectsReadBack (checkingFileCollaborators Int) (exampleModel Int)
        ∧ WordListsReadBack (checkingFileCollaborators Int)
            (freshReadState ((exampleModel Int).resize 5 7 7 1 0 1)).output_words.isSome
            (some ["a".toList, "b".toList]) (some ["c".toList]))
      ∧ (∃ st1, model.read (checkingFileCollaborators Int) ⟨0, 0, 0, 0⟩
            (freshReadState ((exampleModel Int).resize 5 7 7 1 0 1))
            ((exampleModel Int).write (checkingFileCollaborators Int)
              (some ["a".toList, "b".toList]) (some ["c".toList])) = .ok st1
          ∧ st1.m.ngram_size = (exampleModel Int).ngram_size
          ∧ st1.m.input_vocab_size = (exampleModel Int).input_vocab_size
          ∧ st1.m.output_vocab_size = (exampleModel Int).output_vocab_size
          ∧ st1.m.input_embedding_dimension = (exampleModel Int).input_embedding_dimension
          ∧ st1.m.num_hidden = (exampleModel Int).num_hidden
          ∧ st1.m.output_embedding_dimension = (exampleModel Int).output_embedding_dimension)
      ∧ (model.read (checkingFileCollaborators Int) ⟨0, 0, 0, 0⟩
            (freshReadState ((exampleModel Int).resize 5 7 7 1 0 1))
            ((exampleModel Int).write (checkingFileCollaborators Int)
              (some ["a".toList, "b".toList]) (some ["c".toList]))).toOption.map
          (fun st => [st.m.ngram_size, st.m.input_vocab_size, st.m.output_vocab_size,
            st.m.input_embedding_dimension, st.m.num_hidden, st.m.output_embedding_dimension])
        = some [3, 2, 3, 2, 1, 2] := by
  have hcfg : ConfigTextParses (checkingFileCollaborators Int) (exampleModel Int) := by
    unfold ConfigTextParses ConfigLineParses
    decide
  have hm : (exampleModel Int).SameDims (exampleModel Int).resizeToTopology := by
    unfold model.SameDims Input_word_embeddings.SameDims Linear_layer.SameDims
      Output_word_embeddings.SameDims Mat.SameDims
    decide
  have hsub := checkingFileCollaborators_readsBack Int (exampleModel Int) hm
  have hwords : WordListsReadBack (checkingFileCollaborators Int)
      (freshReadState ((exampleModel Int).resize 5 7 7 1 0 1)).output_words.isSome
      (some ["a".toList, "b".toList]) (some ["c".toList]) := by
    constructor
    · intro words hw
      simp only [Option.some.injEq] at hw
      subst hw
      exact checkingFileCollaborators_words Int _ (by decide)
    · intro words hw
      simp only [Option.some.injEq] at hw
      subst hw
      exact checkingFileCollaborators_words Int _ (by decide)
  exact ⟨⟨hcfg, hsub, hwords⟩,
    write_read_topology (checkingFileCollaborators Int) ⟨0, 0, 0, 0⟩ (exampleModel Int)
      (freshReadState ((exampleModel Int).resize 5 7 7 1 0 1)) _ _ hcfg hsub hwords,
    by decide⟩

/-- The readers of `checkingFileCollaborators` do depend on the object they fill: the text
written for the premultiplied `exampleModel`, whose embedding table is `1 x 1` while its
topology says `2 x 2`, is not read back; the reader of `\input_embeddings` throws. -/
theorem write_read_premultiplied_example :
    failureOf (model.read (checkingFileCollaborators Int) ⟨0, 0, 0, 0⟩
        (freshReadState (exampleModel Int))
        ((exampleModel Int).premultiply.write (checkingFileCollaborators Int) none none))
      = some .thrown := by
  decide

end RoundTripTheorems

section ResizeTheorems

variable {R : Type}

/-- Claim C11 (resize).  For all six arguments, after `model::resize` the six topology fields
equal the arguments, `premultiplied` is false, and the dimensions of every sub-object are
given by the six integers alone: the embedding table is `input_vocab_size` by
`input_embedding_dimension`, the output layer is `output_vocab_size` by
`output_embedding_dimension`, the first stage has `input_embedding_dimension*(ngram_size-1)`
columns and `h` rows and, when `num_hidden = 0`, `h = output_embedding_dimension` and the
second stage is `1 x 1`, and otherwise `h = num_hidden` and the second stage is
`output_embedding_dimension` by `num_hidden`.  A dimension is the argument as a natural
number. -/
theorem resize_topology_and_dimensions (m : model R) (ngram_size input_vocab_size
    output_vocab_size input_embedding_dimension num_hidden output_embedding_dimension : Int) :
    (m.resize ngram_size input_vocab_size output_vocab_size input_embedding_dimension
        num_hidden output_embedding_dimension).ngram_size = ngram_size
      ∧ (m.resize ngram_size input_vocab_size output_vocab_size input_embedding_dimension
          num_hidden output_embedding_dimension).input_vocab_size = input_vocab_size
      ∧ (m.resize ngram_size input_vocab_size output_vocab_size input_embedding_dimension
          num_hidden output_embedding_dimension).output_vocab_size = output_vocab_size
      ∧ (m.resize ngram_size input_vocab_size output_vocab_size input_embedding_dimension
          num_hidden output_embedding_dimension).input_embedding_dimension
            = input_embedding_dimension
      ∧ (m.resize ngram_size input_vocab_size output_vocab_size input_embedding_dimension
          num_hidden output_embedding_dimension).num_hidden = num_hidden
      ∧ (m.resize ngram_size input_vocab_size output_vocab_size input_embedding_dimension
          num_hidden output_embedding_dimension).output_embedding_dimension
            = output_embedding_dimension
      ∧ (m.resize ngram_size input_vocab_size output_vocab_size input_embedding_dimension
          num_hidden output_embedding_dimension).premultiplied = false
      ∧ (m.resize ngram_size input_vocab_size output_vocab_size input_embedding_dimension
          num_hidden output_embedding_dimension).input_layer.W.rows = input_vocab_size.toNat
      ∧ (m.resize ngram_size input_vocab_size output_vocab_size input_embedding_dimension
          num_hidden output_embedding_dimension).input_layer.W.cols
            = input_embedding_dimension.toNat
      ∧ (m.resize ngram_size input_vocab_size output_vocab_size input_embedding_dimension
          num_hidden output_embedding_dimension).output_layer.W.rows = output_vocab_size.toNat
      ∧ (m.resize ngram_size input_vocab_size output_vocab_size input_embedding_dimension
          num_hidden output_embedding_dimension).output_layer.W.cols
            = output_embedding_dimension.toNat
      ∧ (m.resize ngram_size input_vocab_size output_vocab_size input_embedding_dimension
          num_hidden output_embedding_dimension).first_hidden_linear.U.cols
            = (input_embedding_dimension * (ngram_size - 1)).toNat
      ∧ (m.resize ngram_size input_vocab_size output_vocab_size input_embedding_dimension
          num_hidden output_embedding_dimension).first_hidden_linear.U.rows
            = (if num_hidden = 0 then output_embedding_dimension else num_hidden).toNat
      ∧ (m.resize ngram_size input_vocab_size output_vocab_size input_embedding_dimension
          num_hidden output_embedding_dimension).second_hidden_linear.U.rows
            = (if num_hidden = 0 then 1 else output_embedding_dimension.toNat)
      ∧ (m.resize ngram_size input_vocab_size output_vocab_size input_embedding_dimension
          num_hidden output_embedding_dimension).second_hidden_linear.U.cols
            = (if num_hidden = 0 then 1 else num_hidden.toNat) := by
  by_cases h : num_hidden = 0
  · simp [model.resize, h, Input_word_embeddings.resize, Linear_layer.resize,
      Output_word_embeddings.resize, Mat.resize]
  · simp [model.resize, h, Input_word_embeddings.resize, Linear_layer.resize,
      Output_word_embeddings.resize, Mat.resize]

/-- A model that `model::resize` returns is resized. -/
theorem resize_resized (m : model R) (ngram_size input_vocab_size output_vocab_size
    input_embedding_dimension num_hidden output_embedding_dimension : Int) :
    (m.resize ngram_size input_vocab_size output_vocab_size input_embedding_dimension
      num_hidden output_embedding_dimension).Resized := by
  by_cases h : num_hidden = 0
  · simp [model.Resized, model.resize, h, Input_word_embeddings.resize, Linear_layer.resize,
      Output_word_embeddings.resize, Mat.resize]
  · simp [model.Resized, model.resize, h, Input_word_embeddings.resize, Linear_layer.resize,
      Output_word_embeddings.resize, Mat.resize]

/-- The loop of `premultiply` writes coefficients only: the dimensions of the matrix stay. -/
theorem premultiply_fold_dims [Semiring R] (m : model R) (U U0 : Mat R) (c : Nat) :
    ((List.range c).foldl (premultiplyStep m U) U0).rows = U0.rows
      ∧ ((List.range c).foldl (premultiplyStep m U) U0).cols = U0.cols := by
  induction c with
  | zero => exact ⟨rfl, rfl⟩
  | succ c ih =>
    rw [List.range_succ, List.foldl_append]
    exact ih

/-- Claim C12 (dimensions after premultiply).  For every resized model, after
`model::premultiply` the first-stage weight matrix has `input_vocab_size*(ngram_size-1)`
columns and the number of rows it had before (`num_hidden`, or `output_embedding_dimension`
when `num_hidden = 0`), the embedding table is `1 x 1`, `premultiplied` is true, and the six
topology integers are unchanged.  The flag of the model before the call plays no part. -/
theorem premultiply_dimensions [Semiring R] (m : model R) (hres : m.Resized) :
    m.premultiply.first_hidden_linear.U.cols = (m.input_vocab_size * (m.ngram_size - 1)).toNat
      ∧ m.premultiply.first_hidden_linear.U.rows = m.first_hidden_linear.U.rows
      ∧ m.premultiply.first_hidden_linear.U.rows
          = (if m.num_hidden = 0 then m.output_embedding_dimension else m.num_hidden).toNat
      ∧ m.premultiply.input_layer.W.rows = 1 ∧ m.premultiply.input_layer.W.cols = 1
      ∧ m.premultiply.premultiplied = true
      ∧ SameTopology m.premultiply m := by
  obtain ⟨_, _, hrows, _⟩ := hres
  have hdims := premultiply_fold_dims m m.first_hidden_linear.U
    (if m.num_hidden = 0 then
      m.first_hidden_linear.U.resize m.output_embedding_dimension.toNat
        (m.input_vocab_size * (m.ngram_size - 1)).toNat
    else
      m.first_hidden_linear.U.resize m.num_hidden.toNat
        (m.input_vocab_size * (m.ngram_size - 1)).toNat) (m.ngram_size - 1).toNat
  have hc : m.premultiply.first_hidden_linear.U.cols
      = (m.input_vocab_size * (m.ngram_size - 1)).toNat := by
    show Mat.cols (List.foldl (premultiplyStep m m.first_hidden_linear.U) _ _) = _
    rw [hdims.2]
    split <;> rfl
  have hr : m.premultiply.first_hidden_linear.U.rows
      = (if m.num_hidden = 0 then m.output_embedding_dimension else m.num_hidden).toNat := by
    show Mat.rows (List.foldl (premultiplyStep m m.first_hidden_linear.U) _ _) = _
    rw [hdims.1]
    split <;> rfl
  exact ⟨hc, by rw [hr, hrows], hr, rfl, rfl, rfl, rfl, rfl, rfl, rfl, rfl, rfl⟩

/-- Instance of `premultiply_dimensions` at `exampleModel Int`, which is resized: after
`premultiply` the first-stage matrix is `1 x 4`. -/
theorem premultiply_dimensions_witness :
    (exampleModel Int).Resized
      ∧ (exampleModel Int).premultiply.first_hidden_linear.U.cols = 4
      ∧ (exampleModel Int).premultiply.first_hidden_linear.U.rows = 1 := by
  have hres : (exampleModel Int).Resized := by
    unfold model.Resized
    decide
  have h := premultiply_dimensions (exampleModel Int) hres
  exact ⟨hres, h.1, h.2.1⟩

/-- The second of two calls of `model::premultiply` multiplies by the embedding table again:
on `tinyModel Int` the flag is true after the first call, and the second call turns the
first-stage weight `3 * 2 = 6` into `6 * 2 = 12`. -/
theorem model_premultiply_twice_counterexample :
    (tinyModel Int).premultiply.premultiplied = true
      ∧ (tinyModel Int).premultiply.first_hidden_linear.U.coeff 0 0 = 6
      ∧ (tinyModel Int).premultiply.premultiply.first_hidden_linear.U.coeff 0 0 = 12
      ∧ (tinyModel Int).premultiply.premultiply.first_hidden_linear.U
          ≠ (tinyModel Int).premultiply.first_hidden_linear.U := by
  refine ⟨rfl, by decide, by decide, ?_⟩
  intro h
  have h2 : (tinyModel Int).premultiply.premultiply.first_hidden_linear.U.coeff 0 0
      = (tinyModel Int).premultiply.first_hidden_linear.U.coeff 0 0 := by rw [h]
  revert h2
  decide

/-- Claim C13, amended (premultiply is a no-op on a premultiplied model).  The guard is in
`neuralNetwork::premultiply`: for every scorer whose model has the flag `premultiplied` set,
it leaves the scorer, and with it the first-stage weight matrix, the embedding table and the
flag of the model, unchanged; and for every scorer, applying it twice gives what applying it
once gives. -/
theorem scorer_premultiply_noop [Semiring R] (nn : neuralNetwork R) :
    (nn.m.premultiplied = true → nn.premultiply = nn)
      ∧ nn.premultiply.premultiply = nn.premultiply := by
  have h1 : ∀ n : neuralNetwork R, n.m.premultiplied = true → n.premultiply = n := by
    intro n h
    simp [neuralNetwork.premultiply, h]
  refine ⟨h1 nn, ?_⟩
  by_cases h : nn.m.premultiplied = true
  · rw [h1 nn h, h1 nn h]
  · have hf : nn.m.premultiplied = false := by simpa using h
    have hflag : nn.premultiply.m.premultiplied = true := by
      simp [neuralNetwork.premultiply, hf, model.premultiply]
    exact h1 _ hflag

/-- Instance of `scorer_premultiply_noop`: a scorer over the premultiplied `tinyModel Int`
keeps the first-stage weight `6` through `neuralNetwork::premultiply`. -/
theorem scorer_premultiply_noop_witness :
    ({ exampleScorer Int with m := (tinyModel Int).premultiply } : neuralNetwork Int).m.premultiplied
        = true
      ∧ ({ exampleScorer Int with m := (tinyModel Int).premultiply } :
          neuralNetwork Int).premultiply.m.first_hidden_linear.U.coeff 0 0 = 6 := by
  have h := (scorer_premultiply_noop
    ({ exampleScorer Int with m := (tinyModel Int).premultiply } : neuralNetwork Int)).1 rfl
  refine ⟨rfl, ?_⟩
  rw [h]
  decide

end ResizeTheorems

section VocabSizeTheorems

variable {R : Type}

/-- What one config line with at least two fields does to the two vocabulary sizes of the
model, when the body of the loop goes through. -/
theorem readConfigLine_pair_vocab (env : FileCollaborators R) (cs cs1 : ConfigState R)
    (line key value : Line) (more : List Line)
    (hs : env.splitBySpace line = key :: value :: more)
    (h : readConfigLine env cs line = .ok cs1) :
    cs1.m.input_vocab_size
        = (if key = keyVocabSize ∨ key = keyInputVocabSize then
            (env.lexical_cast_int value).getD 0 else cs.m.input_vocab_size)
      ∧ cs1.m.output_vocab_size
        = (if key = keyVocabSize ∨ key = keyOutputVocabSize then
            (env.lexical_cast_int value).getD 0 else cs.m.output_vocab_size) := by
  unfold readConfigLine at h
  rw [hs] at h
  simp only at h
  by_cases h0 : key = keyNgramSize
  · subst h0
    rw [if_pos rfl] at h
    cases hc : env.lexical_cast_int value with
    | none => rw [hc] at h; cases h
    | some v =>
      rw [hc] at h
      simp only [Except.ok.injEq] at h
      subst h
      refine ⟨?_, ?_⟩
      · rw [if_neg (by decide)]
      · rw [if_neg (by decide)]
  rw [if_neg h0] at h
  by_cases h1 : key = keyVocabSize
  · subst h1
    rw [if_pos rfl] at h
    cases hc : env.lexical_cast_int value with
    | none => rw [hc] at h; cases h
    | some v =>
      rw [hc] at h
      simp only [Except.ok.injEq] at h
      subst h
      refine ⟨?_, ?_⟩
      · rw [if_pos (Or.inl rfl)]; rfl
      · rw [if_pos (Or.inl rfl)]; rfl
  rw [if_neg h1] at h
  by_cases h2 : key = keyInputVocabSize
  · subst h2
    rw [if_pos rfl] at h
    cases hc : env.lexical_cast_int value with
    | none => rw [hc] at h; cases h
    | some v =>
      rw [hc] at h
      simp only [Except.ok.injEq] at h
      subst h
      refine ⟨?_, ?_⟩
      · rw [if_pos (Or.inr rfl)]; rfl
      · rw [if_neg (by decide)]
  rw [if_neg h2] at h
  by_cases h3 : key = keyOutputVocabSize
  · subst h3
    rw [if_pos rfl] at h
    cases hc : env.lexical_cast_int value with
    | none => rw [hc] at h; cases h
    | some v =>
      rw [hc] at h
      simp only [Except.ok.injEq] at h
      subst h
      refine ⟨?_, ?_⟩
      · rw [if_neg (by decide)]
      · rw [if_pos (Or.inr rfl)]; rfl
  rw [if_neg h3] at h
  by_cases h4 : key = keyInputEmbeddingDimension
  · subst h4
    rw [if_pos rfl] at h
    cases hc : env.lexical_cast_int value with
    | none => rw [hc] at h; cases h
    | some v =>
      rw [hc] at h
      simp only [Except.ok.injEq] at h
      subst h
      refine ⟨?_, ?_⟩
      · rw [if_neg (by decide)]
      · rw [if_neg (by decide)]
  rw [if_neg h4] at h
  by_cases h5 : key = keyNumHidden
  · subst h5
    rw [if_pos rfl] at h
    cases hc : env.lexical_cast_int value with
    | none => rw [hc] at h; cases h
    | some v =>
      rw [hc] at h
      simp only [Except.ok.injEq] at h
      subst h
      refine ⟨?_, ?_⟩
      · rw [if_neg (by decide)]
      · rw [if_neg (by decide)]
  rw [if_neg h5] at h
  by_cases h6 : key = keyOutputEmbeddingDimension
  · subst h6
    rw [if_pos rfl] at h
    cases hc : env.lexical_cast_int value with
    | none => rw [hc] at h; cases h
    | some v =>
      rw [hc] at h
      simp only [Except.ok.injEq] at h
      subst h
      refine ⟨?_, ?_⟩
      · rw [if_neg (by decide)]
      · rw [if_neg (by decide)]
  rw [if_neg h6] at h
  by_cases h7 : key = keyActivationFunction
  · subst h7
    rw [if_pos rfl] at h
    simp only [Except.ok.injEq] at h
    subst h
    refine ⟨?_, ?_⟩
    · rw [if_neg (by decide)]
    · rw [if_neg (by decide)]
  rw [if_neg h7] at h
  by_cases h8 : key = keyVersion
  · subst h8
    rw [if_pos rfl] at h
    cases hc : env.lexical_cast_int value with
    | none => rw [hc] at h; cases h
    | some v =>
      rw [hc] at h
      by_cases hv : v ≠ 1
      · simp only [hv, ne_eq, not_false_eq_true, if_true] at h
        cases h
      · simp only [hv, if_false, Except.ok.injEq] at h
        subst h
        refine ⟨?_, ?_⟩
        · rw [if_neg (by decide)]
        · rw [if_neg (by decide)]
  rw [if_neg h8] at h
  simp only [Except.ok.injEq] at h
  subst h
  refine ⟨?_, ?_⟩
  · rw [if_neg (by tauto)]
  · rw [if_neg (by tauto)]

/-- A config line that is not a vocabulary-size line keeps both vocabulary sizes. -/
theorem readConfigLine_keeps_vocab (env : FileCollaborators R) (cs cs1 : ConfigState R)
    (line : Line) (hno : NoVocabSizeKey env line) (h : readConfigLine env cs line = .ok cs1) :
    cs1.m.input_vocab_size = cs.m.input_vocab_size
      ∧ cs1.m.output_vocab_size = cs.m.output_vocab_size := by
  obtain ⟨hv, hi, ho⟩ := hno
  unfold configKey at hv hi ho
  cases hs : env.splitBySpace line with
  | nil =>
    unfold readConfigLine at h
    rw [hs] at h
    cases h
  | cons key t =>
    rw [hs] at hv hi ho
    simp only [List.head?_cons, ne_eq, Option.some.injEq] at hv hi ho
    cases t with
    | nil =>
      unfold readConfigLine at h
      rw [hs] at h
      simp only at h
      split at h
      · cases h
      · simp only [Except.ok.injEq] at h
        subst h
        exact ⟨rfl, rfl⟩
    | cons value more =>
      obtain ⟨h1, h2⟩ := readConfigLine_pair_vocab env cs cs1 line key value more hs h
      rw [if_neg (by tauto)] at h1 h2
      exact ⟨h1, h2⟩

/-- The config section of a stream that starts with a non-empty line. -/
theorem configSection_cons (line : Line) (file : Stream) (hne : line ≠ []) :
    configSection (line :: file) = line :: configSection file := by
  simp [configSection, hne]

/-- The config section of a stream that starts with the empty line is empty. -/
theorem configSection_blank (file : Stream) : configSection ([] :: file) = [] := by
  simp [configSection]

/-- A config section without vocabulary-size lines keeps both vocabulary sizes. -/
theorem readConfigLoop_keeps_vocab (env : FileCollaborators R) (file : Stream)
    (cs cs1 : ConfigState R) (rest : Stream)
    (hno : ∀ l ∈ configSection file, NoVocabSizeKey env l)
    (h : readConfigLoop env cs file = .ok (cs1, rest)) :
    cs1.m.input_vocab_size = cs.m.input_vocab_size
      ∧ cs1.m.output_vocab_size = cs.m.output_vocab_size := by
  induction file generalizing cs with
  | nil =>
    simp only [readConfigLoop, Except.ok.injEq, Prod.mk.injEq] at h
    rw [← h.1]
    exact ⟨rfl, rfl⟩
  | cons line file ih =>
    unfold readConfigLoop at h
    by_cases hb : line = []
    · rw [if_pos hb] at h
      simp only [Except.ok.injEq, Prod.mk.injEq] at h
      rw [← h.1]
      exact ⟨rfl, rfl⟩
    · rw [if_neg hb] at h
      rw [configSection_cons line file hb] at hno
      cases hl : readConfigLine env cs line with
      | error f => rw [hl] at h; cases h
      | ok cs2 =>
        rw [hl] at h
        obtain ⟨h1, h2⟩ := readConfigLine_keeps_vocab env cs cs2 line
          (hno line (List.mem_cons_self _ _)) hl
        obtain ⟨h3, h4⟩ := ih cs2 (fun l hl2 => hno l (List.mem_cons_of_mem _ hl2)) h
        exact ⟨h3.trans h1, h4.trans h2⟩

/-- A run of the loop of `readConfig` that returns, cut at a line of the section: the lines
before it lead to a state `cs2`, the body of the loop takes the line from `cs2` to `cs3`, and
the loop finishes from `cs3` on the lines after it.  If no line before it is a
vocabulary-size line, `cs2` has the vocabulary sizes of the start. -/
theorem readConfigLoop_split (env : FileCollaborators R) (pre : List Line) (line : Line)
    (post : List Line) (file : Stream) (cs cs1 : ConfigState R) (rest : Stream)
    (hsec : configSection file = pre ++ line :: post)
    (h : readConfigLoop env cs file = .ok (cs1, rest)) :
    ∃ cs2 cs3 file3, readConfigLine env cs2 line = .ok cs3
      ∧ readConfigLoop env cs3 file3 = .ok (cs1, rest)
      ∧ configSection file3 = post
      ∧ ((∀ l ∈ pre, NoVocabSizeKey env l) →
          cs2.m.input_vocab_size = cs.m.input_vocab_size
            ∧ cs2.m.output_vocab_size = cs.m.output_vocab_size) := by
  induction pre generalizing cs file with
  | nil =>
    cases file with
    | nil => simp [configSection] at hsec
    | cons l file =>
      by_cases hb : l = []
      · subst hb
        rw [configSection_blank] at hsec
        simp at hsec
      · rw [configSection_cons l file hb] at hsec
        simp only [List.nil_append, List.cons.injEq] at hsec
        obtain ⟨hl, hpost⟩ := hsec
        subst hl
        unfold readConfigLoop at h
        rw [if_neg hb] at h
        cases hl : readConfigLine env cs l with
        | error f => rw [hl] at h; cases h
        | ok cs3 =>
          rw [hl] at h
          exact ⟨cs, cs3, file, hl, h, hpost, fun _ => ⟨rfl, rfl⟩⟩
  | cons p pre ih =>
    cases file with
    | nil => simp [configSection] at hsec
    | cons l file =>
      by_cases hb : l = []
      · subst hb
        rw [configSection_blank] at hsec
        simp at hsec
      · rw [configSection_cons l file hb] at hsec
        simp only [List.cons_append, List.cons.injEq] at hsec
        obtain ⟨hl, hpost⟩ := hsec
        subst hl
        unfold readConfigLoop at h
        rw [if_neg hb] at h
        cases hl : readConfigLine env cs l with
        | error f => rw [hl] at h; cases h
        | ok csn =>
          rw [hl] at h
          obtain ⟨cs2, cs3, file3, hline, hloop, hsec3, hkeep⟩ := ih file csn hpost h
          refine ⟨cs2, cs3, file3, hline, hloop, hsec3, fun hno => ?_⟩
          obtain ⟨h1, h2⟩ := readConfigLine_keeps_vocab env cs csn l
            (hno l (List.mem_cons_self _ _)) hl
          obtain ⟨h3, h4⟩ := hkeep (fun x hx => hno x (List.mem_cons_of_mem _ hx))
          exact ⟨h3.trans h1, h4.trans h2⟩

/-- The model that `readConfig` returns is the model of the state in which its loop ended,
resized with the locals and the two vocabulary sizes of that state. -/
theorem readConfig_ok_vocab (env : FileCollaborators R) (uninit : ConfigLocals) (m m1 : model R)
    (config_file : Stream) (cerr : List Line) (rest : Stream)
    (hok : m.readConfig env uninit config_file = .ok (m1, cerr, rest)) :
    ∃ cs1, readConfigLoop env
        { m := m, locals := uninit, activation_function := m.activation_function, cerr := [] }
        config_file = .ok (cs1, rest)
      ∧ m1 = (cs1.m.resize cs1.locals.ngram_size cs1.m.input_vocab_size
          cs1.m.output_vocab_size cs1.locals.input_embedding_dimension cs1.locals.num_hidden
          cs1.locals.output_embedding_dimension).set_activation_function
            cs1.activation_function := by
  unfold model.readConfig at hok
  cases hloop : readConfigLoop env
      { m := m, locals := uninit, activation_function := m.activation_function, cerr := [] }
      config_file with
  | error f => rw [hloop] at hok; cases hok
  | ok r =>
    obtain ⟨cs1, rest1⟩ := r
    rw [hloop] at hok
    simp only [Except.ok.injEq, Prod.mk.injEq] at hok
    obtain ⟨hm, _, hrest⟩ := hok
    subst hm hrest
    exact ⟨cs1, rfl, rfl⟩

/-- Claim C14 (`vocab_size` sets both vocabulary sizes).  Let the config section hold a line
`vocab_size N`.  Whenever `readConfig` returns, it has resized the model with
`input_vocab_size = N` and `output_vocab_size = N` if no vocabulary-size line follows that
line: the two members are `N`, the embedding table has `N` rows and the output layer has `N`
rows.  If the only vocabulary-size line that follows is `input_vocab_size M`, the model is
resized with `input_vocab_size = M` and still `output_vocab_size = N`, and likewise
`output_vocab_size M` changes the output size only.  `readConfig` does return when the lines
of the section are well formed and none is a `version` line with a value other than `1`. -/
theorem readConfig_vocab_size (env : FileCollaborators R) (uninit : ConfigLocals) (m : model R)
    (config_file : Stream) (pre : List Line) (line : Line) (post : List Line) (N : Int)
    (hsec : configSection config_file = pre ++ line :: post)
    (hline : ConfigLineSets env line keyVocabSize N) :
    (∀ m1 cerr rest, m.readConfig env uninit config_file = .ok (m1, cerr, rest) →
        ((∀ l ∈ post, NoVocabSizeKey env l) → m1.ResizedWithVocab N N)
          ∧ (∀ mid l2 post2 M, post = mid ++ l2 :: post2 →
              (∀ l ∈ mid, NoVocabSizeKey env l) → (∀ l ∈ post2, NoVocabSizeKey env l) →
              (ConfigLineSets env l2 keyInputVocabSize M → m1.ResizedWithVocab M N)
                ∧ (ConfigLineSets env l2 keyOutputVocabSize M → m1.ResizedWithVocab N M)))
      ∧ ((∀ l ∈ configSection config_file, WellFormedConfigLine env l) →
          (¬ ∃ l ∈ configSection config_file, BadVersionLine env l) →
          ∃ r, m.readConfig env uninit config_file = .ok r) := by
  constructor
  · intro m1 cerr rest hok
    obtain ⟨cs1, hloop, hm1⟩ := readConfig_ok_vocab env uninit m m1 config_file cerr rest hok
    have hres : m1.ResizedWithVocab cs1.m.input_vocab_size cs1.m.output_vocab_size := by
      rw [hm1]
      by_cases h : cs1.locals.num_hidden = 0
      · simp [model.ResizedWithVocab, model.set_activation_function, model.resize, h,
          Input_word_embeddings.resize, Output_word_embeddings.resize, Mat.resize]
      · simp [model.ResizedWithVocab, model.set_activation_function, model.resize, h,
          Input_word_embeddings.resize, Output_word_embeddings.resize, Mat.resize]
    obtain ⟨cs2, cs3, file3, hl, hloop3, hsec3, _⟩ :=
      readConfigLoop_split env pre line post config_file _ cs1 rest hsec hloop
    obtain ⟨value, more, hs, hc⟩ := hline
    obtain ⟨h1, h2⟩ := readConfigLine_pair_vocab env cs2 cs3 line keyVocabSize value more hs hl
    rw [if_pos (Or.inl rfl), hc] at h1 h2
    simp only [Option.getD_some] at h1 h2
    constructor
    · intro hno
      rw [← hsec3] at hno
      obtain ⟨h3, h4⟩ := readConfigLoop_keeps_vocab env file3 cs3 cs1 rest hno hloop3
      have e1 : cs1.m.input_vocab_size = N := by rw [h3, h1]
      have e2 : cs1.m.output_vocab_size = N := by rw [h4, h2]
      rw [e1, e2] at hres
      exact hres
    · intro mid l2 post2 M hpost hmid hpost2
      rw [← hsec3] at hpost
      obtain ⟨cs4, cs5, file5, hl2, hloop5, hsec5, hkeep⟩ :=
        readConfigLoop_split env mid l2 post2 file3 cs3 cs1 rest hpost hloop3
      obtain ⟨h5, h6⟩ := hkeep hmid
      rw [← hsec5] at hpost2
      obtain ⟨h7, h8⟩ := readConfigLoop_keeps_vocab env file5 cs5 cs1 rest hpost2 hloop5
      constructor
      · rintro ⟨value2, more2, hs2, hc2⟩
        obtain ⟨h9, h10⟩ :=
          readConfigLine_pair_vocab env cs4 cs5 l2 keyInputVocabSize value2 more2 hs2 hl2
        rw [if_pos (Or.inr rfl), hc2] at h9
        rw [if_neg (by decide)] at h10
        simp only [Option.getD_some] at h9
        have e1 : cs1.m.input_vocab_size = M := by rw [h7, h9]
        have e2 : cs1.m.output_vocab_size = N := by rw [h8, h10, h6, h2]
        rw [e1, e2] at hres
        exact hres
      · rintro ⟨value2, more2, hs2, hc2⟩
        obtain ⟨h9, h10⟩ :=
          readConfigLine_pair_vocab env cs4 cs5 l2 keyOutputVocabSize value2 more2 hs2 hl2
        rw [if_neg (by decide)] at h9
        rw [if_pos (Or.inr rfl), hc2] at h10
        simp only [Option.getD_some] at h10
        have e1 : cs1.m.input_vocab_size = N := by rw [h7, h9, h5, h1]
        have e2 : cs1.m.output_vocab_size = M := by rw [h8, h10]
        rw [e1, e2] at hres
        exact hres
  · intro hwf hnobad
    obtain ⟨r, hr⟩ := (readConfigLoop_fatal_iff env config_file
      { m := m, locals := uninit, activation_function := m.activation_function, cerr := [] }
      hwf).2 hnobad
    unfold model.readConfig
    rw [hr]
    exact ⟨_, rfl⟩

/-- Instance of `readConfig_vocab_size`: on the section `ngram_size 3`, `vocab_size 5`,
`input_vocab_size 7`, `readConfig` returns a model with input vocabulary size `7` and output
vocabulary size `5`, whose embedding table has `7` rows and whose output layer has `5` rows
(`exampleModel Int` had `2` and `3`). -/
theorem readConfig_vocab_size_witness :
    configSection ["ngram_size 3".toList, "vocab_size 5".toList, "input_vocab_size 7".toList, []]
        = ["ngram_size 3".toList] ++ "vocab_size 5".toList :: ["input_vocab_size 7".toList]
      ∧ ConfigLineSets (exampleFileCollaborators Int) "vocab_size 5".toList keyVocabSize 5
      ∧ ∃ m1 cerr rest, (exampleModel Int).readConfig (exampleFileCollaborators Int) ⟨0, 0, 0, 0⟩
            ["ngram_size 3".toList, "vocab_size 5".toList, "input_vocab_size 7".toList, []]
          = .ok (m1, cerr, rest)
        ∧ m1.input_vocab_size = 7 ∧ m1.output_vocab_size = 5
        ∧ m1.input_layer.W.rows = 7 ∧ m1.output_layer.W.rows = 5
        ∧ (exampleModel Int).input_layer.W.rows = 2 ∧ (exampleModel Int).output_layer.W.rows = 3
        ∧ ((exampleModel Int).readConfig (exampleFileCollaborators Int) ⟨0, 0, 0, 0⟩
            ["ngram_size 3".toList, "vocab_size 5".toList, "input_vocab_size 7".toList,
              []]).toOption.map
              (fun r => (r.1.input_vocab_size, r.1.output_vocab_size,
                r.1.input_layer.W.rows, r.1.output_layer.W.rows))
            = some (7, 5, 7, 5) := by
  have hsec : configSection ["ngram_size 3".toList, "vocab_size 5".toList,
      "input_vocab_size 7".toList, []]
      = ["ngram_size 3".toList] ++ "vocab_size 5".toList :: ["input_vocab_size 7".toList] := by
    decide
  have hline : ConfigLineSets (exampleFileCollaborators Int) "vocab_size 5".toList
      keyVocabSize 5 := ⟨"5".toList, [], by decide, by decide⟩
  have hthm := readConfig_vocab_size (exampleFileCollaborators Int) ⟨0, 0, 0, 0⟩
    (exampleModel Int) _ _ _ _ 5 hsec hline
  have hwf : ∀ l ∈ configSection ["ngram_size 3".toList, "vocab_size 5".toList,
      "input_vocab_size 7".toList, []],
      WellFormedConfigLine (exampleFileCollaborators Int) l := by
    rw [hsec]
    intro l hl
    simp only [List.singleton_append, List.mem_cons, List.mem_singleton, List.not_mem_nil,
      or_false] at hl
    rcases hl with rfl | rfl | rfl
    · exact wellFormed_of_integer_pair _ _ keyNgramSize "3".toList 3 (by decide) (by decide)
    · exact wellFormed_of_integer_pair _ _ keyVocabSize "5".toList 5 (by decide) (by decide)
    · exact wellFormed_of_integer_pair _ _ keyInputVocabSize "7".toList 7 (by decide)
        (by decide)
  have hnobad : ¬ ∃ l ∈ configSection ["ngram_size 3".toList, "vocab_size 5".toList,
      "input_vocab_size 7".toList, []],
      BadVersionLine (exampleFileCollaborators Int) l := by
    rw [hsec]
    rintro ⟨l, hl, value, v, hs, _, _⟩
    have hk : configKey (exampleFileCollaborators Int) l = some keyVersion := by
      unfold configKey
      rw [hs]
      rfl
    clear hs
    simp only [List.singleton_append, List.mem_cons, List.mem_singleton, List.not_mem_nil,
      or_false] at hl
    rcases hl with rfl | rfl | rfl <;> revert hk <;> decide
  obtain ⟨⟨m1, cerr, rest⟩, hr⟩ := hthm.2 hwf hnobad
  have hover := ((hthm.1 m1 cerr rest hr).2 [] "input_vocab_size 7".toList [] 7 rfl
    (by simp) (by simp)).1 ⟨"7".toList, [], by decide, by decide⟩
  exact ⟨hsec, hline, m1, cerr, rest, hr, hover.1, hover.2.1, hover.2.2.1, hover.2.2.2.2.1,
    rfl, rfl, by decide⟩

end VocabSizeTheorems

section UnrecognizedKeyTheorems

variable {R : Type}

/-- The body of the loop of `readConfig` does not read what was written to `cerr`: from two
states that differ in `cerr` only, it fails alike or returns states that differ in `cerr`
only. -/
theorem readConfigLine_core_map (env : FileCollaborators R) (cs cs2 : ConfigState R)
    (line : Line) (hcore : cs.core = cs2.core) :
    (readConfigLine env cs line).map ConfigState.core
      = (readConfigLine env cs2 line).map ConfigState.core := by
  obtain ⟨m, locals, af, cerr⟩ := cs
  obtain ⟨m2, locals2, af2, cerr2⟩ := cs2
  simp only [ConfigState.core, Prod.mk.injEq] at hcore
  obtain ⟨hm, hl, ha⟩ := hcore
  subst hm hl ha
  unfold readConfigLine
  cases env.splitBySpace line with
  | nil => rfl
  | cons key t =>
    cases t with
    | nil =>
      simp only
      split <;> rfl
    | cons value more =>
      simp only
      by_cases h0 : key = keyNgramSize
      · simp only [if_pos h0]
        cases env.lexical_cast_int value <;> rfl
      simp only [if_neg h0]
      by_cases h1 : key = keyVocabSize
      · simp only [if_pos h1]
        cases env.lexical_cast_int value <;> rfl
      simp only [if_neg h1]
      by_cases h2 : key = keyInputVocabSize
      · simp only [if_pos h2]
        cases env.lexical_cast_int value <;> rfl
      simp only [if_neg h2]
      by_cases h3 : key = keyOutputVocabSize
      · simp only [if_pos h3]
        cases env.lexical_cast_int value <;> rfl
      simp only [if_neg h3]
      by_cases h4 : key = keyInputEmbeddingDimension
      · simp only [if_pos h4]
        cases env.lexical_cast_int value <;> rfl
      simp only [if_neg h4]
      by_cases h5 : key = keyNumHidden
      · simp only [if_pos h5]
        cases env.lexical_cast_int value <;> rfl
      simp only [if_neg h5]
      by_cases h6 : key = keyOutputEmbeddingDimension
      · simp only [if_pos h6]
        cases env.lexical_cast_int value <;> rfl
      simp only [if_neg h6]
      by_cases h7 : key = keyActivationFunction
      · simp only [if_pos h7]
        rfl
      simp only [if_neg h7]
      by_cases h8 : key = keyVersion
      · simp only [if_pos h8]
        cases env.lexical_cast_int value with
        | none => rfl
        | some v =>
          by_cases hv : v ≠ 1
          · simp only [if_pos hv]
          · simp only [if_neg hv]
            rfl
      simp only [if_neg h8]
      rfl

/-- From two states that differ in `cerr` only, the body of the loop of `readConfig` fails
alike, or returns states that differ in `cerr` only. -/
theorem readConfigLine_core (env : FileCollaborators R) (cs cs2 : ConfigState R)
    (line : Line) (hcore : cs.core = cs2.core) :
    (∀ f, readConfigLine env cs line = .error f → readConfigLine env cs2 line = .error f)
      ∧ (∀ cs1, readConfigLine env cs line = .ok cs1 →
          ∃ cs3, readConfigLine env cs2 line = .ok cs3 ∧ cs1.core = cs3.core) := by
  have h := readConfigLine_core_map env cs cs2 line hcore
  constructor
  · intro f hf
    rw [hf] at h
    cases h2 : readConfigLine env cs2 line with
    | error g =>
      rw [h2] at h
      simp only [Except.map, Except.error.injEq] at h
      rw [h]
    | ok x =>
      rw [h2] at h
      simp [Except.map] at h
  · intro cs1 hok
    rw [hok] at h
    cases h2 : readConfigLine env cs2 line with
    | error g =>
      rw [h2] at h
      simp [Except.map] at h
    | ok x =>
      rw [h2] at h
      simp only [Except.map, Except.ok.injEq] at h
      exact ⟨x, rfl, h⟩

/-- From two states that differ in `cerr` only, the loop of `readConfig` fails alike, or
returns states that differ in `cerr` only, with the same rest of the stream. -/
theorem readConfigLoop_core (env : FileCollaborators R) (file : Stream)
    (cs cs2 : ConfigState R) (hcore : cs.core = cs2.core) :
    (∀ f, readConfigLoop env cs file = .error f → readConfigLoop env cs2 file = .error f)
      ∧ (∀ cs1 rest, readConfigLoop env cs file = .ok (cs1, rest) →
          ∃ cs3, readConfigLoop env cs2 file = .ok (cs3, rest) ∧ cs1.core = cs3.core) := by
  induction file generalizing cs cs2 with
  | nil =>
    constructor
    · intro f hf
      simp [readConfigLoop] at hf
    · intro cs1 rest h
      simp only [readConfigLoop, Except.ok.injEq, Prod.mk.injEq] at h
      obtain ⟨h1, h2⟩ := h
      subst h1 h2
      exact ⟨cs2, rfl, hcore⟩
  | cons line file ih =>
    by_cases hb : line = []
    · subst hb
      constructor
      · intro f hf
        simp [readConfigLoop] at hf
      · intro cs1 rest h
        simp only [readConfigLoop, if_true, Except.ok.injEq, Prod.mk.injEq] at h
        obtain ⟨h1, h2⟩ := h
        subst h1 h2
        exact ⟨cs2, by simp [readConfigLoop], hcore⟩
    · obtain ⟨hline1, hline2⟩ := readConfigLine_core env cs cs2 line hcore
      unfold readConfigLoop
      rw [if_neg hb, if_neg hb]
      cases hl : readConfigLine env cs line with
      | error g =>
        rw [hline1 g hl]
        exact ⟨fun f hf => hf, fun cs1 rest h => by cases h⟩
      | ok csn =>
        obtain ⟨cs3, hl3, hc3⟩ := hline2 csn hl
        rw [hl3]
        exact ih csn cs3 hc3

/-- A line whose key is not recognised goes through the body of the loop of `readConfig`
and changes nothing but `cerr`, which receives the warning. -/
theorem readConfigLine_unrecognized (env : FileCollaborators R) (cs : ConfigState R)
    (line key : Line) (more : List Line) (hs : env.splitBySpace line = key :: more)
    (hkey : key ∉ recognisedKeys) :
    ∃ cs1, readConfigLine env cs line = .ok cs1 ∧ cs1.core = cs.core
      ∧ cs1.cerr = cs.cerr ++ ["warning: unrecognized field in config: ".toList ++ key] := by
  have hk : key ≠ keyNgramSize ∧ key ≠ keyVocabSize ∧ key ≠ keyInputVocabSize
      ∧ key ≠ keyOutputVocabSize ∧ key ≠ keyInputEmbeddingDimension ∧ key ≠ keyNumHidden
      ∧ key ≠ keyOutputEmbeddingDimension ∧ key ≠ keyActivationFunction
      ∧ key ≠ keyVersion := by
    simpa [recognisedKeys] using hkey
  unfold readConfigLine
  rw [hs]
  cases more with
  | nil =>
    simp only
    rw [if_neg (by tauto)]
    exact ⟨_, rfl, rfl, rfl⟩
  | cons value more =>
    simp only
    rw [if_neg hk.1, if_neg hk.2.1, if_neg hk.2.2.1, if_neg hk.2.2.2.1, if_neg hk.2.2.2.2.1, if_neg hk.2.2.2.2.2.1, if_neg hk.2.2.2.2.2.2.1, if_neg hk.2.2.2.2.2.2.2.1, if_neg hk.2.2.2.2.2.2.2.2]
    exact ⟨_, rfl, rfl, rfl⟩

/-- The loop of `readConfig` on a section with and without a line whose key is not
recognised: it fails alike, or returns states that differ in `cerr` only, with the same rest
of the stream. -/
theorem readConfigLoop_without_line (env : FileCollaborators R) (pre : List Line)
    (line key : Line) (more : List Line) (post : Stream)
    (hpre : ∀ l ∈ pre, l ≠ []) (hne : line ≠ [])
    (hs : env.splitBySpace line = key :: more) (hkey : key ∉ recognisedKeys)
    (cs cs2 : ConfigState R) (hcore : cs.core = cs2.core) :
    (∀ f, readConfigLoop env cs (pre ++ post) = .error f →
        readConfigLoop env cs2 (pre ++ line :: post) = .error f)
      ∧ (∀ cs1 rest, readConfigLoop env cs (pre ++ post) = .ok (cs1, rest) →
          ∃ cs3, readConfigLoop env cs2 (pre ++ line :: post) = .ok (cs3, rest)
            ∧ cs1.core = cs3.core) := by
  induction pre generalizing cs cs2 with
  | nil =>
    obtain ⟨c, hc, hcc, _⟩ := readConfigLine_unrecognized env cs2 line key more hs hkey
    have hstep : readConfigLoop env cs2 ([] ++ line :: post) = readConfigLoop env c post := by
      rw [List.nil_append, readConfigLoop, if_neg hne, hc]
    rw [hstep, List.nil_append]
    exact readConfigLoop_core env post cs c (by rw [hcore, hcc])
  | cons p pre ih =>
    have hp : p ≠ [] := hpre p (List.mem_cons_self _ _)
    have hpre2 : ∀ l ∈ pre, l ≠ [] := fun l hl => hpre l (List.mem_cons_of_mem _ hl)
    obtain ⟨hline1, hline2⟩ := readConfigLine_core env cs cs2 p hcore
    rw [List.cons_append, List.cons_append]
    unfold readConfigLoop
    rw [if_neg hp, if_neg hp]
    cases hl : readConfigLine env cs p with
    | error g =>
      rw [hline1 g hl]
      exact ⟨fun f hf => hf, fun cs1 rest h => by cases h⟩
    | ok csn =>
      obtain ⟨cs3, hl3, hc3⟩ := hline2 csn hl
      rw [hl3]
      exact ih hpre2 csn cs3 hc3

/-- Claim C15 (unrecognised config keys are tolerated).  Take a config section and a line of
it whose key is not one of the recognised keys.  `readConfig` fails on the section exactly
when it fails, in the same way, on the section with that line removed; and when it returns,
it returns the same model, so the same topology, and the same rest of the stream as on the
section with that line removed (the lines written to `cerr` differ by the warning). -/
theorem readConfig_unrecognized_key (env : FileCollaborators R) (uninit : ConfigLocals)
    (m : model R) (pre : List Line) (line key : Line) (more : List Line) (post : Stream)
    (hpre : ∀ l ∈ pre, l ≠ []) (hne : line ≠ [])
    (hs : env.splitBySpace line = key :: more) (hkey : key ∉ recognisedKeys) :
    (∀ f, m.readConfig env uninit (pre ++ line :: post) = .error f
        ↔ m.readConfig env uninit (pre ++ post) = .error f)
      ∧ (∀ m1 rest, (∃ cerr, m.readConfig env uninit (pre ++ line :: post) = .ok (m1, cerr, rest))
        ↔ (∃ cerr, m.readConfig env uninit (pre ++ post) = .ok (m1, cerr, rest))) := by
  obtain ⟨hfail, hok⟩ := readConfigLoop_without_line env pre line key more post hpre hne hs
    hkey { m := m, locals := uninit, activation_function := m.activation_function, cerr := [] }
    { m := m, locals := uninit, activation_function := m.activation_function, cerr := [] } rfl
  unfold model.readConfig
  cases hwithout : readConfigLoop env
      { m := m, locals := uninit, activation_function := m.activation_function, cerr := [] }
      (pre ++ post) with
  | error g =>
    rw [hfail g hwithout]
    exact ⟨fun f => Iff.rfl, fun m1 rest => Iff.rfl⟩
  | ok r =>
    obtain ⟨cs1, rest1⟩ := r
    obtain ⟨cs3, h3, hc3⟩ := hok cs1 rest1 hwithout
    rw [h3]
    simp only [ConfigState.core, Prod.mk.injEq] at hc3
    obtain ⟨hm, hl, ha⟩ := hc3
    simp only [hm, hl, ha]
    constructor
    · intro f
      constructor <;> intro h <;> cases h
    · intro m1 rest
      constructor
      · rintro ⟨cerr, h⟩
        simp only [Except.ok.injEq, Prod.mk.injEq] at h
        exact ⟨cs1.cerr, by rw [← h.1, ← h.2.2]⟩
      · rintro ⟨cerr, h⟩
        simp only [Except.ok.injEq, Prod.mk.injEq] at h
        exact ⟨cs3.cerr, by rw [← h.1, ← h.2.2]⟩

/-- Instance of `readConfig_unrecognized_key`: the line `colour 3` between `ngram_size 3`
and `num_hidden 5` has a key that is not recognised, and `readConfig` returns on the section
with it the model (here its `ngram_size`) that it returns on the section without it. -/
theorem readConfig_unrecognized_key_witness :
    (∀ l ∈ ["ngram_size 3".toList], l ≠ []) ∧ "colour 3".toList ≠ []
      ∧ (exampleFileCollaborators Int).splitBySpace "colour 3".toList
          = "colour".toList :: ["3".toList]
      ∧ "colour".toList ∉ (recognisedKeys)
      ∧ ∃ m1 rest,
          (∃ cerr, (exampleModel Int).readConfig (exampleFileCollaborators Int) ⟨0, 0, 0, 0⟩
            (["ngram_size 3".toList] ++ ["num_hidden 5".toList, []]) = .ok (m1, cerr, rest))
          ∧ (∃ cerr, (exampleModel Int).readConfig (exampleFileCollaborators Int) ⟨0, 0, 0, 0⟩
            (["ngram_size 3".toList] ++ "colour 3".toList :: ["num_hidden 5".toList, []])
              = .ok (m1, cerr, rest))
          ∧ m1.ngram_size = 3 ∧ m1.num_hidden = 5 := by
  have hpre : ∀ l ∈ ["ngram_size 3".toList], l ≠ [] := by decide
  have hne : "colour 3".toList ≠ [] := by decide
  have hs : (exampleFileCollaborators Int).splitBySpace "colour 3".toList
      = "colour".toList :: ["3".toList] := by decide
  have hkey : "colour".toList ∉ (recognisedKeys) := by decide
  have hthm := readConfig_unrecognized_key (exampleFileCollaborators Int) ⟨0, 0, 0, 0⟩
    (exampleModel Int) ["ngram_size 3".toList] "colour 3".toList "colour".toList ["3".toList]
    ["num_hidden 5".toList, []] hpre hne hs hkey
  have hwithout : ∃ m1 cerr rest, (exampleModel Int).readConfig (exampleFileCollaborators Int)
      ⟨0, 0, 0, 0⟩ (["ngram_size 3".toList] ++ ["num_hidden 5".toList, []])
        = .ok (m1, cerr, rest) ∧ m1.ngram_size = 3 ∧ m1.num_hidden = 5 :=
    ⟨_, _, _, rfl, rfl, rfl⟩
  obtain ⟨m1, cerr, rest, h1, h2, h3⟩ := hwithout
  exact ⟨hpre, hne, hs, hkey, m1, rest, ⟨cerr, h1⟩, (hthm.2 m1 rest).mpr ⟨cerr, h1⟩, h2, h3⟩

end UnrecognizedKeyTheorems

section BatchTheorems

variable {R A : Type} [Mul R]

/-- Claim C16 (the batch lookup and the cache).  For every batch of n-grams and every scorer,
whatever its normalization setting, the batch `lookup_ngram` leaves the scorer, and with it
the cache keys, the cache values, `cache_lookups` and `cache_hits`, unchanged; and the
results it writes are the same whatever the capacity, the keys, the values and the counters
of the cache are. -/
theorem batch_lookup_leaves_cache (env : BatchCollaborators R A) (nn : neuralNetwork R)
    (ngram : List (List Int)) (log_probs : List R) :
    (nn.lookup_ngram_batch env ngram log_probs).nn = nn
      ∧ (nn.lookup_ngram_batch env ngram log_probs).nn.cache_keys = nn.cache_keys
      ∧ (nn.lookup_ngram_batch env ngram log_probs).nn.cache_values = nn.cache_values
      ∧ (nn.lookup_ngram_batch env ngram log_probs).nn.cache_lookups = nn.cache_lookups
      ∧ (nn.lookup_ngram_batch env ngram log_probs).nn.cache_hits = nn.cache_hits
      ∧ ∀ (size : Nat) (keys : List (List Int)) (values : List R) (lookups hits : Int),
          (({ nn with cache_size := size, cache_keys := keys, cache_values := values,
                      cache_lookups := lookups, cache_hits := hits } :
              neuralNetwork R).lookup_ngram_batch env ngram log_probs).log_probs
            = (nn.lookup_ngram_batch env ngram log_probs).log_probs := by
  have hnn : (nn.lookup_ngram_batch env ngram log_probs).nn = nn := by
    unfold neuralNetwork.lookup_ngram_batch
    cases env.fProp nn.m ngram with
    | none => rfl
    | some prop =>
      simp only
      split <;> rfl
  refine ⟨hnn, by rw [hnn], by rw [hnn], by rw [hnn], by rw [hnn], ?_⟩
  intro size keys values lookups hits
  unfold neuralNetwork.lookup_ngram_batch
  cases env.fProp nn.m ngram with
  | none => rfl
  | some prop =>
    simp only
    split <;> rfl

/-- The batch lookup on `exampleBatchCollaborators Int`, without normalization: the two
trigrams `[1, 2, 0]` and `[0, 1, 2]` score `1 + 2 + 0 = 3` and `0 + 1 + 2 = 3`. -/
theorem batch_lookup_example :
    ((exampleScorer Int).lookup_ngram_batch (exampleBatchCollaborators Int)
      [[1, 2, 0], [0, 1, 2]] [0, 0]).log_probs = some [3, 3] := by
  decide

end BatchTheorems

section CacheFrameTheorems

/-- After `set_cache(N)` with `N` other than zero the cache is allocated. -/
theorem set_cache_allocated {R : Type} [Zero R] (nn : neuralNetwork R) (N : Nat)
    (hN : N ≠ 0) : CacheAllocated (nn.set_cache N) := by
  refine ⟨hN, ?_, ?_⟩
  · simp [neuralNetwork.set_cache]
  · simp [neuralNetwork.set_cache, vectorResize_length]

variable {R A : Type} [Zero R] [Mul R] [Sub R]

/-- With caching off, a lookup computes its value on the miss path, does not return through
the hit branch and leaves the scorer as it is. -/
theorem lookup_ngram_cache_off (env : Collaborators R A) (nn : neuralNetwork R)
    (threads : ThreadSettings) (ngram : List Int) (hsz : nn.cache_size = 0) :
    (nn.lookup_ngram env threads ngram).nn = nn
      ∧ (nn.lookup_ngram env threads ngram).hit = false
      ∧ (nn.lookup_ngram env threads ngram).value = computeLogProb env nn ngram := by
  unfold neuralNetwork.lookup_ngram
  simp only [cacheHit, hsz, ne_eq, not_true_eq_false, decide_False, Bool.false_and, if_false,
    Bool.false_eq_true]
  cases computeLogProb env nn ngram with
  | none => exact ⟨rfl, rfl, rfl⟩
  | some v => exact ⟨rfl, rfl, rfl⟩

/-- With caching off, a run of lookups leaves the scorer as it is. -/
theorem scorerAfter_cache_off (env : Collaborators R A) (calls : List (List Int))
    (nn : neuralNetwork R) (threads : ThreadSettings) (hsz : nn.cache_size = 0) :
    scorerAfter env nn threads calls = nn := by
  induction calls generalizing threads with
  | nil => rfl
  | cons g rest ih =>
    unfold scorerAfter
    simp only
    rw [(lookup_ngram_cache_off env nn threads g hsz).1]
    exact ih _

/-- Claim C17 (`set_cache`).  For every `n`, after `set_cache(n)` the key matrix has `n`
columns of `ngram_size_` entries (the assertion at the head of `set_cache` equates
`ngram_size_` with the `ngram_size` of the model), every entry is the sentinel `-1`, the value
array has length `n`, and `cache_lookups = cache_hits = 0`.  After `set_cache(0)`, every run
of single-n-gram `lookup_ngram` calls leaves the scorer, with its keys, values and both
counters, unchanged; and every such call returns the value of the miss path, never through
the hit branch, whatever keys and values the cache holds. -/
theorem set_cache_resets (env : Collaborators R A) (nn : neuralNetwork R) (n : Nat) :
    (nn.set_cache n).cache_keys.length = n
      ∧ (∀ col ∈ (nn.set_cache n).cache_keys,
          col.length = nn.ngram_size_.toNat ∧ ∀ x ∈ col, x = -1)
      ∧ (nn.set_cache n).cache_values.length = n
      ∧ (nn.set_cache n).cache_lookups = 0 ∧ (nn.set_cache n).cache_hits = 0
      ∧ (∀ (threads : ThreadSettings) (calls : List (List Int)),
          scorerAfter env (nn.set_cache 0) threads calls = nn.set_cache 0)
      ∧ (∀ (threads : ThreadSettings) (ngram : List Int) (keys : List (List Int))
          (values : List R),
          (({ nn.set_cache 0 with cache_keys := keys, cache_values := values } :
              neuralNetwork R).lookup_ngram env threads ngram).value
            = ((nn.set_cache 0).lookup_ngram env threads ngram).value
          ∧ ((nn.set_cache 0).lookup_ngram env threads ngram).hit = false) := by
  refine ⟨?_, ?_, ?_, rfl, rfl, ?_, ?_⟩
  · simp [neuralNetwork.set_cache]
  · intro col hcol
    simp only [neuralNetwork.set_cache] at hcol
    rw [List.eq_of_mem_replicate hcol]
    exact ⟨List.length_replicate _ _, fun x hx => List.eq_of_mem_replicate hx⟩
  · simp [neuralNetwork.set_cache, vectorResize_length]
  · intro threads calls
    exact scorerAfter_cache_off env calls (nn.set_cache 0) threads rfl
  · intro threads ngram keys values
    have h1 := lookup_ngram_cache_off env (nn.set_cache 0) threads ngram rfl
    have h2 := lookup_ngram_cache_off env
      ({ nn.set_cache 0 with cache_keys := keys, cache_values := values } : neuralNetwork R)
      threads ngram rfl
    refine ⟨?_, h1.2.1⟩
    rw [h1.2.2, h2.2.2]
    exact computeLogProb_congr env _ _ ngram rfl rfl rfl rfl

/-- A failure of the forward pass leaves both thread settings at `1`: on
`failingCollaborators Int`, a lookup entered with `omp_get_max_threads() = 4` and
`Eigen::nbThreads() = 4` (set by `setNbThreads(4)`) returns no value and ends with
`omp_get_max_threads() = 1` and `Eigen::nbThreads() = 1`. -/
theorem thread_settings_counterexample :
    (⟨4, 4⟩ : ThreadSettings).omp_get_max_threads = 4
      ∧ (⟨4, 4⟩ : ThreadSettings).nbThreads = 4
      ∧ ((exampleScorer Int).lookup_ngram (failingCollaborators Int) ⟨4, 4⟩ [0, 1, 2]).value
          = none
      ∧ ((exampleScorer Int).lookup_ngram (failingCollaborators Int) ⟨4, 4⟩
          [0, 1, 2]).threads.omp_get_max_threads = 1
      ∧ ((exampleScorer Int).lookup_ngram (failingCollaborators Int) ⟨4, 4⟩
          [0, 1, 2]).threads.nbThreads = 1 := by
  decide

/-- Claim C18, amended (thread settings).  A single-n-gram `lookup_ngram` call that returns
through the cache-hit branch touches no thread setting.  After every call that returns a
value, `omp_get_max_threads()` equals its value before the call, and so does
`Eigen::nbThreads()`, with the whole setting, when Eigen's thread count had been set to a
positive value by `setNbThreads` before the call.  A call in which the forward pass raises a
failure leaves `omp_get_max_threads()` and `Eigen::nbThreads()` at `1`. -/
theorem lookup_ngram_thread_settings (env : Collaborators R A) (nn : neuralNetwork R)
    (threads : ThreadSettings) (ngram : List Int) :
    ((nn.lookup_ngram env threads ngram).hit = true →
        (nn.lookup_ngram env threads ngram).threads = threads
          ∧ (nn.lookup_ngram env threads ngram).value ≠ none)
      ∧ ((nn.lookup_ngram env threads ngram).value ≠ none →
        (nn.lookup_ngram env threads ngram).threads.omp_get_max_threads
            = threads.omp_get_max_threads
          ∧ (0 < threads.eigen_max_threads →
              (nn.lookup_ngram env threads ngram).threads.nbThreads = threads.nbThreads
                ∧ (nn.lookup_ngram env threads ngram).threads = threads))
      ∧ ((nn.lookup_ngram env threads ngram).value = none →
        (nn.lookup_ngram env threads ngram).threads.omp_get_max_threads = 1
          ∧ (nn.lookup_ngram env threads ngram).threads.nbThreads = 1) := by
  unfold neuralNetwork.lookup_ngram
  by_cases hhit : cacheHit env nn ngram = true
  · rw [if_pos hhit]
    refine ⟨fun _ => ⟨rfl, fun h => Option.noConfusion h⟩,
      fun _ => ⟨rfl, fun _ => ⟨rfl, rfl⟩⟩, fun h => Option.noConfusion h⟩
  · rw [if_neg hhit]
    cases computeLogProb env
        (if nn.cache_size ≠ 0 then
          { nn with cache_lookups := wrapInt32 (nn.cache_lookups + 1) } else nn) ngram with
    | none =>
      refine ⟨fun h => Bool.noConfusion h, fun h => absurd rfl h, fun _ => ⟨rfl, rfl⟩⟩
    | some v =>
      refine ⟨fun h => Bool.noConfusion h, fun _ => ⟨rfl, fun hpos => ?_⟩,
        fun h => Option.noConfusion h⟩
      have hsave : (threads.omp_set_num_threads 1).nbThreads = threads.eigen_max_threads := by
        unfold ThreadSettings.nbThreads ThreadSettings.omp_set_num_threads
        exact if_pos hpos
      have hthreads : (((threads.omp_set_num_threads 1).setNbThreads 1).setNbThreads
          (threads.omp_set_num_threads 1).nbThreads).omp_set_num_threads
            threads.omp_get_max_threads = threads := by
        rw [hsave]
        rfl
      exact ⟨congrArg ThreadSettings.nbThreads hthreads, hthreads⟩

/-- Instance of `lookup_ngram_thread_settings`: a lookup on `exampleCollaborators Int` that
starts with `omp_get_max_threads() = 4` and Eigen's thread count set to `2` returns the value
`3` and ends with `omp_get_max_threads() = 4` and `Eigen::nbThreads() = 2`. -/
theorem lookup_ngram_thread_settings_witness :
    ((exampleScorer Int).lookup_ngram (exampleCollaborators Int) ⟨4, 2⟩ [1, 0, 2]).value = some 3
      ∧ (0 : Int) < (⟨4, 2⟩ : ThreadSettings).eigen_max_threads
      ∧ ((exampleScorer Int).lookup_ngram (exampleCollaborators Int) ⟨4, 2⟩
          [1, 0, 2]).threads.omp_get_max_threads = 4
      ∧ ((exampleScorer Int).lookup_ngram (exampleCollaborators Int) ⟨4, 2⟩
          [1, 0, 2]).threads.nbThreads = 2 := by
  have hval : ((exampleScorer Int).lookup_ngram (exampleCollaborators Int) ⟨4, 2⟩
      [1, 0, 2]).value = some 3 := by decide
  have h := (lookup_ngram_thread_settings (exampleCollaborators Int) (exampleScorer Int)
    ⟨4, 2⟩ [1, 0, 2]).2.1 (by rw [hval]; exact Option.some_ne_none 3)
  exact ⟨hval, by decide, h.1, (h.2 (by decide)).1⟩

/-- The order of lines 88-91 at work: a lookup entered with `omp_get_max_threads() = 4` and
no thread count stored in Eigen, so that `Eigen::nbThreads() = 4`, saves
`Eigen::nbThreads()` after `omp_set_num_threads(1)`, that is `1`; it returns the value `3`
with `omp_get_max_threads() = 4` again and `Eigen::nbThreads() = 1`. -/
theorem lookup_ngram_eigen_unset_example :
    (⟨4, -1⟩ : ThreadSettings).nbThreads = 4
      ∧ ((exampleScorer Int).lookup_ngram (exampleCollaborators Int) ⟨4, -1⟩ [1, 0, 2]).value
          = some 3
      ∧ ((exampleScorer Int).lookup_ngram (exampleCollaborators Int) ⟨4, -1⟩
          [1, 0, 2]).threads.omp_get_max_threads = 4
      ∧ ((exampleScorer Int).lookup_ngram (exampleCollaborators Int) ⟨4, -1⟩
          [1, 0, 2]).threads.nbThreads = 1 := by
  decide

/-- Claim C20 (direct-mapped replacement).  With caching enabled at capacity `N`, the key
matrix and the value array having `N` slots, let `h = hash(ngram) mod N`.  A single-n-gram
`lookup_ngram` call that misses and returns the value `v` leaves slot `h` holding the probe
n-gram as key and `v` as value, whatever the slot held before, and leaves the key and the
value of every other slot unchanged; a call that hits changes no key and no value; a call in
which the forward pass fails writes nothing; and the cache stays allocated. -/
theorem direct_mapped_replacement (env : Collaborators R A) (nn : neuralNetwork R)
    (threads : ThreadSettings) (ngram : List Int) (halloc : CacheAllocated nn) :
    (∀ v, (nn.lookup_ngram env threads ngram).hit = false →
        (nn.lookup_ngram env threads ngram).value = some v →
        (nn.lookup_ngram env threads ngram).nn.cache_keys[env.hash_value ngram % nn.cache_size]?
            = some ngram
          ∧ (nn.lookup_ngram env threads ngram).nn.cache_values[
              env.hash_value ngram % nn.cache_size]? = some v
          ∧ ∀ i, i ≠ env.hash_value ngram % nn.cache_size →
              (nn.lookup_ngram env threads ngram).nn.cache_keys[i]? = nn.cache_keys[i]?
                ∧ (nn.lookup_ngram env threads ngram).nn.cache_values[i]?
                    = nn.cache_values[i]?)
      ∧ ((nn.lookup_ngram env threads ngram).hit = true →
          (nn.lookup_ngram env threads ngram).nn.cache_keys = nn.cache_keys
            ∧ (nn.lookup_ngram env threads ngram).nn.cache_values = nn.cache_values)
      ∧ ((nn.lookup_ngram env threads ngram).value = none →
          (nn.lookup_ngram env threads ngram).nn.cache_keys = nn.cache_keys
            ∧ (nn.lookup_ngram env threads ngram).nn.cache_values = nn.cache_values)
      ∧ CacheAllocated (nn.lookup_ngram env threads ngram).nn := by
  obtain ⟨hsz, hkl, hvl⟩ := halloc
  have hlt : env.hash_value ngram % nn.cache_size < nn.cache_size :=
    Nat.mod_lt _ (Nat.pos_of_ne_zero hsz)
  unfold neuralNetwork.lookup_ngram
  simp only [hsz, ne_eq, not_false_eq_true, if_true, cacheSlot]
  by_cases hhit : cacheHit env nn ngram = true
  · rw [if_pos hhit]
    refine ⟨?_, ?_, ?_, ?_⟩
    · intro v h
      cases h
    · intro _
      exact ⟨rfl, rfl⟩
    · intro h
      cases h
    · exact ⟨hsz, hkl, hvl⟩
  · rw [if_neg hhit]
    cases computeLogProb env
        { nn with cache_lookups := wrapInt32 (nn.cache_lookups + 1) } ngram with
    | none =>
      refine ⟨?_, ?_, ?_, ?_⟩
      · intro v _ h
        cases h
      · intro h
        cases h
      · intro _
        exact ⟨rfl, rfl⟩
      · exact ⟨hsz, hkl, hvl⟩
    | some w =>
      refine ⟨?_, ?_, ?_, ?_⟩
      · intro v _ hv
        have hwv : w = v := Option.some.inj hv
        subst hwv
        refine ⟨?_, ?_, ?_⟩
        · exact List.getElem?_set_self (by rw [hkl]; exact hlt)
        · exact List.getElem?_set_self (by rw [hvl]; exact hlt)
        · intro i hi
          exact ⟨List.getElem?_set_ne (Ne.symm hi), List.getElem?_set_ne (Ne.symm hi)⟩
      · intro h
        cases h
      · intro h
        cases h
      · refine ⟨hsz, ?_, ?_⟩
        · exact (List.length_set _ _ _).trans hkl
        · exact (List.length_set _ _ _).trans hvl

/-- Instance of `direct_mapped_replacement`: with capacity `2`, after the lookup of
`[1, 0, 2]` has filled slot `1`, the lookup of `[3, 0, 1]` misses, returns `4`, and leaves
slot `1` holding the key `[3, 0, 1]` and the value `4`, and slot `0` as it was. -/
theorem direct_mapped_replacement_witness :
    CacheAllocated (((exampleScorer Int).set_cache 2).lookup_ngram (exampleCollaborators Int)
        ⟨1, 1⟩ [1, 0, 2]).nn
      ∧ (((exampleScorer Int).set_cache 2).lookup_ngram (exampleCollaborators Int)
          ⟨1, 1⟩ [1, 0, 2]).nn.cache_keys = [[-1, -1, -1], [1, 0, 2]]
      ∧ ((((exampleScorer Int).set_cache 2).lookup_ngram (exampleCollaborators Int)
          ⟨1, 1⟩ [1, 0, 2]).nn.lookup_ngram (exampleCollaborators Int)
            ⟨1, 1⟩ [3, 0, 1]).nn.cache_keys[1]? = some [3, 0, 1]
      ∧ ((((exampleScorer Int).set_cache 2).lookup_ngram (exampleCollaborators Int)
          ⟨1, 1⟩ [1, 0, 2]).nn.lookup_ngram (exampleCollaborators Int)
            ⟨1, 1⟩ [3, 0, 1]).nn.cache_values[1]? = some 4
      ∧ ((((exampleScorer Int).set_cache 2).lookup_ngram (exampleCollaborators Int)
          ⟨1, 1⟩ [1, 0, 2]).nn.lookup_ngram (exampleCollaborators Int)
            ⟨1, 1⟩ [3, 0, 1]).nn.cache_keys[0]? = some [-1, -1, -1] := by
  have halloc : CacheAllocated (((exampleScorer Int).set_cache 2).lookup_ngram
      (exampleCollaborators Int) ⟨1, 1⟩ [1, 0, 2]).nn :=
    (direct_mapped_replacement (exampleCollaborators Int) ((exampleScorer Int).set_cache 2)
      ⟨1, 1⟩ [1, 0, 2] (set_cache_allocated _ 2 (by decide))).2.2.2
  have h := (direct_mapped_replacement (exampleCollaborators Int)
    (((exampleScorer Int).set_cache 2).lookup_ngram (exampleCollaborators Int)
        ⟨1, 1⟩ [1, 0, 2]).nn ⟨1, 1⟩ [3, 0, 1] halloc).1 4 (by decide) (by decide)
  refine ⟨halloc, by decide, h.1, h.2.1, ?_⟩
  rw [(h.2.2 0 (by decide)).1]
  decide

end CacheFrameTheorems

section TrailingWhitespaceTheorems

/-- The loop of `findLast` below position `n` reads the characters below `n` only. -/
theorem findLastLoop_append (s t : Line) (pred : Char → Bool) (last n : Nat)
    (hn : n ≤ s.length) :
    findLastLoop (s ++ t) pred 0 last n = findLastLoop s pred 0 last n := by
  induction n with
  | zero => rfl
  | succ i ih =>
    have hi : i < s.length := by omega
    unfold findLastLoop
    rw [List.getD_append _ _ _ _ hi, ih (by omega)]

/-- The loop of `findLast` started at position `n` with two values for `end`, both at least
`n`: either it finds no position and returns `end` in both runs, or it returns the same
position below `n` in both. -/
theorem findLastLoop_last (s : Line) (pred : Char → Bool) (last last2 n : Nat)
    (h1 : n ≤ last) (h2 : n ≤ last2) :
    (findLastLoop s pred 0 last n = last ∧ findLastLoop s pred 0 last2 n = last2)
      ∨ (findLastLoop s pred 0 last n = findLastLoop s pred 0 last2 n
          ∧ findLastLoop s pred 0 last n < n) := by
  induction n with
  | zero => exact Or.inl ⟨rfl, rfl⟩
  | succ i ih =>
    have hpos : i + 1 > 0 := by omega
    have hu : ∀ l : Nat, findLastLoop s pred 0 l (i + 1)
        = if pred (s.getD i ' ') = true then i else findLastLoop s pred 0 l i := by
      intro l
      conv_lhs => unfold findLastLoop
      rw [if_pos hpos]
    rw [hu last, hu last2]
    by_cases hp : pred (s.getD i ' ') = true
    · rw [if_pos hp, if_pos hp]
      exact Or.inr ⟨rfl, by omega⟩
    · rw [if_neg hp, if_neg hp]
      rcases ih (by omega) (by omega) with h | h
      · exact Or.inl h
      · exact Or.inr ⟨h.1, by omega⟩

/-- Right-trimming drops one appended whitespace character. -/
theorem rightTrim_append_space (s : Line) (c : Char) (hc : isspace c = true) :
    rightTrim (s ++ [c]) = rightTrim s := by
  have hpred : NotSpace ((s ++ [c]).getD s.length ' ') = false := by
    rw [List.getD_append_right _ _ _ _ (le_refl _)]
    simp [NotSpace, hc]
  have hstep : findLast (s ++ [c]) 0 (s ++ [c]).length NotSpace
      = findLastLoop s NotSpace 0 (s.length + 1) s.length := by
    unfold findLast
    rw [List.length_append, List.length_singleton]
    conv_lhs => unfold findLastLoop
    rw [if_pos (by omega), hpred]
    simp only [Bool.false_eq_true, if_false]
    exact findLastLoop_append s [c] NotSpace (s.length + 1) s.length (le_refl _)
  unfold rightTrim
  simp only
  rw [hstep, List.length_append, List.length_singleton]
  unfold findLast
  rcases findLastLoop_last s NotSpace (s.length + 1) s.length s.length (by omega) (le_refl _)
    with ⟨h1, h2⟩ | ⟨h1, h2⟩
  · rw [h1, h2, if_pos rfl, if_pos rfl]
  · rw [h1] at h2 ⊢
    rw [if_neg (by omega), if_neg (by omega), List.take_append_of_le_length (by omega)]

/-- Right-trimming drops appended whitespace. -/
theorem rightTrim_append_whitespace (s ws : Line) (hws : ∀ c ∈ ws, isspace c = true) :
    rightTrim (s ++ ws) = rightTrim s := by
  induction ws generalizing s with
  | nil => rw [List.append_nil]
  | cons c ws ih =>
    have happ : s ++ c :: ws = (s ++ [c]) ++ ws := by simp
    rw [happ, ih (s ++ [c]) (fun x hx => hws x (List.mem_cons_of_mem _ hx)),
      rightTrim_append_space s c (hws c (List.mem_cons_self _ _))]

/-- Whitespace appended to the line that the loop of `model::read` takes at the head of a
pass, a marker line or a blank line, does not change the pass, nor the result of the
reading. -/
theorem read_trailing_whitespace {R : Type} (env : FileCollaborators R) (uninit : ConfigLocals)
    (st : ReadState R) (raw ws : Line) (rest : Stream) (hws : ∀ c ∈ ws, isspace c = true) :
    sectionStep env uninit st ((raw ++ ws) :: rest) = sectionStep env uninit st (raw :: rest)
      ∧ model.read env uninit st ((raw ++ ws) :: rest)
          = model.read env uninit st (raw :: rest) := by
  have hstep : sectionStep env uninit st ((raw ++ ws) :: rest)
      = sectionStep env uninit st (raw :: rest) := by
    simp only [sectionStep, rightTrim_append_whitespace raw ws hws]
  exact ⟨hstep, by rw [read_eq, hstep, ← read_eq]⟩

/-- Whitespace appended to a line that the loop at `skip_section` takes does not change where
the skipped section ends. -/
theorem skip_section_trailing_whitespace (raw ws : Line) (rest : Stream)
    (hws : ∀ c ∈ ws, isspace c = true) :
    skip_section ((raw ++ ws) :: rest) = skip_section (raw :: rest) := by
  unfold skip_section
  rw [rightTrim_append_whitespace raw ws hws]

/-- The loop of `readConfig` compares the line as it is with the empty string: a line of
whitespace only does not end the config section, it goes through the body of the loop. -/
theorem readConfigLoop_whitespace_line {R : Type} (env : FileCollaborators R)
    (cs : ConfigState R) (ws : Line) (rest : Stream) (hne : ws ≠ []) :
    readConfigLoop env cs (ws :: rest)
      = match readConfigLine env cs ws with
        | .ok cs1 => readConfigLoop env cs1 rest
        | .error f => .error f := by
  conv_lhs => unfold readConfigLoop
  rw [if_neg hne]

/-- Claim C19 at a failing input.  The stream `\config`, `ngram_size 3`, empty line,
`\input_vocab`, `a`, `b`, empty line, `\end` is read with `ngram_size = 3`, the words `a` and
`b`, and no warning.  With a carriage return, which right-trimming strips, appended to the
empty line that ends the config section, `readConfig` does not take that line as the end of
the section: it goes on through the lines of the next section as config lines with
unrecognised keys, and the word list stays empty. -/
theorem read_config_blank_line_not_trimmed :
    rightTrim ([] ++ "\r".toList) = []
      ∧ (model.read (exampleFileCollaborators Int) ⟨0, 0, 0, 0⟩
          (freshReadState (exampleModel Int))
          ["\\config".toList, "ngram_size 3".toList, [],
           "\\input_vocab".toList, "a".toList, "b".toList, [], "\\end".toList]).toOption.map
            (fun st => (st.m.ngram_size, st.input_words, st.cerr))
        = some (3, ["a".toList, "b".toList], [])
      ∧ (model.read (exampleFileCollaborators Int) ⟨0, 0, 0, 0⟩
          (freshReadState (exampleModel Int))
          ["\\config".toList, "ngram_size 3".toList, [] ++ "\r".toList,
           "\\input_vocab".toList, "a".toList, "b".toList, [], "\\end".toList]).toOption.map
            (fun st => (st.m.ngram_size, st.input_words, st.cerr))
        = some (3, [],
            ["warning: unrecognized field in config: \r".toList,
             "warning: unrecognized field in config: \\input_vocab".toList,
             "warning: unrecognized field in config: a".toList,
             "warning: unrecognized field in config: b".toList]) := by
  refine ⟨by decide, by decide, by decide⟩

end TrailingWhitespaceTheorems

section RightTrimTheorems

/-- The loop of `findLast` started at position `n`: either it returns `end` and no position
in `[begin, n)` satisfies the predicate, or it returns a position in `[begin, n)` that
satisfies the predicate and no greater position below `n` does. -/
theorem findLastLoop_spec (s : Line) (pred : Char → Bool) (begin last n : Nat) (hn : n ≤ last) :
    (findLastLoop s pred begin last n = last
        ∧ ∀ i, begin ≤ i → i < n → pred (s.getD i ' ') = false)
      ∨ (begin ≤ findLastLoop s pred begin last n ∧ findLastLoop s pred begin last n < n
          ∧ pred (s.getD (findLastLoop s pred begin last n) ' ') = true
          ∧ ∀ j, findLastLoop s pred begin last n < j → j < n → pred (s.getD j ' ') = false) := by
  induction n with
  | zero =>
    left
    exact ⟨rfl, fun i _ hi => absurd hi (Nat.not_lt_zero i)⟩
  | succ i ih =>
    by_cases hb : i + 1 > begin
    · by_cases hp : pred (s.getD i ' ') = true
      · have hu : findLastLoop s pred begin last (i + 1) = i := by
          conv_lhs => unfold findLastLoop
          rw [if_pos hb, if_pos hp]
        right
        rw [hu]
        exact ⟨by omega, by omega, hp, fun j h1 h2 => by omega⟩
      · have hu : findLastLoop s pred begin last (i + 1) = findLastLoop s pred begin last i := by
          conv_lhs => unfold findLastLoop
          rw [if_pos hb, if_neg hp]
        have hpf : pred (s.getD i ' ') = false := by
          cases h : pred (s.getD i ' ')
          · rfl
          · exact absurd h hp
        rw [hu]
        rcases ih (by omega) with ⟨h1, h2⟩ | ⟨h1, h2, h3, h4⟩
        · left
          refine ⟨h1, fun j hj1 hj2 => ?_⟩
          by_cases hji : j = i
          · rw [hji]; exact hpf
          · exact h2 j hj1 (by omega)
        · right
          refine ⟨h1, by omega, h3, fun j hj1 hj2 => ?_⟩
          by_cases hji : j = i
          · rw [hji]; exact hpf
          · exact h4 j hj1 (by omega)
    · have hu : findLastLoop s pred begin last (i + 1) = last := by
        conv_lhs => unfold findLastLoop
        rw [if_neg hb]
      left
      exact ⟨hu, fun j hj1 hj2 => by omega⟩

/-- Right-trimming of the empty string. -/
theorem rightTrim_nil : rightTrim [] = [] := by
  decide

/-- Right-trimming of a string by its last character: a whitespace character is dropped and
the rest is trimmed, any other last character keeps the whole string. -/
theorem rightTrim_snoc (t : Line) (c : Char) :
    rightTrim (t ++ [c]) = if isspace c = true then rightTrim t else t ++ [c] := by
  by_cases hc : isspace c = true
  · rw [if_pos hc]
    exact rightTrim_append_space t c hc
  · rw [if_neg hc]
    have hpred : NotSpace ((t ++ [c]).getD t.length ' ') = true := by
      rw [List.getD_append_right _ _ _ _ (le_refl _)]
      simpa [NotSpace] using hc
    have hpos : t.length + 1 > 0 := by omega
    have hfind : findLast (t ++ [c]) 0 (t ++ [c]).length NotSpace = t.length := by
      unfold findLast
      rw [List.length_append, List.length_singleton]
      conv_lhs => unfold findLastLoop
      rw [if_pos hpos, if_pos hpred]
    unfold rightTrim
    simp only
    rw [hfind, List.length_append, List.length_singleton, if_neg (by omega)]
    exact List.take_of_length_le (by simp)

/-- A string that is empty or ends in a character that is not whitespace. -/
theorem rightTrim_of_trimmed (p : Line)
    (hp : p = [] ∨ ∃ c, p.getLast? = some c ∧ isspace c = false) : rightTrim p = p := by
  rcases hp with rfl | ⟨c, hlast, hc⟩
  · exact rightTrim_nil
  · induction p using List.reverseRecOn with
    | nil => exact rightTrim_nil
    | append_singleton t d _ =>
      rw [List.getLast?_concat] at hlast
      have hdc : d = c := Option.some.inj hlast
      rw [rightTrim_snoc, if_neg (by rw [hdc, hc]; decide)]

/-- What right-trimming removes is a suffix of whitespace. -/
theorem rightTrim_suffix (s : Line) :
    ∃ ws, s = rightTrim s ++ ws ∧ ∀ c ∈ ws, isspace c = true := by
  induction s using List.reverseRecOn with
  | nil => exact ⟨[], by rw [rightTrim_nil]; rfl, fun c hc => absurd hc (List.not_mem_nil c)⟩
  | append_singleton t d ih =>
    rw [rightTrim_snoc]
    by_cases hd : isspace d = true
    · rw [if_pos hd]
      obtain ⟨ws, hws1, hws2⟩ := ih
      refine ⟨ws ++ [d], ?_, ?_⟩
      · rw [← List.append_assoc, ← hws1]
      · intro c hc
        rcases List.mem_append.mp hc with h | h
        · exact hws2 c h
        · rw [List.mem_singleton.mp h]; exact hd
    · rw [if_neg hd]
      exact ⟨[], (List.append_nil _).symm, fun c hc => absurd hc (List.not_mem_nil c)⟩

/-- A right-trimmed string is empty or ends in a character that is not whitespace. -/
theorem rightTrim_trimmed (s : Line) :
    rightTrim s = [] ∨ ∃ c, (rightTrim s).getLast? = some c ∧ isspace c = false := by
  induction s using List.reverseRecOn with
  | nil => exact Or.inl rightTrim_nil
  | append_singleton t d ih =>
    rw [rightTrim_snoc]
    by_cases hd : isspace d = true
    · rw [if_pos hd]
      exact ih
    · rw [if_neg hd]
      right
      refine ⟨d, List.getLast?_concat t, ?_⟩
      cases h : isspace d
      · rfl
      · exact absurd h hd

/-- No prefix that is empty or ends in a character that is not whitespace is longer than the
right-trimmed string. -/
theorem rightTrim_longest (s : Line) :
    ∀ p, p <+: s → (p = [] ∨ ∃ c, p.getLast? = some c ∧ isspace c = false) →
      p.length ≤ (rightTrim s).length := by
  induction s using List.reverseRecOn with
  | nil =>
    intro p hp _
    rw [List.prefix_nil.mp hp]
    exact Nat.zero_le _
  | append_singleton t d ih =>
    intro p hp hlast
    rw [rightTrim_snoc]
    by_cases hd : isspace d = true
    · rw [if_pos hd]
      rcases List.prefix_concat_iff.mp hp with heq | hpre
      · exfalso
        rcases hlast with hnil | ⟨c, hc1, hc2⟩
        · rw [hnil] at heq
          exact List.cons_ne_nil _ _ (List.append_eq_nil.mp heq.symm).2
        · rw [heq, List.getLast?_concat] at hc1
          rw [Option.some.inj hc1, hc2] at hd
          exact Bool.noConfusion hd
      · exact ih p hpre hlast
    · rw [if_neg hd]
      exact hp.length_le

/-- Claim C21 (`findLast` and `rightTrim`).  On the positions `[begin, end)` of a string,
`findLast` returns either `end`, and then no position of the range satisfies the predicate, or
a position of the range that satisfies the predicate, and then no greater position of the
range does (for `end` up to the length of the string, `getD` reads the elements of the
string).  For every string `s`, `rightTrim s` is a prefix of `s`, the removed suffix is
whitespace only, the result is empty or ends in a character that is not whitespace, every
prefix of `s` that is empty or ends in such a character is at most as long, and
`rightTrim` is idempotent. -/
theorem findLast_rightTrim_spec (s : Line) (pred : Char → Bool) (begin last : Nat) :
    ((findLast s begin last pred = last
          ∧ ∀ i, begin ≤ i → i < last → pred (s.getD i ' ') = false)
        ∨ (begin ≤ findLast s begin last pred ∧ findLast s begin last pred < last
            ∧ pred (s.getD (findLast s begin last pred) ' ') = true
            ∧ ∀ j, findLast s begin last pred < j → j < last → pred (s.getD j ' ') = false))
      ∧ rightTrim s <+: s
      ∧ (∃ ws, s = rightTrim s ++ ws ∧ ∀ c ∈ ws, isspace c = true)
      ∧ (rightTrim s = [] ∨ ∃ c, (rightTrim s).getLast? = some c ∧ isspace c = false)
      ∧ (∀ p, p <+: s → (p = [] ∨ ∃ c, p.getLast? = some c ∧ isspace c = false) →
          p.length ≤ (rightTrim s).length)
      ∧ rightTrim (rightTrim s) = rightTrim s := by
  refine ⟨findLastLoop_spec s pred begin last last (le_refl _), ?_, rightTrim_suffix s,
    rightTrim_trimmed s, rightTrim_longest s, rightTrim_of_trimmed _ (rightTrim_trimmed s)⟩
  obtain ⟨ws, hws, _⟩ := rightTrim_suffix s
  exact ⟨ws, hws.symm⟩

/-- An evaluation of `rightTrim`: blanks inside the string stay, the trailing blank, tab and
carriage return go. -/
theorem rightTrim_example : rightTrim "a b \t\r".toList = "a b".toList := by
  decide

end RightTrimTheorems

section StartNullTheorems

/-- Closed form of the n-gram without padding: when the array holds `n >= want` tokens,
`startNullNgram` is the array without its first `n - want` tokens. -/
theorem startNullNgram_long (want : Int) (ngram_a : List Int) (n start null : Int)
    (hlen : (ngram_a.length : Int) = n) (hn : want ≤ n) :
    startNullNgram want ngram_a n start null = ngram_a.drop (n - want).toNat := by
  have hmissing : ¬ (want - n > 0) := by omega
  have hfirst : (-(want - n)).toNat = (n - want).toNat := by
    congr 1
    omega
  unfold startNullNgram
  simp only [hmissing, if_false, hfirst]
  have hfun : (fun (g : List Int) (i : Nat) => g.set i (ngram_a.getD ((n - want).toNat + i) 0))
      = (fun (g : List Int) (i : Nat) =>
          g.set (0 + i) ((fun k => ngram_a.getD ((n - want).toNat + k) 0) i)) := by
    funext g i; simp
  rw [hfun]
  apply List.ext_getElem?
  intro x
  rw [foldl_set_getElem, List.length_replicate, List.getElem?_drop]
  by_cases hx : x < want.toNat
  · have c1 : 0 ≤ x ∧ x < 0 + want.toNat ∧ x < want.toNat := by omega
    have hlt : (n - want).toNat + x < ngram_a.length := by omega
    rw [if_pos c1, List.getElem?_eq_getElem hlt, List.getD_eq_getElem _ _ (by omega)]
    simp
  · have c1 : ¬ (0 ≤ x ∧ x < 0 + want.toNat ∧ x < want.toNat) := by omega
    rw [if_neg c1, List.getElem?_eq_none (by simp; omega), List.getElem?_eq_none (by omega)]

/-- Claim C22 (no padding for a long array).  For a token array `a` of length
`n >= ngram_size`, `lookup_ngram_start_null` passes to `lookup_ngram` exactly the last
`ngram_size` tokens of `a`, in order: entry `i` of the n-gram is `a[n - ngram_size + i]`, no
entry is a padding symbol, whatever the start and null symbols are. -/
theorem lookup_ngram_start_null_no_padding {R A : Type} [Zero R] [Mul R] [Sub R]
    (env : Collaborators R A) (nn : neuralNetwork R) (threads : ThreadSettings)
    (ngram_a : List Int) (n start null : Int)
    (hlen : (ngram_a.length : Int) = n) (hn : nn.ngram_size_ ≤ n) :
    nn.lookup_ngram_start_null env threads ngram_a n start null
        = nn.lookup_ngram env threads (ngram_a.drop (n - nn.ngram_size_).toNat)
      ∧ startNullNgram nn.ngram_size_ ngram_a n start null
          = ngram_a.drop (n - nn.ngram_size_).toNat
      ∧ (startNullNgram nn.ngram_size_ ngram_a n start null).length = nn.ngram_size_.toNat
      ∧ ∀ i : Nat, i < nn.ngram_size_.toNat →
          (startNullNgram nn.ngram_size_ ngram_a n start null)[i]?
            = ngram_a[(n - nn.ngram_size_).toNat + i]? := by
  have h := startNullNgram_long nn.ngram_size_ ngram_a n start null hlen hn
  refine ⟨?_, h, ?_, ?_⟩
  · unfold neuralNetwork.lookup_ngram_start_null
    rw [h]
  · rw [h, List.length_drop]
    omega
  · intro i _
    rw [h, List.getElem?_drop]

/-- Instance of `lookup_ngram_start_null_no_padding`: with `ngram_size_ = 3`, start symbol
`5` and null symbol `0`, the array `[5, 6, 7, 8]` is passed on as `[6, 7, 8]`. -/
theorem lookup_ngram_start_null_no_padding_witness :
    ((([5, 6, 7, 8] : List Int).length : Int) = 4) ∧ (exampleScorer Int).ngram_size_ ≤ 4
      ∧ startNullNgram (exampleScorer Int).ngram_size_ [5, 6, 7, 8] 4 5 0 = [6, 7, 8] :=
  ⟨by decide, by decide,
    (lookup_ngram_start_null_no_padding (exampleCollaborators Int) (exampleScorer Int) ⟨1, 1⟩
      [5, 6, 7, 8] 4 5 0 (by decide) (by decide)).2.1⟩

end StartNullTheorems

section MinibatchTheorems

/-- For a test set and a minibatch size of at least one, the number of minibatches is the
quotient `q` of `test_data_size - 1` by `minibatch_size`, plus one, and
`minibatch_size * q <= test_data_size - 1 < minibatch_size * q + minibatch_size`. -/
theorem num_batches_bounds (test_data_size minibatch_size : Int) (hsize : 1 ≤ test_data_size)
    (hmb : 1 ≤ minibatch_size) :
    1 ≤ num_batches test_data_size minibatch_size
      ∧ minibatch_size * (num_batches test_data_size minibatch_size - 1) ≤ test_data_size - 1
      ∧ test_data_size - 1 < minibatch_size * num_batches test_data_size minibatch_size := by
  unfold num_batches
  rw [Int.tdiv_eq_ediv (by omega) (by omega)]
  have h0 : 0 ≤ (test_data_size - 1) / minibatch_size :=
    Int.ediv_nonneg (by omega) (by omega)
  have h1 := Int.ediv_mul_le (test_data_size - 1) (show minibatch_size ≠ 0 by omega)
  have h2 := Int.lt_ediv_add_one_mul_self (test_data_size - 1) (show 0 < minibatch_size by omega)
  refine ⟨by omega, ?_, ?_⟩
  · rw [Int.add_sub_cancel, Int.mul_comm]
    exact h1
  · rw [Int.mul_comm]
    exact h2

/-- The start and the size of the minibatch of a pass `0 <= batch < num_batches`: the start
is `minibatch_size * batch <= test_data_size - 1`, and the next start, if any, is at least
`minibatch_size` further. -/
theorem minibatch_start_bounds (test_data_size minibatch_size batch : Int)
    (hsize : 1 ≤ test_data_size) (hmb : 1 ≤ minibatch_size) (h0 : 0 ≤ batch)
    (h1 : batch < num_batches test_data_size minibatch_size) :
    0 ≤ minibatch_size * batch ∧ minibatch_size * batch ≤ test_data_size - 1 := by
  obtain ⟨_, hq1, _⟩ := num_batches_bounds test_data_size minibatch_size hsize hmb
  have ha : minibatch_size * batch
      ≤ minibatch_size * (num_batches test_data_size minibatch_size - 1) :=
    Int.mul_le_mul_of_nonneg_left (by omega) (by omega)
  have hb : minibatch_size * 0 ≤ minibatch_size * batch :=
    Int.mul_le_mul_of_nonneg_left h0 (by omega)
  rw [Int.mul_zero] at hb
  exact ⟨hb, by omega⟩

/-- The minibatches of the first `k` passes of the loop, one after the other, are the
columns `0, 1, ...` up to the start of pass `k`, or up to the end of the test set. -/
theorem minibatches_prefix (test_data_size minibatch_size : Int) (hsize : 1 ≤ test_data_size)
    (hmb : 1 ≤ minibatch_size) (k : Nat)
    (hk : (k : Int) ≤ num_batches test_data_size minibatch_size) :
    ((List.range k).map
        (fun batch : Nat => minibatchColumns test_data_size minibatch_size (batch : Int))).flatten
      = (List.range (min (minibatch_size * k) test_data_size).toNat).map
          (fun x : Nat => (x : Int)) := by
  induction k with
  | zero =>
    have h0 : (min (minibatch_size * ((0 : Nat) : Int)) test_data_size).toNat = 0 := by
      simp only [Nat.cast_zero, Int.mul_zero]
      omega
    rw [h0]
    rfl
  | succ k ih =>
    have hk1 : (k : Int) < num_batches test_data_size minibatch_size := by
      push_cast at hk
      omega
    obtain ⟨hs0, hs1⟩ := minibatch_start_bounds test_data_size minibatch_size k hsize hmb
      (by omega) hk1
    rw [List.range_succ, List.map_append, List.flatten_append, ih (by omega)]
    simp only [List.map_cons, List.map_nil, List.flatten_cons, List.flatten_nil, List.append_nil]
    unfold minibatchColumns current_minibatch_size minibatch_start_index
    obtain ⟨a, ha⟩ := Int.eq_ofNat_of_zero_le hs0
    have hmin1 : (min (minibatch_size * (k : Int)) test_data_size).toNat = a := by
      rw [ha]
      omega
    have hmin2 : (min (minibatch_size * ((k + 1 : Nat) : Int)) test_data_size).toNat
        = a + (min minibatch_size (test_data_size - minibatch_size * (k : Int))).toNat := by
      have hexp : minibatch_size * ((k + 1 : Nat) : Int)
          = minibatch_size * (k : Int) + minibatch_size := by
        push_cast
        ring
      rw [hexp, ha]
      omega
    rw [hmin1, hmin2, List.range_add, List.map_append, List.map_map, ha]
    congr 1

/-- Claim C23 (the minibatches partition the test set).  For `test_data_size >= 1` and
`minibatch_size >= 1`, with `num_batches = (test_data_size - 1) / minibatch_size + 1`, the
column ranges `[start_b, start_b + size_b)` of the passes `b = 0 .. num_batches - 1`, where
`start_b = minibatch_size * b` and `size_b = min(minibatch_size, test_data_size - start_b)`,
are non-empty, of size at most `minibatch_size`, inside `[0, test_data_size)`, pairwise
disjoint (each ends where or before the next one starts), and their union is exactly
`[0, test_data_size)`: every test instance lies in exactly one of them, and the minibatches,
one after the other in loop order, are the columns `0, 1, ..., test_data_size - 1`. -/
theorem minibatches_partition (test_data_size minibatch_size : Int)
    (hsize : 1 ≤ test_data_size) (hmb : 1 ≤ minibatch_size) :
    (∀ b, 0 ≤ b → b < num_batches test_data_size minibatch_size →
        1 ≤ current_minibatch_size test_data_size minibatch_size b
          ∧ current_minibatch_size test_data_size minibatch_size b ≤ minibatch_size
          ∧ 0 ≤ minibatch_start_index minibatch_size b
          ∧ minibatch_start_index minibatch_size b
              + current_minibatch_size test_data_size minibatch_size b ≤ test_data_size)
      ∧ (∀ b b2, 0 ≤ b → b < b2 → b2 < num_batches test_data_size minibatch_size →
          minibatch_start_index minibatch_size b
              + current_minibatch_size test_data_size minibatch_size b
            ≤ minibatch_start_index minibatch_size b2)
      ∧ (∀ x, (0 ≤ x ∧ x < test_data_size)
          ↔ ∃ b, 0 ≤ b ∧ b < num_batches test_data_size minibatch_size
              ∧ minibatch_start_index minibatch_size b ≤ x
              ∧ x < minibatch_start_index minibatch_size b
                  + current_minibatch_size test_data_size minibatch_size b)
      ∧ (∀ x, 0 ≤ x → x < test_data_size →
          ∃! b, 0 ≤ b ∧ b < num_batches test_data_size minibatch_size
              ∧ minibatch_start_index minibatch_size b ≤ x
              ∧ x < minibatch_start_index minibatch_size b
                  + current_minibatch_size test_data_size minibatch_size b)
      ∧ (minibatches test_data_size minibatch_size).flatten
          = (List.range test_data_size.toNat).map (fun x : Nat => (x : Int)) := by
  obtain ⟨hq0, hq1, hq2⟩ := num_batches_bounds test_data_size minibatch_size hsize hmb
  have hpart1 : ∀ b, 0 ≤ b → b < num_batches test_data_size minibatch_size →
      1 ≤ current_minibatch_size test_data_size minibatch_size b
        ∧ current_minibatch_size test_data_size minibatch_size b ≤ minibatch_size
        ∧ 0 ≤ minibatch_start_index minibatch_size b
        ∧ minibatch_start_index minibatch_size b
            + current_minibatch_size test_data_size minibatch_size b ≤ test_data_size := by
    intro b hb0 hb1
    obtain ⟨hs0, hs1⟩ := minibatch_start_bounds test_data_size minibatch_size b hsize hmb
      hb0 hb1
    unfold current_minibatch_size minibatch_start_index
    omega
  have hpart2 : ∀ b b2, 0 ≤ b → b < b2 → b2 < num_batches test_data_size minibatch_size →
      minibatch_start_index minibatch_size b
          + current_minibatch_size test_data_size minibatch_size b
        ≤ minibatch_start_index minibatch_size b2 := by
    intro b b2 hb0 hlt hb2
    have hmul : minibatch_size * (b + 1) ≤ minibatch_size * b2 :=
      Int.mul_le_mul_of_nonneg_left (by omega) (by omega)
    rw [Int.mul_add, Int.mul_one] at hmul
    unfold current_minibatch_size minibatch_start_index
    omega
  have hpart3 : ∀ x, 0 ≤ x → x < test_data_size →
      ∃ b, 0 ≤ b ∧ b < num_batches test_data_size minibatch_size
        ∧ minibatch_start_index minibatch_size b ≤ x
        ∧ x < minibatch_start_index minibatch_size b
            + current_minibatch_size test_data_size minibatch_size b := by
    intro x hx0 hx1
    have hb0 : 0 ≤ x / minibatch_size := Int.ediv_nonneg hx0 (by omega)
    have hb1 : x / minibatch_size < num_batches test_data_size minibatch_size :=
      Int.ediv_lt_of_lt_mul (by omega) (by rw [Int.mul_comm]; omega)
    have hlo := Int.ediv_mul_le x (show minibatch_size ≠ 0 by omega)
    have hhi := Int.lt_ediv_add_one_mul_self x (show 0 < minibatch_size by omega)
    rw [Int.add_mul, Int.one_mul] at hhi
    rw [Int.mul_comm] at hlo hhi
    refine ⟨x / minibatch_size, hb0, hb1, ?_, ?_⟩
    · unfold minibatch_start_index
      exact hlo
    · unfold current_minibatch_size minibatch_start_index
      omega
  refine ⟨hpart1, hpart2, ?_, ?_, ?_⟩
  · intro x
    constructor
    · rintro ⟨hx0, hx1⟩
      exact hpart3 x hx0 hx1
    · rintro ⟨b, hb0, hb1, hlo, hhi⟩
      obtain ⟨_, _, h3, h4⟩ := hpart1 b hb0 hb1
      exact ⟨by omega, by omega⟩
  · intro x hx0 hx1
    obtain ⟨b, hb0, hb1, hlo, hhi⟩ := hpart3 x hx0 hx1
    refine ⟨b, ⟨hb0, hb1, hlo, hhi⟩, ?_⟩
    rintro b2 ⟨hc0, hc1, hlo2, hhi2⟩
    by_contra hne
    rcases lt_or_gt_of_ne hne with hlt | hgt
    · have := hpart2 b2 b hc0 hlt hb1
      omega
    · have := hpart2 b b2 hb0 hgt hc1
      omega
  · unfold minibatches
    obtain ⟨n, hn⟩ := Int.eq_ofNat_of_zero_le (show 0 ≤ num_batches test_data_size
      minibatch_size by omega)
    have hnn : (num_batches test_data_size minibatch_size).toNat = n := by
      rw [hn]
      rfl
    have hn2 : (n : Int) = num_batches test_data_size minibatch_size := hn.symm
    rw [hnn, minibatches_prefix test_data_size minibatch_size hsize hmb n (le_of_eq hn2)]
    have hmin : min (minibatch_size * (n : Int)) test_data_size = test_data_size := by
      rw [hn2]
      omega
    rw [hmin]

/-- Instance of `minibatches_partition`: ten test instances in minibatches of four are
scored in three passes, on the columns `0..3`, `4..7` and `8..9`. -/
theorem minibatches_partition_witness :
    (1 : Int) ≤ 10 ∧ (1 : Int) ≤ 4 ∧ num_batches 10 4 = 3
      ∧ minibatches 10 4 = [[0, 1, 2, 3], [4, 5, 6, 7], [8, 9]]
      ∧ (minibatches 10 4).flatten = (List.range (10 : Int).toNat).map (fun x : Nat => (x : Int)) :=
  ⟨by decide, by decide, by decide, by decide,
    (minibatches_partition 10 4 (by decide) (by decide)).2.2.2.2⟩

end MinibatchTheorems

end nplm
